import Mathlib

/-!
Shallow embedding of the board-layout ordering engine of the retro backend
(`src/retro/retro.service.ts`): the data model (boards, columns, groups and
items carrying integer order keys), the renumbering algorithm
(`normalizeColumnRootEntryOrder`, `normalizeGroupItemsOrder`), the batch
position syncs (`syncItemPositions`, `syncGroupPositions`) and the
structural mutation operations (create/delete/reorder).

Modelling conventions: textual fields (names, descriptions, colors) do not
influence ordering and are omitted; user ids are modelled as naturals; the
Prisma store is a record of lists; a fetch with `orderBy` is a stable
insertion sort of the filtered list (JavaScript array sort is stable, and
the database orderings used by the service are made total by `id`
tie-breaks wherever the result order matters); `$transaction` is a pure
state transformer whose validation errors abort before any write,
mirroring the TypeScript control flow in which every `throw` happens
before the transaction starts.
-/

namespace Retro

/-- Kind of a root-level entry of a column (`RootEntryType` in the source). -/
inductive EntryType where
  | ITEM
  | GROUP
deriving DecidableEq

/-- A retro item (`retro_items` row): id, owning column, optional group,
and `rowIndex`, its order key within its container. -/
structure Item where
  id : Nat
  columnId : Nat
  groupId : Option Nat
  rowIndex : Int
deriving DecidableEq

/-- A retro group (`retro_groups` row): id, owning column and `orderIndex`,
its order key within the column's root-level sequence. -/
structure Group where
  id : Nat
  columnId : Nat
  orderIndex : Int
deriving DecidableEq

/-- A retro column (`retro_columns` row): id, owning board and `orderIndex`
among the board's columns. -/
structure Column where
  id : Nat
  boardId : Nat
  orderIndex : Int
deriving DecidableEq

/-- A retro board (`retro_boards` row): id and owning team. -/
structure Board where
  id : Nat
  teamId : Nat
deriving DecidableEq

/-- A team membership (`team_members` row), the access-control fact used by
the service's `team.members.some { userId }` joins. -/
structure Membership where
  teamId : Nat
  userId : Nat
deriving DecidableEq

/-- The persistent store: one list per table, plus the next value of each
serial primary-key sequence. -/
structure State where
  boards : List Board
  columns : List Column
  groups : List Group
  items : List Item
  members : List Membership
  nextColumnId : Nat
  nextGroupId : Nat
  nextItemId : Nat
deriving DecidableEq

/-- Error taxonomy of the service (`NotFoundException`,
`BadRequestException`, `ForbiddenException`). -/
inductive ErrKind where
  | notFound
  | badRequest
  | forbidden
deriving DecidableEq

/-! ### Sorting

JavaScript's `Array.prototype.sort` with a numeric comparator is stable;
`orderBy` fetches are modelled the same way. Both are embedded as
Mathlib's stable `List.insertionSort` over the relation `cmp a b ≤ 0`. -/

/-- The non-strict relation induced by a JavaScript-style numeric
comparator. -/
def leOfCmp (cmp : α → α → Int) : α → α → Prop := fun a b => cmp a b ≤ 0

instance (cmp : α → α → Int) : DecidableRel (leOfCmp cmp) := fun _ _ => Int.decLe _ _

/-- Stable sort by a JavaScript-style numeric comparator. -/
def sortByCmp (cmp : α → α → Int) (l : List α) : List α :=
  List.insertionSort (leOfCmp cmp) l

/-- Comparator for item fetches ordered by `[{ rowIndex: 'asc' }, { id: 'asc' }]`. -/
def itemKeyCmp (a b : Item) : Int :=
  if a.rowIndex ≠ b.rowIndex then a.rowIndex - b.rowIndex else (a.id : Int) - b.id

/-- Comparator for group fetches ordered by `[{ orderIndex: 'asc' }, { id: 'asc' }]`. -/
def groupKeyCmp (a b : Group) : Int :=
  if a.orderIndex ≠ b.orderIndex then a.orderIndex - b.orderIndex else (a.id : Int) - b.id

/-- Comparator for item fetches ordered by `{ rowIndex: 'asc' }` alone
(`deleteGroup`'s grouped-items fetch); ties keep store order. -/
def itemRowOnlyCmp (a b : Item) : Int := a.rowIndex - b.rowIndex

/-- Comparator for column fetches ordered by `{ orderIndex: 'asc' }`;
ties keep store order. -/
def columnOrderCmp (a b : Column) : Int := a.orderIndex - b.orderIndex

/-! ### Root entries, preference maps, renumbering -/

/-- A root-level entry token `{type, id, index}` as built by
`normalizeColumnRootEntryOrder` and `deleteGroup`. -/
structure Entry where
  type : EntryType
  id : Nat
  index : Int
deriving DecidableEq

/-- `RootEntryMoveMeta`: the per-batch hint recorded for an explicitly
moved root entry. -/
structure RootEntryMoveMeta where
  oldIndex : Option Int
  newIndex : Int
  changeOrder : Nat
deriving DecidableEq

/-- A preference map keyed by `type:id` (a JavaScript `Map`; later `set`
calls shadow earlier ones, modelled by prepending and first-match
lookup). -/
def PrefMap : Type := List ((EntryType × Nat) × RootEntryMoveMeta)

/-- `Map.get` on a preference map. -/
def prefGet (m : PrefMap) (k : EntryType × Nat) : Option RootEntryMoveMeta :=
  (m.find? (fun e => decide (e.1 = k))).map (·.2)

/-- `Map.set` on a preference map. -/
def prefSet (m : PrefMap) (k : EntryType × Nat) (v : RootEntryMoveMeta) : PrefMap :=
  (k, v) :: m

/-- The per-column collection of preference maps
(`preferredEntriesByColumn`). -/
def ColPrefs : Type := List (Nat × PrefMap)

/-- `Map.get` on the per-column collection. -/
def colPrefGet (m : ColPrefs) (columnId : Nat) : Option PrefMap :=
  (m.find? (fun e => decide (e.1 = columnId))).map (·.2)

/-- `setRootEntryMoveMeta`: record one change's hint under its target
column. -/
def setRootEntryMoveMeta (m : ColPrefs) (columnId : Nat) (k : EntryType × Nat)
    (v : RootEntryMoveMeta) : ColPrefs :=
  (columnId, prefSet ((colPrefGet m columnId).getD []) k v) :: m

/-- `getRootEntryTieBreakPriority`: 0 for a brand-new or forward-moved
entry, 1 for no hint (or an unmoved hint), 2 for a backward-moved entry. -/
def getRootEntryTieBreakPriority (m : Option RootEntryMoveMeta) : Int :=
  match m with
  | none => 1
  | some meta =>
    match meta.oldIndex with
    | none => 0
    | some old =>
      if old > meta.newIndex then 0
      else if old < meta.newIndex then 2
      else 1

/-- The root-entry comparator of `normalizeColumnRootEntryOrder`: current
index first; on ties, tie-break priority, then `changeOrder` when both
sides carry hints, then numeric id. -/
def rootEntryCmp (pm : Option PrefMap) (a b : Entry) : Int :=
  if a.index ≠ b.index then a.index - b.index
  else
    match pm with
    | some m =>
      let am := prefGet m (a.type, a.id)
      let bm := prefGet m (b.type, b.id)
      let ap := getRootEntryTieBreakPriority am
      let bp := getRootEntryTieBreakPriority bm
      if ap ≠ bp then ap - bp
      else
        match am, bm with
        | some x, some y =>
          if x.changeOrder ≠ y.changeOrder then (x.changeOrder : Int) - y.changeOrder
          else (a.id : Int) - b.id
        | _, _ => (a.id : Int) - b.id
    | none => (a.id : Int) - b.id

/-- Comparator of `deleteGroup`'s root-token sort:
`a.index - b.index || a.id - b.id`. -/
def entryIdxIdCmp (a b : Entry) : Int :=
  if a.index ≠ b.index then a.index - b.index else (a.id : Int) - b.id

/-- The ungrouped items of a column, in store order. -/
def ungroupedItems (s : State) (columnId : Nat) : List Item :=
  s.items.filter (fun it => decide (it.columnId = columnId ∧ it.groupId = none))

/-- The groups of a column, in store order. -/
def columnGroups (s : State) (columnId : Nat) : List Group :=
  s.groups.filter (fun g => decide (g.columnId = columnId))

/-- The items of a group, in store order. -/
def groupItems (s : State) (groupId : Nat) : List Item :=
  s.items.filter (fun it => decide (it.groupId = some groupId))

/-- The root-level entry tokens of a column as read by
`normalizeColumnRootEntryOrder`: ungrouped items sorted by
`(rowIndex, id)` followed by groups sorted by `(orderIndex, id)`. -/
def collectRootEntries (s : State) (columnId : Nat) : List Entry :=
  (sortByCmp itemKeyCmp (ungroupedItems s columnId)).map
      (fun it => ⟨.ITEM, it.id, it.rowIndex⟩)
    ++ (sortByCmp groupKeyCmp (columnGroups s columnId)).map
      (fun g => ⟨.GROUP, g.id, g.orderIndex⟩)

/-- Write one entry's index back to the store (`retroItem.update` /
`retroGroup.update` by primary key). -/
def setEntryIndex (s : State) (e : Entry) (idx : Int) : State :=
  match e.type with
  | .ITEM =>
    { s with items := s.items.map (fun it =>
        if it.id = e.id then { it with rowIndex := idx } else it) }
  | .GROUP =>
    { s with groups := s.groups.map (fun g =>
        if g.id = e.id then { g with orderIndex := idx } else g) }

/-- The write-back loop assigning sequential indices `k, k+1, ...` to a
list of entries. -/
def writeBackEntries : State → List Entry → Int → State
  | s, [], _ => s
  | s, e :: rest, k => writeBackEntries (setEntryIndex s e k) rest (k + 1)

/-- `normalizeColumnRootEntryOrder`: re-sort a column's root-level entries
(with the optional preference map breaking index ties) and write back
sequential indices `0..N-1`. -/
def normalizeColumnRootEntryOrder (s : State) (columnId : Nat)
    (pm : Option PrefMap) : State :=
  writeBackEntries s (sortByCmp (rootEntryCmp pm) (collectRootEntries s columnId)) 0

/-- `normalizeGroupItemsOrder`: re-sort a group's items by
`(rowIndex, id)` and write back sequential row indices `0..m-1`. -/
def normalizeGroupItemsOrder (s : State) (groupId : Nat) : State :=
  writeBackEntries s
    ((sortByCmp itemKeyCmp (groupItems s groupId)).map
      (fun it => ⟨.ITEM, it.id, it.rowIndex⟩)) 0

/-! ### Access resolution -/

/-- Membership test: `team.members.some { userId }`. -/
def memberOfTeam (s : State) (teamId userId : Nat) : Bool :=
  s.members.any (fun m => decide (m.teamId = teamId ∧ m.userId = userId))

/-- A board fetch guarded by the membership join; absence of the board and
absence of access are indistinguishable, both yield `NotFound`. -/
def boardAccessible (s : State) (boardId userId : Nat) : Bool :=
  s.boards.any (fun b => decide (b.id = boardId) && memberOfTeam s b.teamId userId)

/-- Look a column up by id. -/
def findColumn (s : State) (columnId : Nat) : Option Column :=
  s.columns.find? (fun c => decide (c.id = columnId))

/-- Column fetch guarded by the `board.team.members` join. -/
def columnAccessible (s : State) (columnId userId : Nat) : Bool :=
  match findColumn s columnId with
  | some c => boardAccessible s c.boardId userId
  | none => false

/-- Look a group up by id. -/
def findGroup (s : State) (groupId : Nat) : Option Group :=
  s.groups.find? (fun g => decide (g.id = groupId))

/-- Group fetch guarded by the `column.board.team.members` join. -/
def groupAccessible (s : State) (groupId userId : Nat) : Bool :=
  match findGroup s groupId with
  | some g => columnAccessible s g.columnId userId
  | none => false

/-- Look an item up by id. -/
def findItem (s : State) (itemId : Nat) : Option Item :=
  s.items.find? (fun it => decide (it.id = itemId))

/-- Item fetch guarded by the `column.board.team.members` join. -/
def itemAccessible (s : State) (itemId userId : Nat) : Bool :=
  match findItem s itemId with
  | some it => columnAccessible s it.columnId userId
  | none => false

/-! ### Structural mutation operations -/

/-- Maximum of a list of integers, `none` when empty (a
`findFirst ... orderBy desc` fetch reads the maximal key). -/
def maxInt? : List Int → Option Int
  | [] => none
  | x :: xs => some (xs.foldl max x)

/-- `createColumn`: appended at `max(existing orderIndex)+1`, or `0` for
the first column. Returns the new column's id. -/
def createColumn (s : State) (boardId userId : Nat) :
    Except ErrKind (Nat × State) :=
  if ¬ boardAccessible s boardId userId then .error .notFound
  else
    let newIndex : Int :=
      match maxInt? ((s.columns.filter (fun c => decide (c.boardId = boardId))).map
          (·.orderIndex)) with
      | some m => m + 1
      | none => 0
    let cid := s.nextColumnId
    .ok (cid,
      { s with
        columns := s.columns ++ [⟨cid, boardId, newIndex⟩],
        nextColumnId := cid + 1 })

/-- `getNextRootEntryIndex`:
`max(last ungrouped rowIndex, last group orderIndex) + 1`, with `-1`
defaults. -/
def getNextRootEntryIndex (s : State) (columnId : Nat) : Int :=
  let maxItemIndex := (maxInt? ((ungroupedItems s columnId).map (·.rowIndex))).getD (-1)
  let maxGroupIndex := (maxInt? ((columnGroups s columnId).map (·.orderIndex))).getD (-1)
  max maxItemIndex maxGroupIndex + 1

/-- `createGroup`: appended at the column's next root-level index.
Returns the new group's id. -/
def createGroup (s : State) (columnId userId : Nat) :
    Except ErrKind (Nat × State) :=
  if ¬ columnAccessible s columnId userId then .error .notFound
  else
    let gid := s.nextGroupId
    .ok (gid,
      { s with
        groups := s.groups ++ [⟨gid, columnId, getNextRootEntryIndex s columnId⟩],
        nextGroupId := gid + 1 })

/-- `addItemToColumn`: increment every sibling's index (both ungrouped
items and groups at root level; group members only inside a group), then
insert the new item at index `0`. Returns the new item's id. -/
def addItemToColumn (s : State) (columnId userId : Nat) (groupId : Option Nat) :
    Except ErrKind (Nat × State) :=
  if ¬ columnAccessible s columnId userId then .error .notFound
  else
    match groupId with
    | none =>
      let s1 : State :=
        { s with
          items := s.items.map (fun it =>
            if it.columnId = columnId ∧ it.groupId = none then
              { it with rowIndex := it.rowIndex + 1 }
            else it),
          groups := s.groups.map (fun g =>
            if g.columnId = columnId then { g with orderIndex := g.orderIndex + 1 }
            else g) }
      let iid := s.nextItemId
      .ok (iid,
        { s1 with
          items := s1.items ++ [⟨iid, columnId, none, 0⟩],
          nextItemId := iid + 1 })
    | some gid =>
      if ¬ s.groups.any (fun g => decide (g.id = gid ∧ g.columnId = columnId)) then
        .error .badRequest
      else
        let s1 : State :=
          { s with
            items := s.items.map (fun it =>
              if it.columnId = columnId ∧ it.groupId = some gid then
                { it with rowIndex := it.rowIndex + 1 }
              else it) }
        let iid := s.nextItemId
        .ok (iid,
          { s1 with
            items := s1.items ++ [⟨iid, columnId, some gid, 0⟩],
            nextItemId := iid + 1 })

/-- `deleteItem`: remove the item; no renumbering runs. -/
def deleteItem (s : State) (itemId userId : Nat) :
    Except ErrKind (Unit × State) :=
  if ¬ itemAccessible s itemId userId then .error .notFound
  else
    .ok ((),
      { s with items := s.items.filter (fun it => decide (it.id ≠ itemId)) })

/-- `deleteColumn`: remove the column (the store cascade deletes its
groups and items) and decrement the order index of every later sibling
column. -/
def deleteColumn (s : State) (columnId userId : Nat) :
    Except ErrKind (Unit × State) :=
  match findColumn s columnId with
  | none => .error .notFound
  | some col =>
    if ¬ boardAccessible s col.boardId userId then .error .notFound
    else
      .ok ((),
        { s with
          columns := (s.columns.filter (fun c => decide (c.id ≠ columnId))).map
            (fun c =>
              if c.boardId = col.boardId ∧ c.orderIndex > col.orderIndex then
                { c with orderIndex := c.orderIndex - 1 }
              else c),
          groups := s.groups.filter (fun g => decide (g.columnId ≠ columnId)),
          items := s.items.filter (fun it => decide (it.columnId ≠ columnId)) })

/-- `deleteGroup`: splice the group's items (in group-local order) into
the column's root sequence at the group's former root position, ungroup
them, delete the group, write back sequential indices, then run a full
root renumbering with no preference map. -/
def deleteGroup (s : State) (groupId userId : Nat) :
    Except ErrKind (Unit × State) :=
  match findGroup s groupId with
  | none => .error .notFound
  | some grp =>
    if ¬ columnAccessible s grp.columnId userId then .error .notFound
    else
      let rootTokens := sortByCmp entryIdxIdCmp
        ((ungroupedItems s grp.columnId).map (fun it => ⟨.ITEM, it.id, it.rowIndex⟩)
          ++ ((columnGroups s grp.columnId).filter (fun g => decide (g.id ≠ groupId))).map
            (fun g => ⟨.GROUP, g.id, g.orderIndex⟩))
      let insertAt := (max 0 (min grp.orderIndex (rootTokens.length : Int))).toNat
      let spliced := rootTokens.take insertAt
        ++ (sortByCmp itemRowOnlyCmp (groupItems s groupId)).map
          (fun it => (⟨.ITEM, it.id, -1⟩ : Entry))
        ++ rootTokens.drop insertAt
      let s1 : State :=
        { s with
          items := s.items.map (fun it =>
            if it.groupId = some groupId then { it with groupId := none } else it),
          groups := s.groups.filter (fun g => decide (g.id ≠ groupId)) }
      let s2 := writeBackEntries s1 spliced 0
      .ok ((), normalizeColumnRootEntryOrder s2 grp.columnId none)

/-- Write-back loop renumbering a board's columns `0..N-1`
(`reorderColumns`'s transaction). -/
def writeBackColumns : State → List Column → Int → State
  | s, [], _ => s
  | s, c :: rest, k =>
    writeBackColumns
      { s with columns := s.columns.map (fun c2 =>
          if c2.id = c.id then { c2 with orderIndex := k } else c2) }
      rest (k + 1)

/-- `reorderColumns`: array splice (remove at `oldIndex`, insert at
`newIndex`) over the board's columns, then sequential renumbering.
Out-of-range indices are `BadRequest`. -/
def reorderColumns (s : State) (boardId userId : Nat) (oldIndex newIndex : Int) :
    Except ErrKind State :=
  if ¬ boardAccessible s boardId userId then .error .notFound
  else
    let cols := sortByCmp columnOrderCmp
      (s.columns.filter (fun c => decide (c.boardId = boardId)))
    if cols.isEmpty then .error .notFound
    else if oldIndex < 0 ∨ newIndex < 0 ∨ (cols.length : Int) ≤ oldIndex
        ∨ (cols.length : Int) ≤ newIndex then .error .badRequest
    else
      match cols[oldIndex.toNat]? with
      | none => .error .badRequest
      | some removed =>
        .ok (writeBackColumns s
          (((cols.eraseIdx oldIndex.toNat).insertIdx newIndex.toNat removed)) 0)

/-! ### Batch position syncs -/

/-- One element of `syncItemPositions`' change list
(`ItemPositionChangeDto`). -/
structure ItemChange where
  itemId : Nat
  newColumnId : Nat
  newRowIndex : Int
  newGroupId : Option Nat
deriving DecidableEq

/-- One element of `syncGroupPositions`' change list
(`GroupPositionChangeDto`). -/
structure GroupChange where
  groupId : Nat
  newColumnId : Nat
  newOrderIndex : Int
deriving DecidableEq

/-- The response shape of both syncs; the remapped column payloads are
modelled by their ids (the mapping itself is presentation). -/
structure SyncResult where
  boardId : Nat
  updated : Nat
  changedColumnIds : List Nat
  columns : List Nat
deriving DecidableEq

/-- The early-return response for an empty change list. -/
def zeroSyncResult (boardId : Nat) : SyncResult :=
  ⟨boardId, 0, [], []⟩

/-- Append an element unless already present (JavaScript `Set` insertion
order). -/
def insertUnique (l : List Nat) (x : Nat) : List Nat :=
  if x ∈ l then l else l ++ [x]

/-- `Array.from(new Set(list))`: deduplicate keeping first occurrences. -/
def dedupFirst (l : List Nat) : List Nat :=
  l.foldl insertUnique []

/-- The columns of a board, in store order. -/
def boardColumns (s : State) (boardId : Nat) : List Column :=
  s.columns.filter (fun c => decide (c.boardId = boardId))

/-- Ids of the changed columns as returned by the final fetch (ordered by
`orderIndex`, restricted to the board and the changed set). -/
def changedColumnIdsResult (s : State) (boardId : Nat) (changed : List Nat) : List Nat :=
  (sortByCmp columnOrderCmp
    ((boardColumns s boardId).filter (fun c => decide (c.id ∈ changed)))).map (·.id)

/-- The preference maps built by `syncGroupPositions` from its change
list: key `group:id`, `oldIndex` only when the group already sat in the
target column. -/
def buildGroupPrefs (fetched : List Group) (changes : List GroupChange) : ColPrefs :=
  (changes.enum).foldl
    (fun acc p =>
      let ch := p.2
      let old : Option Int :=
        match fetched.find? (fun g => decide (g.id = ch.groupId)) with
        | some prev => if prev.columnId = ch.newColumnId then some prev.orderIndex else none
        | none => none
      setRootEntryMoveMeta acc ch.newColumnId (.GROUP, ch.groupId)
        ⟨old, ch.newOrderIndex, p.1⟩)
    []

/-- One iteration of `syncGroupPositions`' transaction loop: write the
group's new column and order index; when the (pre-fetched) previous column
differs, re-parent all of the group's items to the new column. -/
def applyGroupChange (fetched : List Group) (st : State) (ch : GroupChange) : State :=
  let st1 : State :=
    { st with groups := st.groups.map (fun g =>
        if g.id = ch.groupId then
          { g with columnId := ch.newColumnId, orderIndex := ch.newOrderIndex }
        else g) }
  match fetched.find? (fun g => decide (g.id = ch.groupId)) with
  | some prev =>
    if prev.columnId ≠ ch.newColumnId then
      { st1 with items := st1.items.map (fun it =>
          if it.groupId = some ch.groupId then { it with columnId := ch.newColumnId }
          else it) }
    else st1
  | none => st1

/-- `syncGroupPositions`: validate the batch (empty list short-circuits
before the access check), apply every change in one transaction, then
renumber every changed column's root entries with the batch's preference
maps. -/
def syncGroupPositions (s : State) (boardId userId : Nat)
    (changes : List GroupChange) : Except ErrKind (SyncResult × State) :=
  if changes = [] then .ok (zeroSyncResult boardId, s)
  else if ¬ boardAccessible s boardId userId then .error .notFound
  else
    let cols := boardColumns s boardId
    if cols = [] then .error .notFound
    else if changes.any (fun ch => ¬ cols.any (fun c => decide (c.id = ch.newColumnId))) then
      .error .badRequest
    else
      let uniqueGroupIds := dedupFirst (changes.map (·.groupId))
      let fetched := s.groups.filter (fun g =>
        decide (g.id ∈ uniqueGroupIds) && cols.any (fun c => decide (c.id = g.columnId)))
      if fetched.length ≠ uniqueGroupIds.length then .error .notFound
      else
        let changedCols :=
          (fetched.map (·.columnId) ++ changes.map (·.newColumnId)).foldl insertUnique []
        let colPrefs := buildGroupPrefs fetched changes
        let s1 := changes.foldl (applyGroupChange fetched) s
        let s2 := changedCols.foldl
          (fun st cid => normalizeColumnRootEntryOrder st cid (colPrefGet colPrefs cid)) s1
        let resultIds := changedColumnIdsResult s2 boardId changedCols
        .ok ({ boardId := boardId, updated := changes.length,
               changedColumnIds := resultIds, columns := resultIds }, s2)

/-- The preference maps built by `syncItemPositions` from the root-level
subset of its change list: key `item:id`, `oldIndex` only when the item
was previously root-level in the same target column. -/
def buildItemPrefs (fetched : List Item) (changes : List ItemChange) : ColPrefs :=
  (changes.enum).foldl
    (fun acc p =>
      let ch := p.2
      match ch.newGroupId with
      | some _ => acc
      | none =>
        let old : Option Int :=
          match fetched.find? (fun it => decide (it.id = ch.itemId)) with
          | some prev =>
            if prev.columnId = ch.newColumnId ∧ prev.groupId = none then
              some prev.rowIndex
            else none
          | none => none
        setRootEntryMoveMeta acc ch.newColumnId (.ITEM, ch.itemId)
          ⟨old, ch.newRowIndex, p.1⟩)
    []

/-- One iteration of `syncItemPositions`' transaction loop: write the
item's new column, group and row index. -/
def applyItemChange (st : State) (ch : ItemChange) : State :=
  { st with items := st.items.map (fun it =>
      if it.id = ch.itemId then
        { it with columnId := ch.newColumnId, groupId := ch.newGroupId,
                  rowIndex := ch.newRowIndex }
      else it) }

/-- The groups whose membership a batch touches: each change's previous
group (when grouped) followed by its target group, deduplicated in
insertion order. -/
def changedGroupIds (fetched : List Item) (changes : List ItemChange) : List Nat :=
  changes.foldl
    (fun acc ch =>
      let acc1 :=
        match fetched.find? (fun it => decide (it.id = ch.itemId)) with
        | some prev =>
          match prev.groupId with
          | some g => insertUnique acc g
          | none => acc
        | none => acc
      match ch.newGroupId with
      | some g => insertUnique acc1 g
      | none => acc1)
    []

/-- `syncItemPositions`: validate the batch (empty list short-circuits
before the access check), apply every change in one transaction, renumber
every changed group, then renumber every changed column's root entries
with the batch's preference maps. -/
def syncItemPositions (s : State) (boardId userId : Nat)
    (changes : List ItemChange) : Except ErrKind (SyncResult × State) :=
  if changes = [] then .ok (zeroSyncResult boardId, s)
  else if ¬ boardAccessible s boardId userId then .error .notFound
  else
    let cols := boardColumns s boardId
    if cols = [] then .error .notFound
    else if changes.any (fun ch => ¬ cols.any (fun c => decide (c.id = ch.newColumnId))) then
      .error .badRequest
    else
      let uniqueTargetGroupIds := dedupFirst (changes.filterMap (·.newGroupId))
      let fetchedGroups := s.groups.filter (fun g =>
        decide (g.id ∈ uniqueTargetGroupIds) && cols.any (fun c => decide (c.id = g.columnId)))
      if fetchedGroups.length ≠ uniqueTargetGroupIds.length then .error .badRequest
      else if changes.any (fun ch =>
          match ch.newGroupId with
          | some g => ¬ fetchedGroups.any (fun gr => decide (gr.id = g ∧ gr.columnId = ch.newColumnId))
          | none => false) then
        .error .badRequest
      else
        let uniqueItemIds := dedupFirst (changes.map (·.itemId))
        let fetchedItems := s.items.filter (fun it =>
          decide (it.id ∈ uniqueItemIds) && cols.any (fun c => decide (c.id = it.columnId)))
        if fetchedItems.length ≠ uniqueItemIds.length then .error .notFound
        else
          let changedCols :=
            (fetchedItems.map (·.columnId) ++ changes.map (·.newColumnId)).foldl insertUnique []
          let colPrefs := buildItemPrefs fetchedItems changes
          let grpIds := changedGroupIds fetchedItems changes
          let s1 := changes.foldl applyItemChange s
          let s2 := grpIds.foldl normalizeGroupItemsOrder s1
          let s3 := changedCols.foldl
            (fun st cid => normalizeColumnRootEntryOrder st cid (colPrefGet colPrefs cid)) s2
          let resultIds := changedColumnIdsResult s3 boardId changedCols
          .ok ({ boardId := boardId, updated := changes.length,
                 changedColumnIds := resultIds, columns := resultIds }, s3)

/-! ### The mutating operations as one interface, and the layout invariant -/

/-- A mutating operation of the service, as dispatched by the controller. -/
inductive MutOp where
  | createColumn (boardId userId : Nat)
  | createGroup (columnId userId : Nat)
  | addItem (columnId userId : Nat) (groupId : Option Nat)
  | reorderColumns (boardId userId : Nat) (oldIndex newIndex : Int)
  | syncItems (boardId userId : Nat) (changes : List ItemChange)
  | syncGroups (boardId userId : Nat) (changes : List GroupChange)
  | deleteColumn (columnId userId : Nat)
  | deleteGroup (groupId userId : Nat)
  | deleteItem (itemId userId : Nat)
deriving DecidableEq

/-- Whether an operation is the item deletion. -/
def MutOp.isDeleteItem : MutOp → Bool
  | .deleteItem _ _ => true
  | _ => false

/-- Run a mutating operation, keeping only the store state. -/
def applyOp (s : State) : MutOp → Except ErrKind State
  | .createColumn b u => (createColumn s b u).map (·.2)
  | .createGroup c u => (createGroup s c u).map (·.2)
  | .addItem c u g => (addItemToColumn s c u g).map (·.2)
  | .reorderColumns b u o n => reorderColumns s b u o n
  | .syncItems b u ch => (syncItemPositions s b u ch).map (·.2)
  | .syncGroups b u ch => (syncGroupPositions s b u ch).map (·.2)
  | .deleteColumn c u => (deleteColumn s c u).map (·.2)
  | .deleteGroup g u => (deleteGroup s g u).map (·.2)
  | .deleteItem i u => (deleteItem s i u).map (·.2)

/-- Ascending sort of integers. -/
def sortInts (l : List Int) : List Int :=
  List.insertionSort (fun a b => a ≤ b) l

/-- A list of order keys is gap-free when sorting it yields exactly
`0..N-1`. -/
def gapFree (l : List Int) : Prop :=
  sortInts l = (List.range l.length).map Int.ofNat

instance (l : List Int) : Decidable (gapFree l) := by
  unfold gapFree; infer_instance

/-- The order keys of a column's root-level entries, ungrouped items then
groups. -/
def rootIndexList (s : State) (columnId : Nat) : List Int :=
  (ungroupedItems s columnId).map (·.rowIndex)
    ++ (columnGroups s columnId).map (·.orderIndex)

/-- Gap-free root order for one column. -/
def rootGapFree (s : State) (columnId : Nat) : Prop :=
  gapFree (rootIndexList s columnId)

/-- Gap-free item order for one group. -/
def groupGapFree (s : State) (groupId : Nat) : Prop :=
  gapFree ((groupItems s groupId).map (·.rowIndex))

instance (s : State) (columnId : Nat) : Decidable (rootGapFree s columnId) := by
  unfold rootGapFree; infer_instance

instance (s : State) (groupId : Nat) : Decidable (groupGapFree s groupId) := by
  unfold groupGapFree; infer_instance

/-- The layout invariant of the specification: every column's root-level
entries and every group's items are numbered `0..N-1`. -/
def LayoutInv (s : State) : Prop :=
  (∀ c ∈ s.columns, rootGapFree s c.id) ∧ (∀ g ∈ s.groups, groupGapFree s g.id)

instance (s : State) : Decidable (LayoutInv s) := by
  unfold LayoutInv; infer_instance

/-- Store well-formedness guaranteed by the database schema: primary keys
are unique and the serial sequences sit above every existing key. -/
def WF (s : State) : Prop :=
  (s.items.map Item.id).Nodup ∧ (s.groups.map Group.id).Nodup
    ∧ (s.columns.map Column.id).Nodup
    ∧ (∀ it ∈ s.items, it.id < s.nextItemId)
    ∧ (∀ g ∈ s.groups, g.id < s.nextGroupId)
    ∧ (∀ c ∈ s.columns, c.id < s.nextColumnId)

instance (s : State) : Decidable (WF s) := by
  unfold WF; infer_instance

/-! ### Concrete sample stores (used by witnesses and counterexamples) -/

/-- A small store: team 1 with member 7; board 1; column 1 rooting
`Item1(0), Group50(1), Item2(2)` with group 50 holding items 3 and 4;
column 2 rooting `Item5(0)`. -/
def sampleState : State :=
  { boards := [⟨1, 1⟩]
    columns := [⟨1, 1, 0⟩, ⟨2, 1, 1⟩]
    groups := [⟨50, 1, 1⟩]
    items := [⟨1, 1, none, 0⟩, ⟨2, 1, none, 2⟩, ⟨3, 1, some 50, 0⟩,
              ⟨4, 1, some 50, 1⟩, ⟨5, 2, none, 0⟩]
    members := [⟨1, 7⟩]
    nextColumnId := 3
    nextGroupId := 51
    nextItemId := 6 }

/-- A store for the tie-break scenario: items 10 and 11 sit in column 1,
item 5 at the root of column 2. -/
def tieState : State :=
  { boards := [⟨1, 1⟩]
    columns := [⟨1, 1, 0⟩, ⟨2, 1, 1⟩]
    groups := []
    items := [⟨10, 1, none, 0⟩, ⟨11, 1, none, 1⟩, ⟨5, 2, none, 0⟩]
    members := [⟨1, 7⟩]
    nextColumnId := 3
    nextGroupId := 1
    nextItemId := 12 }

/-- The store `sampleState` after `syncGroupPositions` moves group 50 to
column 2 at index 0: the group's items 3 and 4 now carry `columnId = 2`
with their `groupId` and `rowIndex` untouched, column 1's remaining root
entries compact to `Item1(0), Item2(1)`, and column 2 renumbers to
`Group50(0), Item5(1)`. -/
def sampleGroupMoved : State :=
  { boards := [⟨1, 1⟩]
    columns := [⟨1, 1, 0⟩, ⟨2, 1, 1⟩]
    groups := [⟨50, 2, 0⟩]
    items := [⟨1, 1, none, 0⟩, ⟨2, 1, none, 1⟩, ⟨3, 2, some 50, 0⟩,
              ⟨4, 2, some 50, 1⟩, ⟨5, 2, none, 1⟩]
    members := [⟨1, 7⟩]
    nextColumnId := 3
    nextGroupId := 51
    nextItemId := 6 }

/-- The store `sampleState` after `deleteGroup` removes group 50: its
items 3 and 4 become ungrouped rows of column 1, spliced at the group's
former root position, and the column renumbers gap-free. -/
def sampleGroupDeleted : State :=
  { boards := [⟨1, 1⟩]
    columns := [⟨1, 1, 0⟩, ⟨2, 1, 1⟩]
    groups := []
    items := [⟨1, 1, none, 0⟩, ⟨2, 1, none, 3⟩, ⟨3, 1, none, 1⟩,
              ⟨4, 1, none, 2⟩, ⟨5, 2, none, 0⟩]
    members := [⟨1, 7⟩]
    nextColumnId := 3
    nextGroupId := 51
    nextItemId := 6 }

example : WF sampleState ∧ LayoutInv sampleState := by decide
example : WF tieState ∧ LayoutInv tieState := by decide

example : (deleteItem sampleState 1 7).map (fun r => rootIndexList r.2 1) = .ok [2, 1] := by rfl
example : (deleteItem sampleState 1 7).map (fun r => decide (rootGapFree r.2 1)) = .ok false := by rfl

example : (deleteGroup sampleState 50 7).map (·.2.items) =
    .ok [⟨1, 1, none, 0⟩, ⟨2, 1, none, 3⟩, ⟨3, 1, none, 1⟩, ⟨4, 1, none, 2⟩, ⟨5, 2, none, 0⟩] := by
  rfl

example : (deleteGroup sampleState 50 7).map (·.2.groups) = .ok [] := by rfl

example : (addItemToColumn sampleState 1 7 none).map (·.2.items) =
    .ok [⟨1, 1, none, 1⟩, ⟨2, 1, none, 3⟩, ⟨3, 1, some 50, 0⟩,
         ⟨4, 1, some 50, 1⟩, ⟨5, 2, none, 0⟩, ⟨6, 1, none, 0⟩] := by rfl

example : (syncItemPositions tieState 1 7 [⟨10, 2, 0, none⟩, ⟨11, 2, 0, none⟩]).map (·.2.items) =
    .ok [⟨10, 2, none, 0⟩, ⟨11, 2, none, 1⟩, ⟨5, 2, none, 2⟩] := by rfl

example : (syncItemPositions sampleState 1 7 [⟨1, 1, 0, none⟩, ⟨1, 1, 1, none⟩]).isOk = true := by
  rfl

example : (syncGroupPositions sampleState 1 7 [⟨50, 2, 0⟩]).map (·.2.items) =
    .ok [⟨1, 1, none, 0⟩, ⟨2, 1, none, 1⟩, ⟨3, 2, some 50, 0⟩,
         ⟨4, 2, some 50, 1⟩, ⟨5, 2, none, 1⟩] := by rfl

/-! ### Claim C9 and C10: empty-batch behaviour -/

/-- C9: for every board id and actor, `syncItemPositions` and
`syncGroupPositions` with an empty change list are no-ops: they return
`updated = 0` with empty `changedColumnIds` and `columns`, and the store
state is returned unchanged. -/
theorem empty_changes_noop_theorem (s : State) (boardId userId : Nat) :
    syncItemPositions s boardId userId [] = .ok (zeroSyncResult boardId, s)
      ∧ syncGroupPositions s boardId userId [] = .ok (zeroSyncResult boardId, s)
      ∧ (zeroSyncResult boardId).updated = 0
      ∧ (zeroSyncResult boardId).changedColumnIds = []
      ∧ (zeroSyncResult boardId).columns = [] :=
  ⟨rfl, rfl, rfl, rfl, rfl⟩

/-- C10: the empty-batch early return runs before the board access check,
so even an inaccessible or nonexistent board yields success, never
`NotFound`. -/
theorem empty_changes_skips_access_check_theorem (s : State) (boardId userId : Nat)
    (_h : ¬ boardAccessible s boardId userId = true) :
    syncItemPositions s boardId userId [] = .ok (zeroSyncResult boardId, s)
      ∧ syncGroupPositions s boardId userId [] = .ok (zeroSyncResult boardId, s)
      ∧ (∀ e, syncItemPositions s boardId userId [] ≠ .error e)
      ∧ (∀ e, syncGroupPositions s boardId userId [] ≠ .error e) := by
  refine ⟨rfl, rfl, ?_, ?_⟩ <;> intro e h2 <;> exact Except.noConfusion h2

/-- Witness for C10: an empty store, in which board 1 is not accessible to
user 7, still answers the empty batch with success. -/
theorem empty_changes_skips_access_check_witness :
    ¬ boardAccessible ⟨[], [], [], [], [], 0, 0, 0⟩ 1 7 = true
      ∧ syncItemPositions ⟨[], [], [], [], [], 0, 0, 0⟩ 1 7 []
          = .ok (zeroSyncResult 1, ⟨[], [], [], [], [], 0, 0, 0⟩) :=
  ⟨by decide,
    (empty_changes_skips_access_check_theorem ⟨[], [], [], [], [], 0, 0, 0⟩ 1 7 (by decide)).1⟩

/-! ### Claim C1 (counterexample part) and C7 (counterexample part) -/

/-- C1 counterexample: `deleteItem` runs no renumbering, so deleting the
item at row 0 of a column rooting rows `0,1,2` leaves root keys `[2, 1]`
instead of `[1, 0]` — the gap-free root invariant does not survive a
successful `deleteItem`, although it held before. -/
theorem deleteItem_breaks_gapfree_counterexample :
    WF sampleState ∧ LayoutInv sampleState
      ∧ (deleteItem sampleState 1 7).isOk = true
      ∧ (deleteItem sampleState 1 7).map (fun r => rootIndexList r.2 1) = .ok [2, 1]
      ∧ (deleteItem sampleState 1 7).map (fun r => decide (rootGapFree r.2 1)) = .ok false
      ∧ (deleteItem sampleState 1 7).map (fun r => decide (LayoutInv r.2)) = .ok false :=
  ⟨by decide, by decide, rfl, rfl, rfl, rfl⟩

/-- C7 counterexample: a batch containing the same `itemId` twice passes
`syncItemPositions` validation (ids are deduplicated before the resolve
count check) and succeeds instead of failing with `BadRequest`. -/
theorem duplicate_itemIds_accepted_counterexample :
    WF sampleState ∧ LayoutInv sampleState
      ∧ (syncItemPositions sampleState 1 7 [⟨1, 1, 0, none⟩, ⟨1, 1, 1, none⟩]).isOk = true
      ∧ syncItemPositions sampleState 1 7 [⟨1, 1, 0, none⟩, ⟨1, 1, 1, none⟩]
          ≠ .error .badRequest :=
  ⟨by decide, by decide, rfl, by
    intro h
    have hok : (syncItemPositions sampleState 1 7
        [⟨1, 1, 0, none⟩, ⟨1, 1, 1, none⟩]).isOk = true := rfl
    rw [h] at hok
    exact Bool.noConfusion hok⟩

/-! ### Claim C2: deterministic tie-breaking -/

/-- C2: during root-level renumbering, index ties are broken by priority
(0 for a hint with undefined `oldIndex` or `oldIndex > newIndex`, 1 for no
hint, 2 for `oldIndex < newIndex`), then by ascending `changeOrder` when
both sides carry hints, then by ascending numeric id; in particular two
items new to a column both targeting root index 0 in one batch end at
indices 0 and 1 in `changeOrder` order. -/
theorem tieBreak_priority_order_theorem :
    (∀ r : RootEntryMoveMeta, r.oldIndex = none → getRootEntryTieBreakPriority (some r) = 0)
    ∧ (∀ r : RootEntryMoveMeta, ∀ o, r.oldIndex = some o → r.newIndex < o →
        getRootEntryTieBreakPriority (some r) = 0)
    ∧ getRootEntryTieBreakPriority none = 1
    ∧ (∀ r : RootEntryMoveMeta, ∀ o, r.oldIndex = some o → o < r.newIndex →
        getRootEntryTieBreakPriority (some r) = 2)
    ∧ (∀ (m : PrefMap) (a b : Entry) (x y : RootEntryMoveMeta),
        a.index = b.index →
        prefGet m (a.type, a.id) = some x →
        prefGet m (b.type, b.id) = some y →
        getRootEntryTieBreakPriority (some x) = getRootEntryTieBreakPriority (some y) →
        x.changeOrder < y.changeOrder →
        rootEntryCmp (some m) a b < 0)
    ∧ (∀ (m : PrefMap) (a b : Entry),
        a.index = b.index →
        prefGet m (a.type, a.id) = none →
        prefGet m (b.type, b.id) = none →
        a.id < b.id → rootEntryCmp (some m) a b < 0)
    ∧ (∀ (a b : Entry), a.index = b.index → a.id < b.id → rootEntryCmp none a b < 0)
    ∧ syncItemPositions tieState 1 7 [⟨10, 2, 0, none⟩, ⟨11, 2, 0, none⟩]
        = .ok (⟨1, 2, [1, 2], [1, 2]⟩,
            { tieState with
                items := [⟨10, 2, none, 0⟩, ⟨11, 2, none, 1⟩, ⟨5, 2, none, 2⟩] }) := by
  refine ⟨?_, ?_, rfl, ?_, ?_, ?_, ?_, ?_⟩
  · intro r h
    simp [getRootEntryTieBreakPriority, h]
  · intro r o h hlt
    simp only [getRootEntryTieBreakPriority, h]
    rw [if_pos hlt]
  · intro r o h hlt
    simp only [getRootEntryTieBreakPriority, h]
    rw [if_neg (by omega), if_pos hlt]
  · intro m a b x y hidx hx hy hp hco
    simp only [rootEntryCmp, hidx, hx, hy, ne_eq, not_true_eq_false, if_false, ite_not]
    rw [if_pos hp, if_neg (by omega : ¬ x.changeOrder = y.changeOrder)]
    omega
  · intro m a b hidx hx hy hid
    simp only [rootEntryCmp, hidx, hx, hy, ne_eq, not_true_eq_false, if_false, ite_not]
    omega
  · intro a b hidx hid
    simp only [rootEntryCmp, hidx, ne_eq, not_true_eq_false, if_false, ite_not]
    omega
  · rfl

/-- Witness for C2: a brand-new hint has priority 0, and with two hints of
equal priority the lower `changeOrder` sorts first. -/
theorem tieBreak_priority_order_witness :
    getRootEntryTieBreakPriority (some ⟨none, 0, 0⟩) = 0
      ∧ rootEntryCmp
          (some [((EntryType.ITEM, 10), ⟨none, 0, 0⟩), ((EntryType.ITEM, 11), ⟨none, 0, 1⟩)])
          ⟨.ITEM, 10, 0⟩ ⟨.ITEM, 11, 0⟩ < 0 :=
  ⟨tieBreak_priority_order_theorem.1 ⟨none, 0, 0⟩ rfl,
    tieBreak_priority_order_theorem.2.2.2.2.1
      [((EntryType.ITEM, 10), ⟨none, 0, 0⟩), ((EntryType.ITEM, 11), ⟨none, 0, 1⟩)]
      ⟨.ITEM, 10, 0⟩ ⟨.ITEM, 11, 0⟩ ⟨none, 0, 0⟩ ⟨none, 0, 1⟩
      rfl rfl rfl rfl (by decide)⟩

/-! ### Claim C6: item creation prepends at index 0 -/

/-- C6: `addItemToColumn` inserts the new item at index 0 of its container
by first incrementing every existing sibling's index — at root level both
ungrouped items and groups, inside a group only its members — and then
creating the item with index 0. -/
theorem addItem_prepend_theorem :
    (∀ (s : State) (columnId userId iid : Nat) (s1 : State),
      addItemToColumn s columnId userId none = .ok (iid, s1) →
        iid = s.nextItemId
        ∧ (⟨iid, columnId, none, 0⟩ : Item) ∈ s1.items
        ∧ (∀ it ∈ s.items, it.columnId = columnId → it.groupId = none →
            ({ it with rowIndex := it.rowIndex + 1 } : Item) ∈ s1.items)
        ∧ (∀ it ∈ s.items, ¬ (it.columnId = columnId ∧ it.groupId = none) → it ∈ s1.items)
        ∧ (∀ g ∈ s.groups, g.columnId = columnId →
            ({ g with orderIndex := g.orderIndex + 1 } : Group) ∈ s1.groups)
        ∧ (∀ g ∈ s.groups, g.columnId ≠ columnId → g ∈ s1.groups))
    ∧ (∀ (s : State) (columnId userId gid iid : Nat) (s1 : State),
      addItemToColumn s columnId userId (some gid) = .ok (iid, s1) →
        iid = s.nextItemId
        ∧ (⟨iid, columnId, some gid, 0⟩ : Item) ∈ s1.items
        ∧ (∀ it ∈ s.items, it.columnId = columnId → it.groupId = some gid →
            ({ it with rowIndex := it.rowIndex + 1 } : Item) ∈ s1.items)
        ∧ (∀ it ∈ s.items, ¬ (it.columnId = columnId ∧ it.groupId = some gid) → it ∈ s1.items)
        ∧ s1.groups = s.groups) := by
  constructor
  · intro s columnId userId iid s1 h
    simp only [addItemToColumn] at h
    split at h
    · exact Except.noConfusion h
    · injection h with h1
      injection h1 with hiid hs1
      subst hiid
      subst hs1
      refine ⟨rfl, ?_, ?_, ?_, ?_, ?_⟩
      · exact List.mem_append.mpr (Or.inr (List.mem_singleton.mpr rfl))
      · intro it hit hcol hgrp
        refine List.mem_append.mpr (Or.inl ?_)
        have : ({ it with rowIndex := it.rowIndex + 1 } : Item) =
            (fun it => if it.columnId = columnId ∧ it.groupId = none then
              { it with rowIndex := it.rowIndex + 1 } else it) it := by
          simp [hcol, hgrp]
        rw [this]
        exact List.mem_map_of_mem _ hit
      · intro it hit hneg
        refine List.mem_append.mpr (Or.inl ?_)
        have : it = (fun it => if it.columnId = columnId ∧ it.groupId = none then
            { it with rowIndex := it.rowIndex + 1 } else it) it := by
          simp [if_neg hneg]
        rw [this]
        exact List.mem_map_of_mem _ hit
      · intro g hg hcol
        have : ({ g with orderIndex := g.orderIndex + 1 } : Group) =
            (fun g => if g.columnId = columnId then
              { g with orderIndex := g.orderIndex + 1 } else g) g := by
          simp [hcol]
        rw [this]
        exact List.mem_map_of_mem _ hg
      · intro g hg hcol
        have : g = (fun g => if g.columnId = columnId then
            { g with orderIndex := g.orderIndex + 1 } else g) g := by
          simp [if_neg hcol]
        rw [this]
        exact List.mem_map_of_mem _ hg
  · intro s columnId userId gid iid s1 h
    simp only [addItemToColumn] at h
    split at h
    · exact Except.noConfusion h
    · split at h
      · exact Except.noConfusion h
      · injection h with h1
        injection h1 with hiid hs1
        subst hiid
        subst hs1
        refine ⟨rfl, ?_, ?_, ?_, rfl⟩
        · exact List.mem_append.mpr (Or.inr (List.mem_singleton.mpr rfl))
        · intro it hit hcol hgrp
          refine List.mem_append.mpr (Or.inl ?_)
          have : ({ it with rowIndex := it.rowIndex + 1 } : Item) =
              (fun it => if it.columnId = columnId ∧ it.groupId = some gid then
                { it with rowIndex := it.rowIndex + 1 } else it) it := by
            simp [hcol, hgrp]
          rw [this]
          exact List.mem_map_of_mem _ hit
        · intro it hit hneg
          refine List.mem_append.mpr (Or.inl ?_)
          have : it = (fun it => if it.columnId = columnId ∧ it.groupId = some gid then
              { it with rowIndex := it.rowIndex + 1 } else it) it := by
            simp [if_neg hneg]
          rw [this]
          exact List.mem_map_of_mem _ hit

/-- Witness for C6 (scenario 5): adding to a column rooting rows 0 and 1
puts the new item at row 0 and shifts the previous items to rows 1 and 2. -/
theorem addItem_prepend_witness :
    (⟨12, 1, none, 0⟩ : Item) ∈
        ({ tieState with
            items := [⟨10, 1, none, 1⟩, ⟨11, 1, none, 2⟩, ⟨5, 2, none, 0⟩, ⟨12, 1, none, 0⟩],
            nextItemId := 13 } : State).items
      ∧ (⟨10, 1, none, 1⟩ : Item) ∈
        ({ tieState with
            items := [⟨10, 1, none, 1⟩, ⟨11, 1, none, 2⟩, ⟨5, 2, none, 0⟩, ⟨12, 1, none, 0⟩],
            nextItemId := 13 } : State).items := by
  have h := addItem_prepend_theorem.1 tieState 1 7 12
    ({ tieState with
        items := [⟨10, 1, none, 1⟩, ⟨11, 1, none, 2⟩, ⟨5, 2, none, 0⟩, ⟨12, 1, none, 0⟩],
        nextItemId := 13 } : State) rfl
  exact ⟨h.2.1, h.2.2.1 ⟨10, 1, none, 0⟩ (by decide) rfl rfl⟩

/-! ### Toolbox: deduplication and counting lemmas -/

theorem mem_insertUnique {l : List Nat} {x y : Nat} :
    y ∈ insertUnique l x ↔ y ∈ l ∨ y = x := by
  unfold insertUnique
  split
  · constructor
    · exact Or.inl
    · rintro (h | rfl)
      · exact h
      · assumption
  · simp [List.mem_append]

theorem insertUnique_nodup {l : List Nat} {x : Nat} (h : l.Nodup) :
    (insertUnique l x).Nodup := by
  unfold insertUnique
  split
  · exact h
  · simpa [List.nodup_append] using ⟨h, by assumption⟩

theorem foldl_insertUnique_mem :
    ∀ (l acc : List Nat) (y : Nat), y ∈ l.foldl insertUnique acc ↔ y ∈ acc ∨ y ∈ l
  | [], acc, y => by simp
  | x :: l, acc, y => by
    rw [List.foldl_cons, foldl_insertUnique_mem l (insertUnique acc x) y, mem_insertUnique]
    simp only [List.mem_cons]
    tauto

theorem foldl_insertUnique_nodup :
    ∀ (l acc : List Nat), acc.Nodup → (l.foldl insertUnique acc).Nodup
  | [], _, h => h
  | x :: l, acc, h => foldl_insertUnique_nodup l (insertUnique acc x) (insertUnique_nodup h)

theorem mem_dedupFirst {l : List Nat} {x : Nat} : x ∈ dedupFirst l ↔ x ∈ l := by
  unfold dedupFirst
  rw [foldl_insertUnique_mem]
  simp

theorem dedupFirst_nodup (l : List Nat) : (dedupFirst l).Nodup :=
  foldl_insertUnique_nodup l [] List.nodup_nil

theorem filter_map_nodup {α β : Type} (f : α → β) (p : α → Bool) (l : List α)
    (h : (l.map f).Nodup) : ((l.filter p).map f).Nodup :=
  h.sublist ((l.filter_sublist).map f)

/-- Two mutually contained duplicate-free lists have equal lengths. -/
theorem length_eq_of_nodup_subset {l₁ l₂ : List Nat}
    (h₁ : l₁.Nodup) (h₂ : l₂.Nodup) (s₁ : l₁ ⊆ l₂) (s₂ : l₂ ⊆ l₁) :
    l₁.length = l₂.length :=
  ((h₁.subperm s₁).antisymm (h₂.subperm s₂)).length_eq

/-- A duplicate-free strict subset is strictly shorter. -/
theorem length_lt_of_nodup_ssubset {l₁ l₂ : List Nat}
    (h₁ : l₁.Nodup) (s₁ : l₁ ⊆ l₂) {x : Nat} (hx : x ∈ l₂) (hx1 : x ∉ l₁) :
    l₁.length < l₂.length := by
  by_contra h
  push_neg at h
  have hperm := (h₁.subperm s₁).perm_of_length_le h
  exact hx1 (hperm.mem_iff.mpr hx)

/-! ### Claim C3: validation failures abort the batch -/

/-- The store state after a `syncItemPositions` call: results carry the
new state, errors leave the store untouched (every `throw` in the source
happens before the transaction, and the transaction is atomic). -/
def syncItemPositionsRun (s : State) (boardId userId : Nat)
    (changes : List ItemChange) : State :=
  match syncItemPositions s boardId userId changes with
  | .ok (_, s1) => s1
  | .error _ => s

/-- C3: a `syncItemPositions` batch that fails validation — a
`newColumnId` outside the board, a `newGroupId` not resolving to a group
of that target column, or an `itemId` not resolving inside the board —
raises the corresponding `BadRequest`/`NotFound` error, and the store is
left exactly as before the call: no partial application. -/
theorem syncItemPositions_validation_aborts_theorem
    (s : State) (boardId userId : Nat) (changes : List ItemChange)
    (hwf : WF s) (hne : changes ≠ [])
    (hacc : boardAccessible s boardId userId = true)
    (hcols : boardColumns s boardId ≠ []) :
    ((∃ ch ∈ changes, ∀ c ∈ boardColumns s boardId, c.id ≠ ch.newColumnId) →
      syncItemPositions s boardId userId changes = .error .badRequest
        ∧ syncItemPositionsRun s boardId userId changes = s)
    ∧ ((∃ ch ∈ changes, ∃ g, ch.newGroupId = some g ∧
          ∀ gr ∈ s.groups, ¬ (gr.id = g ∧ gr.columnId = ch.newColumnId ∧
            ∃ c ∈ boardColumns s boardId, c.id = gr.columnId)) →
      syncItemPositions s boardId userId changes = .error .badRequest
        ∧ syncItemPositionsRun s boardId userId changes = s)
    ∧ ((∀ ch ∈ changes, ∃ c ∈ boardColumns s boardId, c.id = ch.newColumnId) →
      (∀ ch ∈ changes, ∀ g, ch.newGroupId = some g →
        ∃ gr ∈ s.groups, gr.id = g ∧ gr.columnId = ch.newColumnId) →
      (∃ ch ∈ changes, ∀ it ∈ s.items, ¬ (it.id = ch.itemId ∧
        ∃ c ∈ boardColumns s boardId, c.id = it.columnId)) →
      syncItemPositions s boardId userId changes = .error .notFound
        ∧ syncItemPositionsRun s boardId userId changes = s) := by
  have hrun : ∀ e : ErrKind, syncItemPositions s boardId userId changes = .error e →
      syncItemPositionsRun s boardId userId changes = s := by
    intro e he
    unfold syncItemPositionsRun
    rw [he]
  refine ⟨?_, ?_, ?_⟩
  · rintro ⟨ch, hch, hforall⟩
    have hany : (changes.any (fun ch => decide (¬ (boardColumns s boardId).any
        (fun c => decide (c.id = ch.newColumnId)) = true))) = true := by
      apply List.any_eq_true.mpr
      refine ⟨ch, hch, ?_⟩
      simp only [decide_eq_true_eq, List.any_eq_true]
      rintro ⟨c, hc, hcid⟩
      exact hforall c hc (by simpa using hcid)
    have herr : syncItemPositions s boardId userId changes = .error .badRequest := by
      simp only [syncItemPositions]
      rw [if_neg hne, if_neg (fun h => h hacc), if_neg hcols, if_pos hany]
    exact ⟨herr, hrun _ herr⟩
  · rintro ⟨ch, hch, g, hg, hnores⟩
    by_cases hbadcol : (changes.any (fun ch => decide (¬ (boardColumns s boardId).any
        (fun c => decide (c.id = ch.newColumnId)) = true))) = true
    · have herr : syncItemPositions s boardId userId changes = .error .badRequest := by
        simp only [syncItemPositions]
        rw [if_neg hne, if_neg (fun h => h hacc), if_neg hcols, if_pos hbadcol]
      exact ⟨herr, hrun _ herr⟩
    · by_cases hlen : (s.groups.filter (fun gr =>
          decide (gr.id ∈ dedupFirst (changes.filterMap (·.newGroupId)))
            && (boardColumns s boardId).any (fun c => decide (c.id = gr.columnId)))).length
          ≠ (dedupFirst (changes.filterMap (·.newGroupId))).length
      · have herr : syncItemPositions s boardId userId changes = .error .badRequest := by
          simp only [syncItemPositions]
          rw [if_neg hne, if_neg (fun h => h hacc), if_neg hcols, if_neg hbadcol,
            if_pos hlen]
        exact ⟨herr, hrun _ herr⟩
      · have hany2 : (changes.any (fun ch =>
            match ch.newGroupId with
            | some g => decide (¬ (s.groups.filter (fun gr =>
                decide (gr.id ∈ dedupFirst (changes.filterMap (·.newGroupId)))
                  && (boardColumns s boardId).any (fun c => decide (c.id = gr.columnId)))).any
                (fun gr => decide (gr.id = g ∧ gr.columnId = ch.newColumnId)) = true)
            | none => false)) = true := by
          apply List.any_eq_true.mpr
          refine ⟨ch, hch, ?_⟩
          rw [hg]
          simp only [decide_eq_true_eq, List.any_eq_true]
          rintro ⟨gr, hgr, hdec⟩
          rw [List.mem_filter] at hgr
          obtain ⟨hgrmem, hgrcond⟩ := hgr
          rw [Bool.and_eq_true] at hgrcond
          obtain ⟨-, hgrcol⟩ := hgrcond
          rw [List.any_eq_true] at hgrcol
          obtain ⟨c, hc, hcdec⟩ := hgrcol
          rw [decide_eq_true_eq] at hcdec
          exact hnores gr hgrmem ⟨hdec.1, hdec.2, c, hc, hcdec.symm ▸ rfl⟩
        have herr : syncItemPositions s boardId userId changes = .error .badRequest := by
          simp only [syncItemPositions]
          rw [if_neg hne, if_neg (fun h => h hacc), if_neg hcols, if_neg hbadcol,
            if_neg hlen, if_pos hany2]
        exact ⟨herr, hrun _ herr⟩
  · intro hcol hgrp hmissing
    have hbadcol : ¬ (changes.any (fun ch => decide (¬ (boardColumns s boardId).any
        (fun c => decide (c.id = ch.newColumnId)) = true))) = true := by
      rw [List.any_eq_true]
      rintro ⟨ch, hch, hdec⟩
      rw [decide_eq_true_eq] at hdec
      obtain ⟨c, hc, hcid⟩ := hcol ch hch
      exact hdec (List.any_eq_true.mpr ⟨c, hc, by simp [hcid]⟩)
    have hfetchg : ∀ t ∈ dedupFirst (changes.filterMap (·.newGroupId)),
        ∃ gr ∈ s.groups.filter (fun gr =>
          decide (gr.id ∈ dedupFirst (changes.filterMap (·.newGroupId)))
            && (boardColumns s boardId).any (fun c => decide (c.id = gr.columnId))),
          gr.id = t := by
      intro t ht
      have ht2 := mem_dedupFirst.mp ht
      rw [List.mem_filterMap] at ht2
      obtain ⟨ch2, hch2, hch2t⟩ := ht2
      obtain ⟨gr, hgrmem, hgrid, hgrcol⟩ := hgrp ch2 hch2 t hch2t
      obtain ⟨c, hc, hcid⟩ := hcol ch2 hch2
      refine ⟨gr, List.mem_filter.mpr ⟨hgrmem, ?_⟩, hgrid⟩
      rw [Bool.and_eq_true]
      refine ⟨by simpa using hgrid ▸ ht, ?_⟩
      exact List.any_eq_true.mpr ⟨c, hc, by simp [hcid, hgrcol]⟩
    have hlen : ¬ (s.groups.filter (fun gr =>
        decide (gr.id ∈ dedupFirst (changes.filterMap (·.newGroupId)))
          && (boardColumns s boardId).any (fun c => decide (c.id = gr.columnId)))).length
        ≠ (dedupFirst (changes.filterMap (·.newGroupId))).length := by
      rw [not_ne_iff]
      have hnodupF : ((s.groups.filter (fun gr =>
          decide (gr.id ∈ dedupFirst (changes.filterMap (·.newGroupId)))
            && (boardColumns s boardId).any (fun c => decide (c.id = gr.columnId)))).map
          (·.id)).Nodup :=
        filter_map_nodup _ _ _ hwf.2.1
      have := length_eq_of_nodup_subset hnodupF
        (dedupFirst_nodup (changes.filterMap (·.newGroupId)))
        (by
          intro y hy
          rw [List.mem_map] at hy
          obtain ⟨gr, hgr, rfl⟩ := hy
          rw [List.mem_filter, Bool.and_eq_true] at hgr
          exact of_decide_eq_true hgr.2.1)
        (by
          intro t ht
          obtain ⟨gr, hgr, hgrid⟩ := hfetchg t ht
          rw [List.mem_map]
          exact ⟨gr, hgr, hgrid⟩)
      simpa using this
    have hany2 : ¬ (changes.any (fun ch =>
        match ch.newGroupId with
        | some g => decide (¬ (s.groups.filter (fun gr =>
            decide (gr.id ∈ dedupFirst (changes.filterMap (·.newGroupId)))
              && (boardColumns s boardId).any (fun c => decide (c.id = gr.columnId)))).any
            (fun gr => decide (gr.id = g ∧ gr.columnId = ch.newColumnId)) = true)
        | none => false)) = true := by
      rw [List.any_eq_true]
      rintro ⟨ch2, hch2, hdec⟩
      cases hgid : ch2.newGroupId with
      | none => rw [hgid] at hdec; exact Bool.noConfusion hdec
      | some g2 =>
        rw [hgid] at hdec
        rw [decide_eq_true_eq] at hdec
        obtain ⟨gr, hgrmem, hgrid, hgrcol⟩ := hgrp ch2 hch2 g2 hgid
        obtain ⟨c, hc, hcid⟩ := hcol ch2 hch2
        apply hdec
        apply List.any_eq_true.mpr
        refine ⟨gr, List.mem_filter.mpr ⟨hgrmem, ?_⟩, by simp [hgrid, hgrcol]⟩
        rw [Bool.and_eq_true]
        constructor
        · have : g2 ∈ dedupFirst (changes.filterMap (·.newGroupId)) := by
            rw [mem_dedupFirst, List.mem_filterMap]
            exact ⟨ch2, hch2, hgid⟩
          simpa [hgrid] using this
        · exact List.any_eq_true.mpr ⟨c, hc, by simp [hcid, hgrcol]⟩
    have hlenitems : (s.items.filter (fun it =>
        decide (it.id ∈ dedupFirst (changes.map (·.itemId)))
          && (boardColumns s boardId).any (fun c => decide (c.id = it.columnId)))).length
        ≠ (dedupFirst (changes.map (·.itemId))).length := by
      obtain ⟨ch3, hch3, hno⟩ := hmissing
      have hx : ch3.itemId ∈ dedupFirst (changes.map (·.itemId)) := by
        rw [mem_dedupFirst, List.mem_map]
        exact ⟨ch3, hch3, rfl⟩
      have hnodupF : ((s.items.filter (fun it =>
          decide (it.id ∈ dedupFirst (changes.map (·.itemId)))
            && (boardColumns s boardId).any (fun c => decide (c.id = it.columnId)))).map
          (·.id)).Nodup :=
        filter_map_nodup _ _ _ hwf.1
      have hsub : (s.items.filter (fun it =>
          decide (it.id ∈ dedupFirst (changes.map (·.itemId)))
            && (boardColumns s boardId).any (fun c => decide (c.id = it.columnId)))).map
          (·.id) ⊆ dedupFirst (changes.map (·.itemId)) := by
        intro y hy
        rw [List.mem_map] at hy
        obtain ⟨it, hit, rfl⟩ := hy
        rw [List.mem_filter, Bool.and_eq_true] at hit
        exact of_decide_eq_true hit.2.1
      have hlt := length_lt_of_nodup_ssubset hnodupF hsub hx
        (by
          rw [List.mem_map]
          rintro ⟨it, hit, hitid⟩
          rw [List.mem_filter, Bool.and_eq_true] at hit
          obtain ⟨hitmem, -, hitcol⟩ := hit
          rw [List.any_eq_true] at hitcol
          obtain ⟨c, hc, hcdec⟩ := hitcol
          rw [decide_eq_true_eq] at hcdec
          exact hno it hitmem ⟨hitid, c, hc, hcdec.symm ▸ rfl⟩)
      intro heq
      rw [List.length_map] at hlt
      omega
    have herr : syncItemPositions s boardId userId changes = .error .notFound := by
      simp only [syncItemPositions]
      rw [if_neg hne, if_neg (fun h => h hacc), if_neg hcols, if_neg hbadcol,
        if_neg hlen, if_neg hany2, if_pos hlenitems]
    exact ⟨herr, hrun _ herr⟩

/-- Witness for C3: a one-change batch naming column 99, which is not in
board 1, fails with `BadRequest` and leaves the store untouched. -/
theorem syncItemPositions_validation_aborts_witness :
    syncItemPositions sampleState 1 7 [⟨1, 99, 0, none⟩] = .error .badRequest
      ∧ syncItemPositionsRun sampleState 1 7 [⟨1, 99, 0, none⟩] = sampleState :=
  (syncItemPositions_validation_aborts_theorem sampleState 1 7 [⟨1, 99, 0, none⟩]
    (by decide) (by decide) (by decide) (by decide)).1
    ⟨⟨1, 99, 0, none⟩, by decide, by decide⟩

/-! ### Claim C7: which batches fail, which are accepted -/

/-- A fully valid `syncItemPositions` batch succeeds, with `updated` equal
to the raw change count. Note that no duplicate-freeness of the item ids
is required: ids are deduplicated before the resolve count check. -/
theorem syncItems_ok_of_valid
    (s : State) (boardId userId : Nat) (changes : List ItemChange)
    (hwf : WF s) (hne : changes ≠ [])
    (hacc : boardAccessible s boardId userId = true)
    (hcols : boardColumns s boardId ≠ [])
    (hcol : ∀ ch ∈ changes, ∃ c ∈ boardColumns s boardId, c.id = ch.newColumnId)
    (hgrp : ∀ ch ∈ changes, ∀ g, ch.newGroupId = some g →
      ∃ gr ∈ s.groups, gr.id = g ∧ gr.columnId = ch.newColumnId)
    (hitem : ∀ ch ∈ changes, ∃ it ∈ s.items, it.id = ch.itemId ∧
      ∃ c ∈ boardColumns s boardId, c.id = it.columnId) :
    (syncItemPositions s boardId userId changes).isOk = true
      ∧ (syncItemPositions s boardId userId changes).map (fun r => r.1.updated)
          = .ok changes.length
      ∧ (syncItemPositions s boardId userId changes).map (fun r => r.1.boardId)
          = .ok boardId := by
  have hbadcol : ¬ (changes.any (fun ch => decide (¬ (boardColumns s boardId).any
      (fun c => decide (c.id = ch.newColumnId)) = true))) = true := by
    rw [List.any_eq_true]
    rintro ⟨ch, hch, hdec⟩
    rw [decide_eq_true_eq] at hdec
    obtain ⟨c, hc, hcid⟩ := hcol ch hch
    exact hdec (List.any_eq_true.mpr ⟨c, hc, by simp [hcid]⟩)
  have hfetchg : ∀ t ∈ dedupFirst (changes.filterMap (·.newGroupId)),
      ∃ gr ∈ s.groups.filter (fun gr =>
        decide (gr.id ∈ dedupFirst (changes.filterMap (·.newGroupId)))
          && (boardColumns s boardId).any (fun c => decide (c.id = gr.columnId))),
        gr.id = t := by
    intro t ht
    have ht2 := mem_dedupFirst.mp ht
    rw [List.mem_filterMap] at ht2
    obtain ⟨ch2, hch2, hch2t⟩ := ht2
    obtain ⟨gr, hgrmem, hgrid, hgrcol⟩ := hgrp ch2 hch2 t hch2t
    obtain ⟨c, hc, hcid⟩ := hcol ch2 hch2
    refine ⟨gr, List.mem_filter.mpr ⟨hgrmem, ?_⟩, hgrid⟩
    rw [Bool.and_eq_true]
    refine ⟨by simpa using hgrid ▸ ht, ?_⟩
    exact List.any_eq_true.mpr ⟨c, hc, by simp [hcid, hgrcol]⟩
  have hlen : ¬ (s.groups.filter (fun gr =>
      decide (gr.id ∈ dedupFirst (changes.filterMap (·.newGroupId)))
        && (boardColumns s boardId).any (fun c => decide (c.id = gr.columnId)))).length
      ≠ (dedupFirst (changes.filterMap (·.newGroupId))).length := by
    rw [not_ne_iff]
    have hnodupF : ((s.groups.filter (fun gr =>
        decide (gr.id ∈ dedupFirst (changes.filterMap (·.newGroupId)))
          && (boardColumns s boardId).any (fun c => decide (c.id = gr.columnId)))).map
        (·.id)).Nodup :=
      filter_map_nodup _ _ _ hwf.2.1
    have := length_eq_of_nodup_subset hnodupF
      (dedupFirst_nodup (changes.filterMap (·.newGroupId)))
      (by
        intro y hy
        rw [List.mem_map] at hy
        obtain ⟨gr, hgr, rfl⟩ := hy
        rw [List.mem_filter, Bool.and_eq_true] at hgr
        exact of_decide_eq_true hgr.2.1)
      (by
        intro t ht
        obtain ⟨gr, hgr, hgrid⟩ := hfetchg t ht
        rw [List.mem_map]
        exact ⟨gr, hgr, hgrid⟩)
    simpa using this
  have hany2 : ¬ (changes.any (fun ch =>
      match ch.newGroupId with
      | some g => decide (¬ (s.groups.filter (fun gr =>
          decide (gr.id ∈ dedupFirst (changes.filterMap (·.newGroupId)))
            && (boardColumns s boardId).any (fun c => decide (c.id = gr.columnId)))).any
          (fun gr => decide (gr.id = g ∧ gr.columnId = ch.newColumnId)) = true)
      | none => false)) = true := by
    rw [List.any_eq_true]
    rintro ⟨ch2, hch2, hdec⟩
    cases hgid : ch2.newGroupId with
    | none => rw [hgid] at hdec; exact Bool.noConfusion hdec
    | some g2 =>
      rw [hgid] at hdec
      rw [decide_eq_true_eq] at hdec
      obtain ⟨gr, hgrmem, hgrid, hgrcol⟩ := hgrp ch2 hch2 g2 hgid
      obtain ⟨c, hc, hcid⟩ := hcol ch2 hch2
      apply hdec
      apply List.any_eq_true.mpr
      refine ⟨gr, List.mem_filter.mpr ⟨hgrmem, ?_⟩, by simp [hgrid, hgrcol]⟩
      rw [Bool.and_eq_true]
      constructor
      · have : g2 ∈ dedupFirst (changes.filterMap (·.newGroupId)) := by
          rw [mem_dedupFirst, List.mem_filterMap]
          exact ⟨ch2, hch2, hgid⟩
        simpa [hgrid] using this
      · exact List.any_eq_true.mpr ⟨c, hc, by simp [hcid, hgrcol]⟩
  have hlenitems : ¬ (s.items.filter (fun it =>
      decide (it.id ∈ dedupFirst (changes.map (·.itemId)))
        && (boardColumns s boardId).any (fun c => decide (c.id = it.columnId)))).length
      ≠ (dedupFirst (changes.map (·.itemId))).length := by
    rw [not_ne_iff]
    have hnodupF : ((s.items.filter (fun it =>
        decide (it.id ∈ dedupFirst (changes.map (·.itemId)))
          && (boardColumns s boardId).any (fun c => decide (c.id = it.columnId)))).map
        (·.id)).Nodup :=
      filter_map_nodup _ _ _ hwf.1
    have := length_eq_of_nodup_subset hnodupF
      (dedupFirst_nodup (changes.map (·.itemId)))
      (by
        intro y hy
        rw [List.mem_map] at hy
        obtain ⟨it, hit, rfl⟩ := hy
        rw [List.mem_filter, Bool.and_eq_true] at hit
        exact of_decide_eq_true hit.2.1)
      (by
        intro t ht
        have ht2 := mem_dedupFirst.mp ht
        rw [List.mem_map] at ht2
        obtain ⟨ch2, hch2, hch2t⟩ := ht2
        obtain ⟨it, hitmem, hitid, c, hc, hcid⟩ := hitem ch2 hch2
        rw [List.mem_map]
        refine ⟨it, List.mem_filter.mpr ⟨hitmem, ?_⟩, hch2t ▸ hitid⟩
        rw [Bool.and_eq_true]
        refine ⟨by simp [hitid, hch2t ▸ ht], ?_⟩
        exact List.any_eq_true.mpr ⟨c, hc, by simp [hcid]⟩)
    simpa using this
  refine ⟨?_, ?_, ?_⟩ <;>
    · simp only [syncItemPositions]
      rw [if_neg hne, if_neg (fun h => h hacc), if_neg hcols, if_neg hbadcol,
        if_neg hlen, if_neg hany2, if_neg hlenitems]
      rfl

/-- C7 (amended): a batch whose `changes` repeat an `itemId` is *accepted*
(ids are deduplicated before the resolve check, each change is applied in
order), while the genuinely malformed move targets fail with `BadRequest`:
out-of-range `reorderColumns` indices, a `newColumnId` not in the board,
and a `newGroupId` not resolving to a group of the target column. -/
theorem batch_validation_errors_theorem :
    (∀ (s : State) (boardId userId : Nat) (changes : List ItemChange),
      WF s → changes ≠ [] → boardAccessible s boardId userId = true →
      boardColumns s boardId ≠ [] →
      (∀ ch ∈ changes, ∃ c ∈ boardColumns s boardId, c.id = ch.newColumnId) →
      (∀ ch ∈ changes, ∀ g, ch.newGroupId = some g →
        ∃ gr ∈ s.groups, gr.id = g ∧ gr.columnId = ch.newColumnId) →
      (∀ ch ∈ changes, ∃ it ∈ s.items, it.id = ch.itemId ∧
        ∃ c ∈ boardColumns s boardId, c.id = it.columnId) →
      (syncItemPositions s boardId userId changes).isOk = true
        ∧ (syncItemPositions s boardId userId changes).map (fun r => r.1.updated)
            = .ok changes.length)
    ∧ (∀ (s : State) (boardId userId : Nat) (oldIndex newIndex : Int),
      boardAccessible s boardId userId = true →
      boardColumns s boardId ≠ [] →
      (oldIndex < 0 ∨ newIndex < 0 ∨ ((boardColumns s boardId).length : Int) ≤ oldIndex
        ∨ ((boardColumns s boardId).length : Int) ≤ newIndex) →
      reorderColumns s boardId userId oldIndex newIndex = .error .badRequest)
    ∧ (∀ (s : State) (boardId userId : Nat) (changes : List ItemChange),
      changes ≠ [] → boardAccessible s boardId userId = true →
      boardColumns s boardId ≠ [] →
      (∃ ch ∈ changes, ∀ c ∈ boardColumns s boardId, c.id ≠ ch.newColumnId) →
      syncItemPositions s boardId userId changes = .error .badRequest) := by
  refine ⟨?_, ?_, ?_⟩
  · intro s boardId userId changes hwf hne hacc hcols hcol hgrp hitem
    have h := syncItems_ok_of_valid s boardId userId changes hwf hne hacc hcols hcol hgrp hitem
    exact ⟨h.1, h.2.1⟩
  · intro s boardId userId oldIndex newIndex hacc hcols hrange
    have hlen : (sortByCmp columnOrderCmp
          (s.columns.filter (fun c => decide (c.boardId = boardId)))).length
        = (boardColumns s boardId).length :=
      (List.perm_insertionSort (leOfCmp columnOrderCmp)
        (s.columns.filter (fun c => decide (c.boardId = boardId)))).length_eq
    simp only [reorderColumns]
    rw [if_neg (fun h => h hacc)]
    rw [if_neg (by
      intro h0
      rw [List.isEmpty_iff] at h0
      apply hcols
      have := hlen.symm.trans (congrArg List.length h0)
      exact List.length_eq_zero.mp this)]
    rw [if_pos (by rw [hlen]; exact hrange)]
  · intro s boardId userId changes hne hacc hcols hbad
    obtain ⟨ch, hch, hforall⟩ := hbad
    have hany : (changes.any (fun ch => decide (¬ (boardColumns s boardId).any
        (fun c => decide (c.id = ch.newColumnId)) = true))) = true := by
      apply List.any_eq_true.mpr
      refine ⟨ch, hch, ?_⟩
      simp only [decide_eq_true_eq, List.any_eq_true]
      rintro ⟨c, hc, hcid⟩
      exact hforall c hc (by simpa using hcid)
    simp only [syncItemPositions]
    rw [if_neg hne, if_neg (fun h => h hacc), if_neg hcols, if_pos hany]

/-- Witness for C7: the duplicate batch `[{item 1 → (1,0)}, {item 1 → (1,1)}]`
is accepted with `updated = 2`, and an out-of-range `reorderColumns`
index fails with `BadRequest`. -/
theorem batch_validation_errors_witness :
    (syncItemPositions sampleState 1 7 [⟨1, 1, 0, none⟩, ⟨1, 1, 1, none⟩]).isOk = true
      ∧ (syncItemPositions sampleState 1 7 [⟨1, 1, 0, none⟩, ⟨1, 1, 1, none⟩]).map
          (fun r => r.1.updated) = .ok 2
      ∧ reorderColumns sampleState 1 7 0 5 = .error .badRequest := by
  have h1 := batch_validation_errors_theorem.1 sampleState 1 7
    [⟨1, 1, 0, none⟩, ⟨1, 1, 1, none⟩]
    (by decide) (by decide) (by decide) (by decide) (by decide) (by decide) (by decide)
  have h2 := batch_validation_errors_theorem.2.1 sampleState 1 7 0 5
    (by decide) (by decide) (by decide)
  exact ⟨h1.1, h1.2, h2⟩

/-! ### The write-back loop in closed form -/

/-- The `type:id` key of an entry token. -/
def entryKey (e : Entry) : EntryType × Nat := (e.type, e.id)

/-- Position of a key in a key list. -/
def keyIdx? : List (EntryType × Nat) → (EntryType × Nat) → Option Nat
  | [], _ => none
  | k :: ks, key => if k = key then some 0 else (keyIdx? ks key).map (· + 1)

theorem keyIdx?_eq_none {ks : List (EntryType × Nat)} {key : EntryType × Nat} :
    keyIdx? ks key = none ↔ key ∉ ks := by
  induction ks with
  | nil => simp [keyIdx?]
  | cons k ks ih =>
    simp only [keyIdx?, List.mem_cons]
    split
    · simp_all
    · cases h : keyIdx? ks key <;> simp_all [Option.map]
      intro h2
      exact (by assumption : ¬ k = key) h2.symm

/-- What one full write-back pass does to an item: if its key occurs in
the entry list, its row index becomes the starting index plus the key's
position; otherwise it is untouched. -/
def itemWriteFun (ks : List (EntryType × Nat)) (k : Int) (it : Item) : Item :=
  match keyIdx? ks (.ITEM, it.id) with
  | some j => { it with rowIndex := k + j }
  | none => it

/-- What one full write-back pass does to a group. -/
def groupWriteFun (ks : List (EntryType × Nat)) (k : Int) (g : Group) : Group :=
  match keyIdx? ks (.GROUP, g.id) with
  | some j => { g with orderIndex := k + j }
  | none => g

theorem itemWriteFun_not_mem {ks : List (EntryType × Nat)} {k : Int} {it : Item}
    (h : (EntryType.ITEM, it.id) ∉ ks) : itemWriteFun ks k it = it := by
  unfold itemWriteFun
  rw [keyIdx?_eq_none.mpr h]

theorem groupWriteFun_not_mem {ks : List (EntryType × Nat)} {k : Int} {g : Group}
    (h : (EntryType.GROUP, g.id) ∉ ks) : groupWriteFun ks k g = g := by
  unfold groupWriteFun
  rw [keyIdx?_eq_none.mpr h]

theorem itemWriteFun_cons_self {ks : List (EntryType × Nat)} {k : Int} {it : Item}
    {key : EntryType × Nat} (hkey : key = (EntryType.ITEM, it.id)) :
    itemWriteFun (key :: ks) k it = { it with rowIndex := k } := by
  unfold itemWriteFun
  have : keyIdx? (key :: ks) (.ITEM, it.id) = some 0 := by
    simp only [keyIdx?]
    rw [if_pos hkey]
  rw [this]
  show ({ it with rowIndex := k + ((0 : Nat) : Int) } : Item) = _
  norm_num

theorem itemWriteFun_cons_ne {ks : List (EntryType × Nat)} {k : Int} {it : Item}
    {key : EntryType × Nat} (hkey : ¬ key = (EntryType.ITEM, it.id)) :
    itemWriteFun (key :: ks) k it = itemWriteFun ks (k + 1) it := by
  unfold itemWriteFun
  have : keyIdx? (key :: ks) (.ITEM, it.id) = (keyIdx? ks (.ITEM, it.id)).map (· + 1) := by
    simp only [keyIdx?]
    rw [if_neg hkey]
  rw [this]
  cases keyIdx? ks (.ITEM, it.id) with
  | none => rfl
  | some j =>
    show ({ it with rowIndex := k + ((j + 1 : Nat) : Int) } : Item)
      = { it with rowIndex := k + 1 + (j : Int) }
    congr 1
    push_cast
    ring

theorem groupWriteFun_cons_self {ks : List (EntryType × Nat)} {k : Int} {g : Group}
    {key : EntryType × Nat} (hkey : key = (EntryType.GROUP, g.id)) :
    groupWriteFun (key :: ks) k g = { g with orderIndex := k } := by
  unfold groupWriteFun
  have : keyIdx? (key :: ks) (.GROUP, g.id) = some 0 := by
    simp only [keyIdx?]
    rw [if_pos hkey]
  rw [this]
  show ({ g with orderIndex := k + ((0 : Nat) : Int) } : Group) = _
  norm_num

theorem groupWriteFun_cons_ne {ks : List (EntryType × Nat)} {k : Int} {g : Group}
    {key : EntryType × Nat} (hkey : ¬ key = (EntryType.GROUP, g.id)) :
    groupWriteFun (key :: ks) k g = groupWriteFun ks (k + 1) g := by
  unfold groupWriteFun
  have : keyIdx? (key :: ks) (.GROUP, g.id) = (keyIdx? ks (.GROUP, g.id)).map (· + 1) := by
    simp only [keyIdx?]
    rw [if_neg hkey]
  rw [this]
  cases keyIdx? ks (.GROUP, g.id) with
  | none => rfl
  | some j =>
    show ({ g with orderIndex := k + ((j + 1 : Nat) : Int) } : Group)
      = { g with orderIndex := k + 1 + (j : Int) }
    congr 1
    push_cast
    ring

theorem itemWriteFun_fields (ks : List (EntryType × Nat)) (k : Int) (it : Item) :
    (itemWriteFun ks k it).id = it.id ∧ (itemWriteFun ks k it).columnId = it.columnId
      ∧ (itemWriteFun ks k it).groupId = it.groupId := by
  unfold itemWriteFun
  cases keyIdx? ks (.ITEM, it.id) <;> exact ⟨rfl, rfl, rfl⟩

theorem groupWriteFun_fields (ks : List (EntryType × Nat)) (k : Int) (g : Group) :
    (groupWriteFun ks k g).id = g.id ∧ (groupWriteFun ks k g).columnId = g.columnId := by
  unfold groupWriteFun
  cases keyIdx? ks (.GROUP, g.id) <;> exact ⟨rfl, rfl⟩

/-- The write-back loop in one shot: provided the entry keys are
duplicate-free, running `writeBackEntries` equals mapping the per-record
write functions over the store, leaving every other table untouched. -/
theorem writeBackEntries_eq (es : List Entry) :
    ∀ (s : State) (k : Int), ((es.map entryKey).Nodup) →
      writeBackEntries s es k =
        { s with
          items := s.items.map (itemWriteFun (es.map entryKey) k),
          groups := s.groups.map (groupWriteFun (es.map entryKey) k) } := by
  induction es with
  | nil =>
    intro s k _
    simp only [writeBackEntries, List.map_nil]
    have h1 : s.items.map (itemWriteFun [] k) = s.items :=
      List.map_id'' (fun it => itemWriteFun_not_mem (List.not_mem_nil _)) s.items
    have h2 : s.groups.map (groupWriteFun [] k) = s.groups :=
      List.map_id'' (fun g => groupWriteFun_not_mem (List.not_mem_nil _)) s.groups
    rw [h1, h2]
  | cons e es ih =>
    intro s k hnd
    rw [List.map_cons] at hnd
    have hnotmem := (List.nodup_cons.mp hnd).1
    have hnd2 := (List.nodup_cons.mp hnd).2
    show writeBackEntries (setEntryIndex s e k) es (k + 1) = _
    rw [ih (setEntryIndex s e k) (k + 1) hnd2]
    cases htype : e.type with
    | ITEM =>
      have hset : setEntryIndex s e k =
          { s with items := s.items.map (fun it =>
              if it.id = e.id then { it with rowIndex := k } else it) } := by
        unfold setEntryIndex
        rw [htype]
      rw [hset]
      have hekey : entryKey e = (EntryType.ITEM, e.id) := by
        unfold entryKey
        rw [htype]
      have hitems : (s.items.map (fun it =>
          if it.id = e.id then { it with rowIndex := k } else it)).map
            (itemWriteFun (es.map entryKey) (k + 1))
          = s.items.map (itemWriteFun (entryKey e :: es.map entryKey) k) := by
        rw [List.map_map]
        apply List.map_congr_left
        intro it _
        simp only [Function.comp]
        by_cases hid : it.id = e.id
        · rw [if_pos hid]
          rw [@itemWriteFun_not_mem (es.map entryKey) (k + 1) { it with rowIndex := k }
            (show (EntryType.ITEM, it.id) ∉ es.map entryKey from by
              rw [hid, ← hekey]
              exact hnotmem)]
          rw [itemWriteFun_cons_self (by rw [hekey, hid])]
        · rw [if_neg hid]
          rw [itemWriteFun_cons_ne (by
            rw [hekey]
            intro hcontra
            exact hid (congrArg Prod.snd hcontra).symm)]
      have hgroups : s.groups.map (groupWriteFun (es.map entryKey) (k + 1))
          = s.groups.map (groupWriteFun (entryKey e :: es.map entryKey) k) := by
        apply List.map_congr_left
        intro g _
        rw [groupWriteFun_cons_ne (by
          rw [hekey]
          intro hcontra
          exact EntryType.noConfusion (congrArg Prod.fst hcontra))]
      simp only [List.map_cons]
      rw [hitems, hgroups]
    | GROUP =>
      have hset : setEntryIndex s e k =
          { s with groups := s.groups.map (fun g =>
              if g.id = e.id then { g with orderIndex := k } else g) } := by
        unfold setEntryIndex
        rw [htype]
      rw [hset]
      have hekey : entryKey e = (EntryType.GROUP, e.id) := by
        unfold entryKey
        rw [htype]
      have hgroups : (s.groups.map (fun g =>
          if g.id = e.id then { g with orderIndex := k } else g)).map
            (groupWriteFun (es.map entryKey) (k + 1))
          = s.groups.map (groupWriteFun (entryKey e :: es.map entryKey) k) := by
        rw [List.map_map]
        apply List.map_congr_left
        intro g _
        simp only [Function.comp]
        by_cases hid : g.id = e.id
        · rw [if_pos hid]
          rw [@groupWriteFun_not_mem (es.map entryKey) (k + 1) { g with orderIndex := k }
            (show (EntryType.GROUP, g.id) ∉ es.map entryKey from by
              rw [hid, ← hekey]
              exact hnotmem)]
          rw [groupWriteFun_cons_self (by rw [hekey, hid])]
        · rw [if_neg hid]
          rw [groupWriteFun_cons_ne (by
            rw [hekey]
            intro hcontra
            exact hid (congrArg Prod.snd hcontra).symm)]
      have hitems : s.items.map (itemWriteFun (es.map entryKey) (k + 1))
          = s.items.map (itemWriteFun (entryKey e :: es.map entryKey) k) := by
        apply List.map_congr_left
        intro it _
        rw [itemWriteFun_cons_ne (by
          rw [hekey]
          intro hcontra
          exact EntryType.noConfusion (congrArg Prod.fst hcontra))]
      simp only [List.map_cons]
      rw [hitems, hgroups]

/-! ### Index assignment is a bijection onto `0..N-1` -/

theorem keyIdx?_self_map : ∀ (ks : List (EntryType × Nat)), ks.Nodup →
    ks.map (fun key => keyIdx? ks key) = (List.range ks.length).map some := by
  intro ks
  induction ks with
  | nil => intro _; rfl
  | cons k ks ih =>
    intro hnd
    have hk := (List.nodup_cons.mp hnd).1
    have hnd2 := (List.nodup_cons.mp hnd).2
    rw [List.map_cons]
    have hhead : keyIdx? (k :: ks) k = some 0 := by
      simp [keyIdx?]
    have htail : ks.map (fun key => keyIdx? (k :: ks) key)
        = ks.map (fun key => (keyIdx? ks key).map (· + 1)) := by
      apply List.map_congr_left
      intro key hmem
      simp only [keyIdx?]
      rw [if_neg (fun hcontra : k = key => hk (hcontra ▸ hmem))]
    rw [hhead, htail]
    have hcomp : ks.map (fun key => (keyIdx? ks key).map (· + 1))
        = (ks.map (fun key => keyIdx? ks key)).map (Option.map (· + 1)) := by
      rw [List.map_map]
      rfl
    rw [hcomp, ih hnd2, List.map_map, List.length_cons, List.range_succ_eq_map,
      List.map_cons, List.map_map]
    congr 1

/-- The integer index finally written for a key (0 as a junk default). -/
def idxInt (ks : List (EntryType × Nat)) (key : EntryType × Nat) : Int :=
  match keyIdx? ks key with
  | some j => (j : Int)
  | none => 0

theorem map_idxInt_self (ks : List (EntryType × Nat)) (hnd : ks.Nodup) :
    ks.map (idxInt ks) = (List.range ks.length).map Int.ofNat := by
  have h := keyIdx?_self_map ks hnd
  have hcomp : ks.map (idxInt ks)
      = (ks.map (fun key => keyIdx? ks key)).map (fun o =>
          match o with
          | some j => (j : Int)
          | none => 0) := by
    rw [List.map_map]
    rfl
  rw [hcomp, h, List.map_map]
  rfl

/-- Any permutation of `[0, ..., n-1]` is gap-free. -/
theorem gapFree_of_perm_range {l : List Int} {n : Nat}
    (h : List.Perm l ((List.range n).map Int.ofNat)) : gapFree l := by
  have hlen : l.length = n := by
    rw [h.length_eq, List.length_map, List.length_range]
  unfold gapFree sortInts
  have hperm : List.Perm (List.insertionSort (fun a b => a ≤ b) l)
      ((List.range n).map Int.ofNat) := (List.perm_insertionSort _ l).trans h
  have hs1 : List.Sorted (fun a b : Int => a ≤ b)
      (List.insertionSort (fun a b => a ≤ b) l) := List.sorted_insertionSort _ l
  have hs2 : List.Sorted (fun a b : Int => a ≤ b) ((List.range n).map Int.ofNat) := by
    refine (List.pairwise_lt_range n).map Int.ofNat ?_
    intro a b hab
    exact Int.le_of_lt (Int.ofNat_lt.mpr hab)
  rw [hlen]
  exact List.eq_of_perm_of_sorted hperm hs1 hs2

/-! ### Renumbering in closed form: keys, permutations, establishment -/

/-- The `type:id` keys of a column's root-level members, in store order. -/
def rootKeys (s : State) (columnId : Nat) : List (EntryType × Nat) :=
  (ungroupedItems s columnId).map (fun it => (EntryType.ITEM, it.id))
    ++ (columnGroups s columnId).map (fun g => (EntryType.GROUP, g.id))

/-- The key list the root renumbering writes, in final order. -/
def rootWriteKeys (s : State) (columnId : Nat) (pm : Option PrefMap) :
    List (EntryType × Nat) :=
  (sortByCmp (rootEntryCmp pm) (collectRootEntries s columnId)).map entryKey

/-- The key list the group renumbering writes, in final order. -/
def groupWriteKeys (s : State) (groupId : Nat) : List (EntryType × Nat) :=
  ((sortByCmp itemKeyCmp (groupItems s groupId)).map
    (fun it => (⟨.ITEM, it.id, it.rowIndex⟩ : Entry))).map entryKey

theorem rootWriteKeys_perm (s : State) (columnId : Nat) (pm : Option PrefMap) :
    List.Perm (rootWriteKeys s columnId pm) (rootKeys s columnId) := by
  unfold rootWriteKeys
  refine ((List.perm_insertionSort _ _).map entryKey).trans ?_
  unfold collectRootEntries rootKeys
  rw [List.map_append, List.map_map, List.map_map]
  exact ((List.perm_insertionSort _ _).map _).append ((List.perm_insertionSort _ _).map _)

theorem groupWriteKeys_perm (s : State) (groupId : Nat) :
    List.Perm (groupWriteKeys s groupId)
      ((groupItems s groupId).map (fun it => (EntryType.ITEM, it.id))) := by
  unfold groupWriteKeys
  rw [List.map_map]
  exact (List.perm_insertionSort _ _).map _

theorem rootKeys_nodup (s : State) (columnId : Nat)
    (hIN : (s.items.map Item.id).Nodup) (hGN : (s.groups.map Group.id).Nodup) :
    (rootKeys s columnId).Nodup := by
  unfold rootKeys
  rw [List.nodup_append]
  refine ⟨?_, ?_, ?_⟩
  · have h : ((ungroupedItems s columnId).map Item.id).Nodup :=
      filter_map_nodup Item.id _ s.items hIN
    have hcomp : (ungroupedItems s columnId).map
        (fun it => ((EntryType.ITEM, it.id) : EntryType × Nat))
        = ((ungroupedItems s columnId).map Item.id).map (fun i => (EntryType.ITEM, i)) := by
      rw [List.map_map]
      rfl
    rw [hcomp]
    exact h.map (fun a b hab => congrArg Prod.snd hab)
  · have h : ((columnGroups s columnId).map Group.id).Nodup :=
      filter_map_nodup Group.id _ s.groups hGN
    have hcomp : (columnGroups s columnId).map
        (fun g => ((EntryType.GROUP, g.id) : EntryType × Nat))
        = ((columnGroups s columnId).map Group.id).map (fun i => (EntryType.GROUP, i)) := by
      rw [List.map_map]
      rfl
    rw [hcomp]
    exact h.map (fun a b hab => congrArg Prod.snd hab)
  · intro a ha hb
    rw [List.mem_map] at ha hb
    obtain ⟨it, -, rfl⟩ := ha
    obtain ⟨g, -, hg⟩ := hb
    exact EntryType.noConfusion (congrArg Prod.fst hg)

theorem groupKeys_nodup (s : State) (groupId : Nat)
    (hIN : (s.items.map Item.id).Nodup) :
    ((groupItems s groupId).map (fun it =>
      ((EntryType.ITEM, it.id) : EntryType × Nat))).Nodup := by
  have h : ((groupItems s groupId).map Item.id).Nodup :=
    filter_map_nodup Item.id _ s.items hIN
  have hcomp : (groupItems s groupId).map
      (fun it => ((EntryType.ITEM, it.id) : EntryType × Nat))
      = ((groupItems s groupId).map Item.id).map (fun i => (EntryType.ITEM, i)) := by
    rw [List.map_map]
    rfl
  rw [hcomp]
  exact h.map (fun a b hab => congrArg Prod.snd hab)

theorem rootWriteKeys_nodup (s : State) (columnId : Nat) (pm : Option PrefMap)
    (hIN : (s.items.map Item.id).Nodup) (hGN : (s.groups.map Group.id).Nodup) :
    (rootWriteKeys s columnId pm).Nodup :=
  (rootWriteKeys_perm s columnId pm).nodup_iff.mpr (rootKeys_nodup s columnId hIN hGN)

theorem groupWriteKeys_nodup (s : State) (groupId : Nat)
    (hIN : (s.items.map Item.id).Nodup) :
    (groupWriteKeys s groupId).Nodup :=
  (groupWriteKeys_perm s groupId).nodup_iff.mpr (groupKeys_nodup s groupId hIN)

/-- The root renumbering as a pair of whole-table maps. -/
theorem normalizeColumn_eq (s : State) (columnId : Nat) (pm : Option PrefMap)
    (hIN : (s.items.map Item.id).Nodup) (hGN : (s.groups.map Group.id).Nodup) :
    normalizeColumnRootEntryOrder s columnId pm =
      { s with
        items := s.items.map (itemWriteFun (rootWriteKeys s columnId pm) 0),
        groups := s.groups.map (groupWriteFun (rootWriteKeys s columnId pm) 0) } :=
  writeBackEntries_eq _ s 0 (rootWriteKeys_nodup s columnId pm hIN hGN)

/-- The group renumbering as a whole-table map (groups untouched). -/
theorem normalizeGroup_eq (s : State) (groupId : Nat)
    (hIN : (s.items.map Item.id).Nodup) :
    normalizeGroupItemsOrder s groupId =
      { s with items := s.items.map (itemWriteFun (groupWriteKeys s groupId) 0) } := by
  have h : writeBackEntries s
      ((sortByCmp itemKeyCmp (groupItems s groupId)).map
        (fun it => (⟨.ITEM, it.id, it.rowIndex⟩ : Entry))) 0 =
      { s with
        items := s.items.map (itemWriteFun (groupWriteKeys s groupId) 0),
        groups := s.groups.map (groupWriteFun (groupWriteKeys s groupId) 0) } :=
    writeBackEntries_eq _ s 0 (groupWriteKeys_nodup s groupId hIN)
  unfold normalizeGroupItemsOrder
  rw [h]
  have hgid : s.groups.map (groupWriteFun (groupWriteKeys s groupId) 0) = s.groups := by
    apply List.map_id''
    intro g
    apply groupWriteFun_not_mem
    unfold groupWriteKeys
    rw [List.map_map, List.mem_map]
    rintro ⟨it, -, hcontra⟩
    exact EntryType.noConfusion (congrArg Prod.fst hcontra)
  rw [hgid]

/-! ### Filters commute with field-preserving maps -/

theorem filter_ungrouped_map (f : Item → Item)
    (hf : ∀ it, (f it).columnId = it.columnId ∧ (f it).groupId = it.groupId)
    (l : List Item) (cid : Nat) :
    (l.map f).filter (fun it => decide (it.columnId = cid ∧ it.groupId = none))
      = (l.filter (fun it => decide (it.columnId = cid ∧ it.groupId = none))).map f := by
  rw [List.filter_map]
  congr 1
  apply List.filter_congr
  intro it _
  simp only [Function.comp]
  rw [(hf it).1, (hf it).2]

theorem filter_grouped_map (f : Item → Item)
    (hf : ∀ it, (f it).groupId = it.groupId)
    (l : List Item) (gid : Nat) :
    (l.map f).filter (fun it => decide (it.groupId = some gid))
      = (l.filter (fun it => decide (it.groupId = some gid))).map f := by
  rw [List.filter_map]
  congr 1
  apply List.filter_congr
  intro it _
  simp only [Function.comp]
  rw [hf it]

theorem filter_groups_map (f : Group → Group)
    (hf : ∀ g, (f g).columnId = g.columnId)
    (l : List Group) (cid : Nat) :
    (l.map f).filter (fun g => decide (g.columnId = cid))
      = (l.filter (fun g => decide (g.columnId = cid))).map f := by
  rw [List.filter_map]
  congr 1
  apply List.filter_congr
  intro g _
  simp only [Function.comp]
  rw [hf g]

/-! ### Establishment: a renumbered container is gap-free -/

theorem rootGapFree_normalizeColumn (s : State) (cid : Nat) (pm : Option PrefMap)
    (hIN : (s.items.map Item.id).Nodup) (hGN : (s.groups.map Group.id).Nodup) :
    rootGapFree (normalizeColumnRootEntryOrder s cid pm) cid := by
  have heq := normalizeColumn_eq s cid pm hIN hGN
  have hperm := rootWriteKeys_perm s cid pm
  have hknd := rootWriteKeys_nodup s cid pm hIN hGN
  have hU : ungroupedItems (normalizeColumnRootEntryOrder s cid pm) cid
      = (ungroupedItems s cid).map (itemWriteFun (rootWriteKeys s cid pm) 0) := by
    rw [heq]
    unfold ungroupedItems
    exact filter_ungrouped_map _
      (fun it => ⟨(itemWriteFun_fields _ 0 it).2.1, (itemWriteFun_fields _ 0 it).2.2⟩)
      s.items cid
  have hG : columnGroups (normalizeColumnRootEntryOrder s cid pm) cid
      = (columnGroups s cid).map (groupWriteFun (rootWriteKeys s cid pm) 0) := by
    rw [heq]
    unfold columnGroups
    exact filter_groups_map _ (fun g => (groupWriteFun_fields _ 0 g).2) s.groups cid
  have hchain : rootIndexList (normalizeColumnRootEntryOrder s cid pm) cid
      = (rootKeys s cid).map (idxInt (rootWriteKeys s cid pm)) := by
    unfold rootIndexList rootKeys
    rw [hU, hG, List.map_map, List.map_map, List.map_append, List.map_map, List.map_map]
    congr 1
    · apply List.map_congr_left
      intro it hmem
      have hkey : (EntryType.ITEM, it.id) ∈ rootWriteKeys s cid pm := by
        rw [hperm.mem_iff]
        unfold rootKeys
        exact List.mem_append.mpr (Or.inl (List.mem_map_of_mem _ hmem))
      show (itemWriteFun (rootWriteKeys s cid pm) 0 it).rowIndex
        = idxInt (rootWriteKeys s cid pm) (EntryType.ITEM, it.id)
      cases hj : keyIdx? (rootWriteKeys s cid pm) (EntryType.ITEM, it.id) with
      | none => exact absurd (keyIdx?_eq_none.mp hj) (by simpa using hkey)
      | some j =>
        unfold itemWriteFun idxInt
        rw [hj]
        norm_num
    · apply List.map_congr_left
      intro g hmem
      have hkey : (EntryType.GROUP, g.id) ∈ rootWriteKeys s cid pm := by
        rw [hperm.mem_iff]
        unfold rootKeys
        exact List.mem_append.mpr (Or.inr (List.mem_map_of_mem _ hmem))
      show (groupWriteFun (rootWriteKeys s cid pm) 0 g).orderIndex
        = idxInt (rootWriteKeys s cid pm) (EntryType.GROUP, g.id)
      cases hj : keyIdx? (rootWriteKeys s cid pm) (EntryType.GROUP, g.id) with
      | none => exact absurd (keyIdx?_eq_none.mp hj) (by simpa using hkey)
      | some j =>
        unfold groupWriteFun idxInt
        rw [hj]
        norm_num
  have hperm2 : List.Perm ((rootKeys s cid).map (idxInt (rootWriteKeys s cid pm)))
      ((rootWriteKeys s cid pm).map (idxInt (rootWriteKeys s cid pm))) :=
    (hperm.symm).map _
  have hself := map_idxInt_self (rootWriteKeys s cid pm) hknd
  unfold rootGapFree
  rw [hchain]
  exact gapFree_of_perm_range (hself ▸ hperm2)

theorem groupGapFree_normalizeGroup (s : State) (gid : Nat)
    (hIN : (s.items.map Item.id).Nodup) :
    groupGapFree (normalizeGroupItemsOrder s gid) gid := by
  have heq := normalizeGroup_eq s gid hIN
  have hperm := groupWriteKeys_perm s gid
  have hknd := groupWriteKeys_nodup s gid hIN
  have hU : groupItems (normalizeGroupItemsOrder s gid) gid
      = (groupItems s gid).map (itemWriteFun (groupWriteKeys s gid) 0) := by
    rw [heq]
    unfold groupItems
    exact filter_grouped_map _ (fun it => (itemWriteFun_fields _ 0 it).2.2) s.items gid
  have hchain : (groupItems (normalizeGroupItemsOrder s gid) gid).map (·.rowIndex)
      = ((groupItems s gid).map (fun it => ((EntryType.ITEM, it.id) : EntryType × Nat))).map
          (idxInt (groupWriteKeys s gid)) := by
    rw [hU, List.map_map, List.map_map]
    apply List.map_congr_left
    intro it hmem
    have hkey : (EntryType.ITEM, it.id) ∈ groupWriteKeys s gid := by
      rw [(groupWriteKeys_perm s gid).mem_iff]
      exact List.mem_map_of_mem _ hmem
    show (itemWriteFun (groupWriteKeys s gid) 0 it).rowIndex
      = idxInt (groupWriteKeys s gid) (EntryType.ITEM, it.id)
    cases hj : keyIdx? (groupWriteKeys s gid) (EntryType.ITEM, it.id) with
    | none => exact absurd (keyIdx?_eq_none.mp hj) (by simpa using hkey)
    | some j =>
      unfold itemWriteFun idxInt
      rw [hj]
      norm_num
  have hperm2 : List.Perm
      (((groupItems s gid).map (fun it => ((EntryType.ITEM, it.id) : EntryType × Nat))).map
        (idxInt (groupWriteKeys s gid)))
      ((groupWriteKeys s gid).map (idxInt (groupWriteKeys s gid))) :=
    (hperm.symm).map _
  have hself := map_idxInt_self (groupWriteKeys s gid) hknd
  unfold groupGapFree
  rw [hchain]
  exact gapFree_of_perm_range (hself ▸ hperm2)

/-! ### Frames: renumbering touches only its own container -/

theorem notin_rootKeys_item (s : State) (cid : Nat) {it : Item}
    (hIN : (s.items.map Item.id).Nodup) (hmem : it ∈ s.items)
    (hnot : ¬ (it.columnId = cid ∧ it.groupId = none)) :
    (EntryType.ITEM, it.id) ∉ rootKeys s cid := by
  unfold rootKeys
  rw [List.mem_append]
  rintro (h | h)
  · rw [List.mem_map] at h
    obtain ⟨it2, hit2, hkey⟩ := h
    have hid : it2.id = it.id := congrArg Prod.snd hkey
    unfold ungroupedItems at hit2
    rw [List.mem_filter] at hit2
    have : it2 = it := List.inj_on_of_nodup_map hIN hit2.1 hmem hid
    apply hnot
    rw [← this]
    exact of_decide_eq_true hit2.2
  · rw [List.mem_map] at h
    obtain ⟨g, -, hkey⟩ := h
    exact EntryType.noConfusion (congrArg Prod.fst hkey)

theorem notin_rootKeys_group (s : State) (cid : Nat) {g : Group}
    (hGN : (s.groups.map Group.id).Nodup) (hmem : g ∈ s.groups)
    (hnot : g.columnId ≠ cid) :
    (EntryType.GROUP, g.id) ∉ rootKeys s cid := by
  unfold rootKeys
  rw [List.mem_append]
  rintro (h | h)
  · rw [List.mem_map] at h
    obtain ⟨it, -, hkey⟩ := h
    exact EntryType.noConfusion (congrArg Prod.fst hkey)
  · rw [List.mem_map] at h
    obtain ⟨g2, hg2, hkey⟩ := h
    have hid : g2.id = g.id := congrArg Prod.snd hkey
    unfold columnGroups at hg2
    rw [List.mem_filter] at hg2
    have : g2 = g := List.inj_on_of_nodup_map hGN hg2.1 hmem hid
    apply hnot
    rw [← this]
    exact of_decide_eq_true hg2.2

theorem normalizeColumn_frame (s : State) (cid : Nat) (pm : Option PrefMap)
    (hIN : (s.items.map Item.id).Nodup) (hGN : (s.groups.map Group.id).Nodup) :
    (∀ c', c' ≠ cid → ungroupedItems (normalizeColumnRootEntryOrder s cid pm) c'
        = ungroupedItems s c')
    ∧ (∀ gid, groupItems (normalizeColumnRootEntryOrder s cid pm) gid = groupItems s gid)
    ∧ (∀ c', c' ≠ cid → columnGroups (normalizeColumnRootEntryOrder s cid pm) c'
        = columnGroups s c') := by
  have heq := normalizeColumn_eq s cid pm hIN hGN
  have hperm := rootWriteKeys_perm s cid pm
  refine ⟨?_, ?_, ?_⟩
  · intro c' hc'
    have hstep : ungroupedItems (normalizeColumnRootEntryOrder s cid pm) c'
        = (ungroupedItems s c').map (itemWriteFun (rootWriteKeys s cid pm) 0) := by
      rw [heq]
      unfold ungroupedItems
      exact filter_ungrouped_map _
        (fun it => ⟨(itemWriteFun_fields _ 0 it).2.1, (itemWriteFun_fields _ 0 it).2.2⟩)
        s.items c'
    rw [hstep]
    have hfix : ∀ it ∈ ungroupedItems s c',
        itemWriteFun (rootWriteKeys s cid pm) 0 it = it := by
      intro it hmem
      unfold ungroupedItems at hmem
      rw [List.mem_filter] at hmem
      obtain ⟨hmem0, hp⟩ := hmem
      have hp2 := of_decide_eq_true hp
      apply itemWriteFun_not_mem
      rw [hperm.mem_iff]
      exact notin_rootKeys_item s cid hIN hmem0 (fun hand => hc' (hp2.1 ▸ hand.1))
    rw [List.map_congr_left hfix, List.map_id']
  · intro gid
    have hstep : groupItems (normalizeColumnRootEntryOrder s cid pm) gid
        = (groupItems s gid).map (itemWriteFun (rootWriteKeys s cid pm) 0) := by
      rw [heq]
      unfold groupItems
      exact filter_grouped_map _ (fun it => (itemWriteFun_fields _ 0 it).2.2) s.items gid
    rw [hstep]
    have hfix : ∀ it ∈ groupItems s gid,
        itemWriteFun (rootWriteKeys s cid pm) 0 it = it := by
      intro it hmem
      unfold groupItems at hmem
      rw [List.mem_filter] at hmem
      obtain ⟨hmem0, hp⟩ := hmem
      have hp2 := of_decide_eq_true hp
      apply itemWriteFun_not_mem
      rw [hperm.mem_iff]
      exact notin_rootKeys_item s cid hIN hmem0
        (fun hand => by rw [hp2] at hand; exact Option.noConfusion hand.2)
    rw [List.map_congr_left hfix, List.map_id']
  · intro c' hc'
    have hstep : columnGroups (normalizeColumnRootEntryOrder s cid pm) c'
        = (columnGroups s c').map (groupWriteFun (rootWriteKeys s cid pm) 0) := by
      rw [heq]
      unfold columnGroups
      exact filter_groups_map _ (fun g => (groupWriteFun_fields _ 0 g).2) s.groups c'
    rw [hstep]
    have hfix : ∀ g ∈ columnGroups s c',
        groupWriteFun (rootWriteKeys s cid pm) 0 g = g := by
      intro g hmem
      unfold columnGroups at hmem
      rw [List.mem_filter] at hmem
      obtain ⟨hmem0, hp⟩ := hmem
      have hp2 := of_decide_eq_true hp
      apply groupWriteFun_not_mem
      rw [hperm.mem_iff]
      exact notin_rootKeys_group s cid hGN hmem0 (fun hand => hc' (hp2 ▸ hand))
    rw [List.map_congr_left hfix, List.map_id']

theorem normalizeGroup_frame (s : State) (gid : Nat)
    (hIN : (s.items.map Item.id).Nodup) :
    (∀ c', ungroupedItems (normalizeGroupItemsOrder s gid) c' = ungroupedItems s c')
    ∧ (∀ g', g' ≠ gid → groupItems (normalizeGroupItemsOrder s gid) g' = groupItems s g')
    ∧ (∀ c', columnGroups (normalizeGroupItemsOrder s gid) c' = columnGroups s c') := by
  have heq := normalizeGroup_eq s gid hIN
  have hperm := groupWriteKeys_perm s gid
  have hnotin : ∀ {it : Item}, it ∈ s.items → it.groupId ≠ some gid →
      (EntryType.ITEM, it.id) ∉ groupWriteKeys s gid := by
    intro it hmem hgrp hk
    rw [hperm.mem_iff, List.mem_map] at hk
    obtain ⟨it2, hit2, hkey⟩ := hk
    have hid : it2.id = it.id := congrArg Prod.snd hkey
    unfold groupItems at hit2
    rw [List.mem_filter] at hit2
    have : it2 = it := List.inj_on_of_nodup_map hIN hit2.1 hmem hid
    apply hgrp
    rw [← this]
    exact of_decide_eq_true hit2.2
  refine ⟨?_, ?_, ?_⟩
  · intro c'
    have hstep : ungroupedItems (normalizeGroupItemsOrder s gid) c'
        = (ungroupedItems s c').map (itemWriteFun (groupWriteKeys s gid) 0) := by
      rw [heq]
      unfold ungroupedItems
      exact filter_ungrouped_map _
        (fun it => ⟨(itemWriteFun_fields _ 0 it).2.1, (itemWriteFun_fields _ 0 it).2.2⟩)
        s.items c'
    rw [hstep]
    have hfix : ∀ it ∈ ungroupedItems s c',
        itemWriteFun (groupWriteKeys s gid) 0 it = it := by
      intro it hmem
      unfold ungroupedItems at hmem
      rw [List.mem_filter] at hmem
      obtain ⟨hmem0, hp⟩ := hmem
      have hp2 := of_decide_eq_true hp
      exact itemWriteFun_not_mem (hnotin hmem0 (by rw [hp2.2]; exact Option.noConfusion))
    rw [List.map_congr_left hfix, List.map_id']
  · intro g' hg'
    have hstep : groupItems (normalizeGroupItemsOrder s gid) g'
        = (groupItems s g').map (itemWriteFun (groupWriteKeys s gid) 0) := by
      rw [heq]
      unfold groupItems
      exact filter_grouped_map _ (fun it => (itemWriteFun_fields _ 0 it).2.2) s.items g'
    rw [hstep]
    have hfix : ∀ it ∈ groupItems s g',
        itemWriteFun (groupWriteKeys s gid) 0 it = it := by
      intro it hmem
      unfold groupItems at hmem
      rw [List.mem_filter] at hmem
      obtain ⟨hmem0, hp⟩ := hmem
      have hp2 := of_decide_eq_true hp
      exact itemWriteFun_not_mem (hnotin hmem0 (by
        rw [hp2]
        intro hcontra
        exact hg' (Option.some.inj hcontra)))
    rw [List.map_congr_left hfix, List.map_id']
  · intro c'
    rw [heq]
    rfl

/-! ### Well-formedness survives the table-map operations -/

theorem WF_of_ids_eq {s t : State}
    (hi : t.items.map Item.id = s.items.map Item.id)
    (hg : t.groups.map Group.id = s.groups.map Group.id)
    (hc : t.columns = s.columns)
    (hni : t.nextItemId = s.nextItemId) (hng : t.nextGroupId = s.nextGroupId)
    (hnc : t.nextColumnId = s.nextColumnId)
    (hwf : WF s) : WF t := by
  obtain ⟨w1, w2, w3, w4, w5, w6⟩ := hwf
  refine ⟨hi ▸ w1, hg ▸ w2, hc ▸ w3, ?_, ?_, ?_⟩
  · intro it hit
    have : it.id ∈ t.items.map Item.id := List.mem_map_of_mem _ hit
    rw [hi, List.mem_map] at this
    obtain ⟨it0, hit0, hid⟩ := this
    rw [hni, ← hid]
    exact w4 it0 hit0
  · intro g hgm
    have : g.id ∈ t.groups.map Group.id := List.mem_map_of_mem _ hgm
    rw [hg, List.mem_map] at this
    obtain ⟨g0, hg0, hid⟩ := this
    rw [hng, ← hid]
    exact w5 g0 hg0
  · intro c hcm
    rw [hc] at hcm
    rw [hnc]
    exact w6 c hcm

theorem normalizeColumn_WF (s : State) (cid : Nat) (pm : Option PrefMap) (hwf : WF s) :
    WF (normalizeColumnRootEntryOrder s cid pm) := by
  have heq := normalizeColumn_eq s cid pm hwf.1 hwf.2.1
  apply @WF_of_ids_eq s _ _ _ _ _ _ _ hwf <;> rw [heq]
  · rw [List.map_map]
    apply List.map_congr_left
    intro it _
    exact (itemWriteFun_fields _ 0 it).1
  · rw [List.map_map]
    apply List.map_congr_left
    intro g _
    exact (groupWriteFun_fields _ 0 g).1

theorem normalizeGroup_WF (s : State) (gid : Nat) (hwf : WF s) :
    WF (normalizeGroupItemsOrder s gid) := by
  have heq := normalizeGroup_eq s gid hwf.1
  apply @WF_of_ids_eq s _ _ _ _ _ _ _ hwf <;> rw [heq]
  rw [List.map_map]
  apply List.map_congr_left
  intro it _
  exact (itemWriteFun_fields _ 0 it).1

/-! ### Write-backs only change order keys -/

/-- An item without its order key. -/
def stripI (it : Item) : Nat × Nat × Option Nat := (it.id, it.columnId, it.groupId)

/-- A group without its order key. -/
def stripG (g : Group) : Nat × Nat := (g.id, g.columnId)

theorem writeBackEntries_strip : ∀ (es : List Entry) (s : State) (k : Int),
    (writeBackEntries s es k).items.map stripI = s.items.map stripI
    ∧ (writeBackEntries s es k).groups.map stripG = s.groups.map stripG
    ∧ (writeBackEntries s es k).boards = s.boards
    ∧ (writeBackEntries s es k).columns = s.columns
    ∧ (writeBackEntries s es k).members = s.members
    ∧ (writeBackEntries s es k).nextColumnId = s.nextColumnId
    ∧ (writeBackEntries s es k).nextGroupId = s.nextGroupId
    ∧ (writeBackEntries s es k).nextItemId = s.nextItemId
  | [], s, k => ⟨rfl, rfl, rfl, rfl, rfl, rfl, rfl, rfl⟩
  | e :: es, s, k => by
    have ih := writeBackEntries_strip es (setEntryIndex s e k) (k + 1)
    have hset : (setEntryIndex s e k).items.map stripI = s.items.map stripI
        ∧ (setEntryIndex s e k).groups.map stripG = s.groups.map stripG
        ∧ (setEntryIndex s e k).boards = s.boards
        ∧ (setEntryIndex s e k).columns = s.columns
        ∧ (setEntryIndex s e k).members = s.members
        ∧ (setEntryIndex s e k).nextColumnId = s.nextColumnId
        ∧ (setEntryIndex s e k).nextGroupId = s.nextGroupId
        ∧ (setEntryIndex s e k).nextItemId = s.nextItemId := by
      unfold setEntryIndex
      cases e.type with
      | ITEM =>
        refine ⟨?_, rfl, rfl, rfl, rfl, rfl, rfl, rfl⟩
        rw [List.map_map]
        apply List.map_congr_left
        intro it _
        simp only [Function.comp]
        split <;> rfl
      | GROUP =>
        refine ⟨rfl, ?_, rfl, rfl, rfl, rfl, rfl, rfl⟩
        rw [List.map_map]
        apply List.map_congr_left
        intro g _
        simp only [Function.comp]
        split <;> rfl
    show (writeBackEntries (setEntryIndex s e k) es (k + 1)).items.map stripI = _ ∧ _
    exact ⟨ih.1.trans hset.1, ih.2.1.trans hset.2.1, ih.2.2.1.trans hset.2.2.1,
      ih.2.2.2.1.trans hset.2.2.2.1, ih.2.2.2.2.1.trans hset.2.2.2.2.1,
      ih.2.2.2.2.2.1.trans hset.2.2.2.2.2.1, ih.2.2.2.2.2.2.1.trans hset.2.2.2.2.2.2.1,
      ih.2.2.2.2.2.2.2.trans hset.2.2.2.2.2.2.2⟩

/-- Transfer of membership along an equal strip image: any record of `t`
matches a record of `s` on id, column and group. -/
theorem strip_mem_of_eq {t s : List Item}
    (h : t.map stripI = s.map stripI) {it : Item} (hit : it ∈ s) :
    ∃ it1 ∈ t, it1.id = it.id ∧ it1.columnId = it.columnId ∧ it1.groupId = it.groupId := by
  have : stripI it ∈ t.map stripI := by
    rw [h]
    exact List.mem_map_of_mem _ hit
  rw [List.mem_map] at this
  obtain ⟨it1, hit1, hs⟩ := this
  unfold stripI at hs
  exact ⟨it1, hit1, congrArg (fun p => p.1) hs, congrArg (fun p => p.2.1) hs,
    congrArg (fun p => p.2.2) hs⟩

/-- `find?` by id returns the unique matching element. -/
theorem find?_id_unique {l : List Group} {g : Group} {gid : Nat}
    (hmem : g ∈ l) (hgid : g.id = gid)
    (huniq : ∀ y ∈ l, y.id = gid → y = g) :
    l.find? (fun y => decide (y.id = gid)) = some g := by
  induction l with
  | nil => exact absurd hmem (List.not_mem_nil g)
  | cons x l ih =>
    rw [List.find?_cons]
    split
    · rename_i hx
      have hxid : x.id = gid := of_decide_eq_true hx
      rw [huniq x (List.mem_cons_self x l) hxid]
    · rename_i hx
      have hxne : ¬ x.id = gid := fun hcontra => by
        rw [hcontra] at hx
        simp at hx
      rcases List.mem_cons.mp hmem with rfl | hmem2
      · exact absurd hgid hxne
      · exact ih hmem2 (fun y hy hyid => huniq y (List.mem_cons_of_mem x hy) hyid)

/-! ### Folding root renumberings over a duplicate-free column list -/

theorem normalize_foldl_props (pf : Nat → Option PrefMap) :
    ∀ (cids : List Nat) (s0 : State), WF s0 → cids.Nodup →
      WF (cids.foldl (fun st c => normalizeColumnRootEntryOrder st c (pf c)) s0)
      ∧ (∀ cid ∈ cids,
          rootGapFree (cids.foldl (fun st c => normalizeColumnRootEntryOrder st c (pf c)) s0) cid)
      ∧ (∀ c', c' ∉ cids →
          ungroupedItems (cids.foldl (fun st c => normalizeColumnRootEntryOrder st c (pf c)) s0) c'
              = ungroupedItems s0 c'
            ∧ columnGroups (cids.foldl (fun st c => normalizeColumnRootEntryOrder st c (pf c)) s0) c'
              = columnGroups s0 c')
      ∧ (∀ gid, groupItems (cids.foldl (fun st c => normalizeColumnRootEntryOrder st c (pf c)) s0) gid
          = groupItems s0 gid)
      ∧ (cids.foldl (fun st c => normalizeColumnRootEntryOrder st c (pf c)) s0).columns
          = s0.columns
      ∧ ((cids.foldl (fun st c => normalizeColumnRootEntryOrder st c (pf c)) s0).groups).map
          Group.id = s0.groups.map Group.id
  | [], s0, hwf, _ => ⟨hwf, by simp, fun c' _ => ⟨rfl, rfl⟩, fun _ => rfl, rfl, rfl⟩
  | c :: cids, s0, hwf, hnd => by
    have hc := (List.nodup_cons.mp hnd).1
    have hnd2 := (List.nodup_cons.mp hnd).2
    have hwf1 : WF (normalizeColumnRootEntryOrder s0 c (pf c)) := normalizeColumn_WF s0 c _ hwf
    have ih := normalize_foldl_props pf cids (normalizeColumnRootEntryOrder s0 c (pf c)) hwf1 hnd2
    have hframe := normalizeColumn_frame s0 c (pf c) hwf.1 hwf.2.1
    rw [List.foldl_cons]
    refine ⟨ih.1, ?_, ?_, ?_, ?_, ?_⟩
    · intro cid hcid
      rcases List.mem_cons.mp hcid with rfl | hcid2
      · have hest := rootGapFree_normalizeColumn s0 cid (pf cid) hwf.1 hwf.2.1
        have hfr := ih.2.2.1 cid hc
        unfold rootGapFree rootIndexList at *
        rw [hfr.1, hfr.2]
        exact hest
      · exact ih.2.1 cid hcid2
    · intro c' hc'
      have hne : c' ≠ c := fun hcontra => hc' (hcontra ▸ List.mem_cons_self c cids)
      have hnotin : c' ∉ cids := fun hcontra => hc' (List.mem_cons_of_mem c hcontra)
      have hfr := ih.2.2.1 c' hnotin
      exact ⟨hfr.1.trans (hframe.1 c' hne), hfr.2.trans (hframe.2.2 c' hne)⟩
    · intro gid
      exact (ih.2.2.2.1 gid).trans (hframe.2.1 gid)
    · rw [ih.2.2.2.2.1]
      rw [normalizeColumn_eq s0 c (pf c) hwf.1 hwf.2.1]
    · rw [ih.2.2.2.2.2]
      rw [normalizeColumn_eq s0 c (pf c) hwf.1 hwf.2.1]
      show (s0.groups.map (groupWriteFun (rootWriteKeys s0 c (pf c)) 0)).map Group.id
        = s0.groups.map Group.id
      rw [List.map_map]
      apply List.map_congr_left
      intro g _
      exact (groupWriteFun_fields _ 0 g).1

/-! ### Claim C4: deleting a group splices its items into the root -/

theorem findGroup_spec {s : State} {gid : Nat} {grp : Group}
    (h : findGroup s gid = some grp) : grp ∈ s.groups ∧ grp.id = gid := by
  unfold findGroup at h
  have h1 := List.mem_of_find?_eq_some h
  have h2 := List.find?_some h
  exact ⟨h1, of_decide_eq_true h2⟩

theorem item_ids_eq_of_strip {t s : List Item} (h : t.map stripI = s.map stripI) :
    t.map Item.id = s.map Item.id := by
  have h2 := congrArg (List.map Prod.fst) h
  rw [List.map_map, List.map_map] at h2
  exact h2

theorem group_ids_eq_of_strip {t s : List Group} (h : t.map stripG = s.map stripG) :
    t.map Group.id = s.map Group.id := by
  have h2 := congrArg (List.map Prod.fst) h
  rw [List.map_map, List.map_map] at h2
  exact h2

/-- C4: a successful `deleteGroup` removes the group, turns each of its
items into an ungrouped item of the same column, renumbers the column's
root entries gap-free, and on the concrete scenario
`Item1(0), Group50(1){Item3, Item4}, Item2(2)` produces the splice
`Item1(0), Item3(1), Item4(2), Item2(3)`. -/
theorem deleteGroup_splice_theorem :
    (∀ (s : State) (gid userId : Nat) (s1 : State), WF s →
      deleteGroup s gid userId = .ok ((), s1) →
        (∀ g ∈ s1.groups, g.id ≠ gid)
        ∧ (∀ it ∈ s.items, it.groupId = some gid →
            ∃ it1 ∈ s1.items, it1.id = it.id ∧ it1.columnId = it.columnId
              ∧ it1.groupId = none)
        ∧ (∀ g ∈ s.groups, g.id = gid → rootGapFree s1 g.columnId))
    ∧ (deleteGroup sampleState 50 7).map (·.2.items)
        = .ok [⟨1, 1, none, 0⟩, ⟨2, 1, none, 3⟩, ⟨3, 1, none, 1⟩, ⟨4, 1, none, 2⟩,
               ⟨5, 2, none, 0⟩]
    ∧ (deleteGroup sampleState 50 7).map (·.2.groups) = .ok [] := by
  refine ⟨?_, by rfl, by rfl⟩
  intro s gid userId s1 hwf h
  unfold deleteGroup at h
  cases hfind : findGroup s gid with
  | none =>
    rw [hfind] at h
    exact Except.noConfusion h
  | some grp =>
    rw [hfind] at h
    split at h
    · exact Except.noConfusion h
    · rename_i x grp2 heq
      injection heq with heq2
      subst heq2
      split at h
      · exact Except.noConfusion h
      injection h with h1
      have hX := congrArg Prod.snd h1
      have hgrpmem : grp ∈ s.groups := (findGroup_spec hfind).1
      have hgrpid : grp.id = gid := (findGroup_spec hfind).2
      -- names for the intermediate states
      set sMid : State :=
        { s with
          items := s.items.map (fun it =>
            if it.groupId = some gid then { it with groupId := none } else it),
          groups := s.groups.filter (fun g => decide (g.id ≠ gid)) } with hsMid
      obtain ⟨spliced, hspliced⟩ : ∃ es : List Entry,
          s1 = normalizeColumnRootEntryOrder (writeBackEntries sMid es 0)
            grp.columnId none := ⟨_, hX.symm⟩
      have hstrip2 := writeBackEntries_strip
        (sortByCmp (rootEntryCmp none)
          (collectRootEntries (writeBackEntries sMid spliced 0) grp.columnId))
        (writeBackEntries sMid spliced 0) 0
      have hstrip1 := writeBackEntries_strip spliced sMid 0
      have hstripI : s1.items.map stripI = sMid.items.map stripI := by
        rw [hspliced]
        exact hstrip2.1.trans hstrip1.1
      have hstripG : s1.groups.map stripG = sMid.groups.map stripG := by
        rw [hspliced]
        exact hstrip2.2.1.trans hstrip1.2.1
      refine ⟨?_, ?_, ?_⟩
      · intro g1 hg1
        have : stripG g1 ∈ sMid.groups.map stripG := by
          rw [← hstripG]
          exact List.mem_map_of_mem _ hg1
        rw [List.mem_map] at this
        obtain ⟨g0, hg0, hsg⟩ := this
        have hid : g0.id = g1.id := congrArg Prod.fst hsg
        have hg0ne : g0.id ≠ gid := by
          have := (List.mem_filter.mp hg0).2
          exact of_decide_eq_true this
        rw [← hid]
        exact hg0ne
      · intro it hit hgrpid2
        have himg : ({ it with groupId := none } : Item) ∈ sMid.items := by
          show ({ it with groupId := none } : Item) ∈ s.items.map (fun it =>
            if it.groupId = some gid then { it with groupId := none } else it)
          rw [List.mem_map]
          refine ⟨it, hit, ?_⟩
          show (if it.groupId = some gid then ({ it with groupId := none } : Item) else it)
            = { it with groupId := none }
          rw [if_pos hgrpid2]
        obtain ⟨it1, hit1, hid, hcol, hgrp⟩ := strip_mem_of_eq hstripI himg
        exact ⟨it1, hit1, hid, hcol, hgrp⟩
      · intro g hgmem hgid
        have hgeq : g = grp :=
          List.inj_on_of_nodup_map hwf.2.1 hgmem hgrpmem (hgid.trans hgrpid.symm)
        rw [hgeq, hspliced]
        apply rootGapFree_normalizeColumn
        · rw [item_ids_eq_of_strip hstrip1.1]
          show (sMid.items.map Item.id).Nodup
          rw [hsMid]
          show ((s.items.map _).map Item.id).Nodup
          rw [List.map_map]
          have : (s.items.map (Item.id ∘ (fun it =>
              if it.groupId = some gid then { it with groupId := none } else it)))
              = s.items.map Item.id := by
            apply List.map_congr_left
            intro it _
            simp only [Function.comp]
            split <;> rfl
          rw [this]
          exact hwf.1
        · rw [group_ids_eq_of_strip hstrip1.2.1]
          show ((s.groups.filter _).map Group.id).Nodup
          exact filter_map_nodup _ _ _ hwf.2.1

/-- Witness for C4: deleting group 50 of the sample store leaves no group
with id 50 and a gap-free root order in column 1. -/
theorem deleteGroup_splice_witness :
    (∀ g ∈ ({ sampleState with
        groups := [],
        items := [⟨1, 1, none, 0⟩, ⟨2, 1, none, 3⟩, ⟨3, 1, none, 1⟩, ⟨4, 1, none, 2⟩,
                  ⟨5, 2, none, 0⟩] } : State).groups, g.id ≠ 50)
      ∧ rootGapFree ({ sampleState with
          groups := [],
          items := [⟨1, 1, none, 0⟩, ⟨2, 1, none, 3⟩, ⟨3, 1, none, 1⟩, ⟨4, 1, none, 2⟩,
                    ⟨5, 2, none, 0⟩] } : State) 1 := by
  have h := deleteGroup_splice_theorem.1 sampleState 50 7
    ({ sampleState with
        groups := [],
        items := [⟨1, 1, none, 0⟩, ⟨2, 1, none, 3⟩, ⟨3, 1, none, 1⟩, ⟨4, 1, none, 2⟩,
                  ⟨5, 2, none, 0⟩] } : State) (by decide) (by rfl)
  exact ⟨h.1, h.2.2 ⟨50, 1, 1⟩ (by decide) rfl⟩

/-! ### Claim C5: moving a group re-parents its items -/

theorem applyGroupChange_item_frame (fetched : List Group) (st : State)
    (ch2 : GroupChange) {it : Item}
    (hit : it ∈ st.items) (hne : it.groupId ≠ some ch2.groupId) :
    it ∈ (applyGroupChange fetched st ch2).items := by
  unfold applyGroupChange
  split
  · split
    · show it ∈ st.items.map (fun it =>
        if it.groupId = some ch2.groupId then { it with columnId := ch2.newColumnId } else it)
      rw [List.mem_map]
      refine ⟨it, hit, ?_⟩
      show (if it.groupId = some ch2.groupId then
        ({ it with columnId := ch2.newColumnId } : Item) else it) = it
      rw [if_neg hne]
    · exact hit
  · exact hit

theorem applyGroupChange_item_move (fetched : List Group) (st : State)
    (ch : GroupChange) (g : Group) {it : Item}
    (hfind : fetched.find? (fun y => decide (y.id = ch.groupId)) = some g)
    (hgcol : g.columnId ≠ ch.newColumnId)
    (hit : it ∈ st.items) (hitg : it.groupId = some ch.groupId) :
    ({ it with columnId := ch.newColumnId } : Item) ∈ (applyGroupChange fetched st ch).items := by
  unfold applyGroupChange
  split
  · rename_i prev hprev
    rw [hfind] at hprev
    injection hprev with hpg
    subst hpg
    rw [if_pos hgcol]
    show _ ∈ st.items.map (fun it =>
      if it.groupId = some ch.groupId then { it with columnId := ch.newColumnId } else it)
    rw [List.mem_map]
    refine ⟨it, hit, ?_⟩
    show (if it.groupId = some ch.groupId then
      ({ it with columnId := ch.newColumnId } : Item) else it)
      = { it with columnId := ch.newColumnId }
    rw [if_pos hitg]
  · rename_i hprev
    rw [hfind] at hprev
    exact Option.noConfusion hprev

theorem groupSyncFold_item_frame (fetched : List Group) :
    ∀ (changes : List GroupChange) (st : State) (it : Item), it ∈ st.items →
      (∀ ch2 ∈ changes, it.groupId ≠ some ch2.groupId) →
      it ∈ (changes.foldl (applyGroupChange fetched) st).items
  | [], _, _, hit, _ => hit
  | ch2 :: rest, st, it, hit, hfr => by
    rw [List.foldl_cons]
    exact groupSyncFold_item_frame fetched rest _ it
      (applyGroupChange_item_frame fetched st ch2 hit
        (hfr ch2 (List.mem_cons_self ch2 rest)))
      (fun ch3 hch3 => hfr ch3 (List.mem_cons_of_mem ch2 hch3))

theorem groupSyncFold_item_move (fetched : List Group) :
    ∀ (changes : List GroupChange) (st : State) (ch : GroupChange) (g : Group) (it : Item),
      ch ∈ changes → (changes.map (·.groupId)).Nodup →
      fetched.find? (fun y => decide (y.id = ch.groupId)) = some g →
      g.columnId ≠ ch.newColumnId →
      it ∈ st.items → it.groupId = some ch.groupId →
      ({ it with columnId := ch.newColumnId } : Item)
        ∈ (changes.foldl (applyGroupChange fetched) st).items
  | [], _, ch, _, _, hch, _, _, _, _, _ => absurd hch (List.not_mem_nil ch)
  | ch2 :: rest, st, ch, g, it, hch, hnd, hfind, hgcol, hit, hitg => by
    rw [List.foldl_cons]
    rw [List.map_cons] at hnd
    have hhead := (List.nodup_cons.mp hnd).1
    have hnd2 := (List.nodup_cons.mp hnd).2
    rcases List.mem_cons.mp hch with rfl | hchrest
    · have himg := applyGroupChange_item_move fetched st ch g hfind hgcol hit hitg
      exact groupSyncFold_item_frame fetched rest _ _ himg
        (fun ch3 hch3 hcontra => by
          have heq3 : ch.groupId = ch3.groupId := by
            have himg2 : ({ it with columnId := ch.newColumnId } : Item).groupId
                = it.groupId := rfl
            rw [himg2, hitg] at hcontra
            exact Option.some.inj hcontra
          exact hhead (heq3 ▸ List.mem_map_of_mem (fun c => c.groupId) hch3))
    · have hne : it.groupId ≠ some ch2.groupId := by
        rw [hitg]
        intro hcontra
        have heq2 : ch.groupId = ch2.groupId := Option.some.inj hcontra
        have hmem2 : ch.groupId ∈ rest.map (fun c => c.groupId) :=
          List.mem_map_of_mem _ hchrest
        rw [heq2] at hmem2
        exact hhead hmem2
      exact groupSyncFold_item_move fetched rest _ ch g it hchrest hnd2 hfind hgcol
        (applyGroupChange_item_frame fetched st ch2 hit hne) hitg

theorem applyGroupChange_ids (fetched : List Group) (st : State) (ch : GroupChange) :
    (applyGroupChange fetched st ch).items.map Item.id = st.items.map Item.id
    ∧ (applyGroupChange fetched st ch).groups.map Group.id = st.groups.map Group.id
    ∧ (applyGroupChange fetched st ch).columns = st.columns
    ∧ (applyGroupChange fetched st ch).nextItemId = st.nextItemId
    ∧ (applyGroupChange fetched st ch).nextGroupId = st.nextGroupId
    ∧ (applyGroupChange fetched st ch).nextColumnId = st.nextColumnId := by
  have hg : (st.groups.map (fun g =>
      if g.id = ch.groupId then
        { g with columnId := ch.newColumnId, orderIndex := ch.newOrderIndex }
      else g)).map Group.id = st.groups.map Group.id := by
    rw [List.map_map]
    apply List.map_congr_left
    intro g _
    simp only [Function.comp]
    split <;> rfl
  unfold applyGroupChange
  split
  · split
    · refine ⟨?_, hg, rfl, rfl, rfl, rfl⟩
      rw [List.map_map]
      apply List.map_congr_left
      intro it _
      simp only [Function.comp]
      split <;> rfl
    · exact ⟨rfl, hg, rfl, rfl, rfl, rfl⟩
  · exact ⟨rfl, hg, rfl, rfl, rfl, rfl⟩

theorem groupSyncFold_ids (fetched : List Group) :
    ∀ (changes : List GroupChange) (st : State),
      (changes.foldl (applyGroupChange fetched) st).items.map Item.id
          = st.items.map Item.id
      ∧ (changes.foldl (applyGroupChange fetched) st).groups.map Group.id
          = st.groups.map Group.id
      ∧ (changes.foldl (applyGroupChange fetched) st).columns = st.columns
      ∧ (changes.foldl (applyGroupChange fetched) st).nextItemId = st.nextItemId
      ∧ (changes.foldl (applyGroupChange fetched) st).nextGroupId = st.nextGroupId
      ∧ (changes.foldl (applyGroupChange fetched) st).nextColumnId = st.nextColumnId
  | [], _ => ⟨rfl, rfl, rfl, rfl, rfl, rfl⟩
  | ch :: rest, st => by
    rw [List.foldl_cons]
    have ih := groupSyncFold_ids fetched rest (applyGroupChange fetched st ch)
    have h1 := applyGroupChange_ids fetched st ch
    exact ⟨ih.1.trans h1.1, ih.2.1.trans h1.2.1, ih.2.2.1.trans h1.2.2.1,
      ih.2.2.2.1.trans h1.2.2.2.1, ih.2.2.2.2.1.trans h1.2.2.2.2.1,
      ih.2.2.2.2.2.trans h1.2.2.2.2.2⟩

/-- Counting argument of the sync fetches: when the filtered fetch is as
long as the (duplicate-free) requested id list, every store row whose id
was requested is in the fetch. -/
theorem mem_filter_of_count {l : List Group} {U : List Nat} {p : Group → Bool} {g : Group}
    (hGN : (l.map Group.id).Nodup)
    (hp : ∀ y, p y = true → y.id ∈ U)
    (hlen : (l.filter p).length = U.length)
    (hg : g ∈ l) (hgid : g.id ∈ U) :
    g ∈ l.filter p := by
  have hsub : l.filter p ⊆ l := (List.filter_sublist l).subset
  have hidsN : ((l.filter p).map Group.id).Nodup := filter_map_nodup _ _ _ hGN
  have hidsSub : (l.filter p).map Group.id ⊆ U := by
    intro x hx
    rw [List.mem_map] at hx
    obtain ⟨y, hy, hyid⟩ := hx
    rw [List.mem_filter] at hy
    exact hyid ▸ hp y hy.2
  have hlen2 : U.length ≤ ((l.filter p).map Group.id).length := by
    rw [List.length_map, hlen]
  have hperm : ((l.filter p).map Group.id).Perm U :=
    (hidsN.subperm hidsSub).perm_of_length_le hlen2
  have hgidmem : g.id ∈ (l.filter p).map Group.id := hperm.mem_iff.mpr hgid
  rw [List.mem_map] at hgidmem
  obtain ⟨g2, hg2, hg2id⟩ := hgidmem
  have hge : g2 = g := List.inj_on_of_nodup_map hGN (hsub hg2) hg hg2id
  exact hge ▸ hg2

/-! ### Claim C5: cross-column group moves re-parent the group's items -/

/-- C5: when a `syncGroupPositions` batch succeeds and one of its changes
moves a group `g` to a column different from the one it sat in, then in
the resulting store every item of that group has been re-parented: the
item reappears with `columnId` set to the target column while its
`groupId` and `rowIndex` are untouched (so the items keep their relative
order within the group), and the source column's remaining root entries
have been renumbered gap-free. -/
theorem syncGroupPositions_reparents_items_theorem
    (s : State) (boardId userId : Nat) (changes : List GroupChange)
    (r : SyncResult) (s1 : State) (hwf : WF s)
    (hnodup : (changes.map (·.groupId)).Nodup)
    (hok : syncGroupPositions s boardId userId changes = .ok (r, s1)) :
    ∀ ch ∈ changes, ∀ g ∈ s.groups, g.id = ch.groupId → g.columnId ≠ ch.newColumnId →
      (∀ it ∈ s.items, it.groupId = some g.id →
        ({ it with columnId := ch.newColumnId } : Item) ∈ s1.items)
      ∧ rootGapFree s1 g.columnId := by
  intro ch hch g hg hgid hgcol
  have hne : ¬ changes = [] := by
    intro h0
    rw [h0] at hch
    exact (List.not_mem_nil ch) hch
  unfold syncGroupPositions at hok
  rw [if_neg hne] at hok
  split at hok
  · exact Except.noConfusion hok
  simp only [] at hok
  split at hok
  · exact Except.noConfusion hok
  split at hok
  · exact Except.noConfusion hok
  split at hok
  · exact Except.noConfusion hok
  rename_i hlenne
  injection hok with hpair
  injection hpair with hr hs2
  subst hs2
  set U := dedupFirst (changes.map (·.groupId)) with hU
  set fetched := s.groups.filter (fun g =>
    decide (g.id ∈ U) && (boardColumns s boardId).any (fun c => decide (c.id = g.columnId))) with hF
  set ccols := (fetched.map (·.columnId) ++ changes.map (·.newColumnId)).foldl insertUnique [] with hC
  have hlen : fetched.length = U.length := not_ne_iff.mp hlenne
  have hgU : g.id ∈ U := by
    rw [hU, mem_dedupFirst, hgid]
    exact List.mem_map_of_mem _ hch
  have hgF : g ∈ fetched := by
    rw [hF] at hlen ⊢
    refine mem_filter_of_count hwf.2.1 ?_ hlen hg hgU
    intro y hy
    simp only [Bool.and_eq_true] at hy
    exact of_decide_eq_true hy.1
  have hsub : fetched ⊆ s.groups := by
    rw [hF]
    exact (List.filter_sublist s.groups).subset
  have hfind : fetched.find? (fun y => decide (y.id = ch.groupId)) = some g := by
    refine find?_id_unique hgF hgid ?_
    intro y hy hyid
    refine List.inj_on_of_nodup_map hwf.2.1 (hsub hy) hg ?_
    rw [hyid, hgid]
  have hids := groupSyncFold_ids fetched changes s
  have hwf1 : WF (changes.foldl (applyGroupChange fetched) s) :=
    WF_of_ids_eq hids.1 hids.2.1 hids.2.2.1 hids.2.2.2.1 hids.2.2.2.2.1 hids.2.2.2.2.2 hwf
  have hcolsN : ccols.Nodup := by
    rw [hC]
    exact foldl_insertUnique_nodup _ [] List.nodup_nil
  have hprops := normalize_foldl_props
    (fun c => colPrefGet (buildGroupPrefs fetched changes) c) ccols
    (changes.foldl (applyGroupChange fetched) s) hwf1 hcolsN
  refine ⟨?_, ?_⟩
  · intro it hit hitg
    have hmove : ({ it with columnId := ch.newColumnId } : Item)
        ∈ (changes.foldl (applyGroupChange fetched) s).items :=
      groupSyncFold_item_move fetched changes s ch g it hch hnodup hfind hgcol hit
        (by rw [hitg, hgid])
    have h5 : ({ it with columnId := ch.newColumnId } : Item)
        ∈ groupItems (changes.foldl (applyGroupChange fetched) s) g.id := by
      unfold groupItems
      rw [List.mem_filter]
      exact ⟨hmove, decide_eq_true hitg⟩
    have h7 : ({ it with columnId := ch.newColumnId } : Item)
        ∈ groupItems (ccols.foldl (fun st c =>
            normalizeColumnRootEntryOrder st c
              (colPrefGet (buildGroupPrefs fetched changes) c))
            (changes.foldl (applyGroupChange fetched) s)) g.id := by
      rw [hprops.2.2.2.1 g.id]
      exact h5
    unfold groupItems at h7
    exact (List.mem_filter.mp h7).1
  · have hccol : g.columnId ∈ ccols := by
      rw [hC, foldl_insertUnique_mem]
      right
      rw [List.mem_append]
      left
      exact List.mem_map_of_mem _ hgF
    exact hprops.2.1 g.columnId hccol

/-- C5 witness: moving group 50 of `sampleState` from column 1 to column 2
re-parents its item 3 (keeping `groupId = 50`, `rowIndex = 0`) and leaves
column 1 gap-free. -/
theorem syncGroupPositions_reparents_items_witness :
    (⟨3, 2, some 50, 0⟩ : Item) ∈ sampleGroupMoved.items
      ∧ rootGapFree sampleGroupMoved 1 := by
  have h := syncGroupPositions_reparents_items_theorem sampleState 1 7 [⟨50, 2, 0⟩]
    ⟨1, 1, [1, 2], [1, 2]⟩ sampleGroupMoved (by decide) (by decide) (by rfl)
    ⟨50, 2, 0⟩ (List.mem_cons_self _ _) ⟨50, 1, 1⟩ (List.mem_cons_self _ _)
    rfl (by decide)
  exact ⟨h.1 ⟨3, 1, some 50, 0⟩ (by decide) rfl, h.2⟩

/-! ### Claim C8 machinery: idempotence of the renumbering pass -/

theorem sorted_perm_eq {α : Type} {le : α → α → Prop} :
    ∀ (l1 l2 : List α), l1.Perm l2 → l1.Pairwise le → l2.Pairwise le →
      (∀ a ∈ l1, ∀ b ∈ l1, le a b → le b a → a = b) → l1 = l2 := by
  intro l1
  induction l1 with
  | nil =>
    intro l2 hp _ _ _
    exact hp.nil_eq
  | cons a t1 ih =>
    intro l2 hp hs1 hs2 hanti
    cases l2 with
    | nil => exact List.noConfusion hp.eq_nil
    | cons b t2 =>
      by_cases hab : a = b
      · subst hab
        have hp2 := hp.cons_inv
        have ht := ih t2 hp2 (List.pairwise_cons.mp hs1).2 (List.pairwise_cons.mp hs2).2
          (fun x hx y hy hxy hyx =>
            hanti x (List.mem_cons_of_mem a hx) y (List.mem_cons_of_mem a hy) hxy hyx)
        rw [ht]
      · have ha2 : a ∈ t2 := by
          have h := hp.mem_iff.mp (List.mem_cons_self a t1)
          rw [List.mem_cons] at h
          exact h.resolve_left hab
        have hb1 : b ∈ t1 := by
          have h := hp.symm.mem_iff.mp (List.mem_cons_self b t2)
          rw [List.mem_cons] at h
          exact h.resolve_left (fun h2 => hab h2.symm)
        have hle1 : le a b := (List.pairwise_cons.mp hs1).1 b hb1
        have hle2 : le b a := (List.pairwise_cons.mp hs2).1 a ha2
        exact absurd (hanti a (List.mem_cons_self a t1) b (List.mem_cons_of_mem a hb1)
          hle1 hle2) hab

theorem keyIdx?_some_get :
    ∀ (ks : List (EntryType × Nat)) (key : EntryType × Nat) (j : Nat),
      keyIdx? ks key = some j → ∃ h : j < ks.length, ks.get ⟨j, h⟩ = key
  | [], _, _, h => Option.noConfusion h
  | k :: ks, key, j, h => by
    simp only [keyIdx?] at h
    split at h
    · rename_i heq
      injection h with hj
      subst hj
      exact ⟨Nat.succ_pos _, heq⟩
    · cases h2 : keyIdx? ks key with
      | none =>
        rw [h2] at h
        exact Option.noConfusion h
      | some j2 =>
        rw [h2] at h
        injection h with hj
        subst hj
        obtain ⟨hlt, hget⟩ := keyIdx?_some_get ks key j2 h2
        exact ⟨Nat.succ_lt_succ hlt, hget⟩

theorem idxInt_inj {ks : List (EntryType × Nat)} {k1 k2 : EntryType × Nat}
    (h1 : k1 ∈ ks) (h2 : k2 ∈ ks) (he : idxInt ks k1 = idxInt ks k2) : k1 = k2 := by
  cases hj1 : keyIdx? ks k1 with
  | none => exact absurd h1 (keyIdx?_eq_none.mp hj1)
  | some j1 =>
    cases hj2 : keyIdx? ks k2 with
    | none => exact absurd h2 (keyIdx?_eq_none.mp hj2)
    | some j2 =>
      simp only [idxInt, hj1, hj2] at he
      have hjj : j1 = j2 := by exact_mod_cast he
      obtain ⟨hlt1, hget1⟩ := keyIdx?_some_get ks k1 j1 hj1
      obtain ⟨hlt2, hget2⟩ := keyIdx?_some_get ks k2 j2 hj2
      subst hjj
      rw [← hget1, ← hget2]

theorem rootEntryCmpNone_le_iff (a b : Entry) :
    leOfCmp (rootEntryCmp none) a b ↔
      (a.index < b.index ∨ (a.index = b.index ∧ (a.id : Int) ≤ (b.id : Int))) := by
  unfold leOfCmp rootEntryCmp
  split
  · rename_i h
    constructor
    · intro hle
      exact Or.inl (by omega)
    · intro hor
      rcases hor with h1 | h2
      · omega
      · exact absurd h2.1 h
  · rename_i h
    rw [not_not] at h
    show (a.id : Int) - (b.id : Int) ≤ 0 ↔ _
    constructor
    · intro hle
      exact Or.inr ⟨h, by omega⟩
    · intro hor
      rcases hor with h1 | h2
      · omega
      · omega

theorem rootNone_trans : ∀ a b c : Entry, leOfCmp (rootEntryCmp none) a b →
    leOfCmp (rootEntryCmp none) b c → leOfCmp (rootEntryCmp none) a c := by
  intro a b c hab hbc
  rw [rootEntryCmpNone_le_iff] at hab hbc ⊢
  omega

theorem rootNone_total : ∀ a b : Entry,
    leOfCmp (rootEntryCmp none) a b ∨ leOfCmp (rootEntryCmp none) b a := by
  intro a b
  rw [rootEntryCmpNone_le_iff, rootEntryCmpNone_le_iff]
  omega

theorem itemKeyCmp_le_iff (a b : Item) :
    leOfCmp itemKeyCmp a b ↔
      (a.rowIndex < b.rowIndex ∨ (a.rowIndex = b.rowIndex ∧ (a.id : Int) ≤ (b.id : Int))) := by
  unfold leOfCmp itemKeyCmp
  split
  · rename_i h
    constructor
    · intro hle
      exact Or.inl (by omega)
    · intro hor
      rcases hor with h1 | h2
      · omega
      · exact absurd h2.1 h
  · rename_i h
    rw [not_not] at h
    constructor
    · intro hle
      exact Or.inr ⟨h, by omega⟩
    · intro hor
      rcases hor with h1 | h2
      · omega
      · omega

theorem itemKey_trans : ∀ a b c : Item, leOfCmp itemKeyCmp a b →
    leOfCmp itemKeyCmp b c → leOfCmp itemKeyCmp a c := by
  intro a b c hab hbc
  rw [itemKeyCmp_le_iff] at hab hbc ⊢
  omega

theorem itemKey_total : ∀ a b : Item, leOfCmp itemKeyCmp a b ∨ leOfCmp itemKeyCmp b a := by
  intro a b
  rw [itemKeyCmp_le_iff, itemKeyCmp_le_iff]
  omega

theorem itemWriteFun_row_mem {ks : List (EntryType × Nat)} {it : Item}
    (h : (EntryType.ITEM, it.id) ∈ ks) :
    (itemWriteFun ks 0 it).rowIndex = idxInt ks (EntryType.ITEM, it.id) := by
  cases hj : keyIdx? ks (EntryType.ITEM, it.id) with
  | none => exact absurd h (keyIdx?_eq_none.mp hj)
  | some j =>
    simp only [itemWriteFun, idxInt, hj]
    omega

theorem groupWriteFun_ord_mem {ks : List (EntryType × Nat)} {g : Group}
    (h : (EntryType.GROUP, g.id) ∈ ks) :
    (groupWriteFun ks 0 g).orderIndex = idxInt ks (EntryType.GROUP, g.id) := by
  cases hj : keyIdx? ks (EntryType.GROUP, g.id) with
  | none => exact absurd h (keyIdx?_eq_none.mp hj)
  | some j =>
    simp only [groupWriteFun, idxInt, hj]
    omega

theorem itemWriteFun_idem (ks : List (EntryType × Nat)) (k : Int) (it : Item) :
    itemWriteFun ks k (itemWriteFun ks k it) = itemWriteFun ks k it := by
  cases hj : keyIdx? ks (EntryType.ITEM, it.id) with
  | none =>
    simp only [itemWriteFun, hj]
  | some j =>
    simp only [itemWriteFun, hj]

theorem groupWriteFun_idem (ks : List (EntryType × Nat)) (k : Int) (g : Group) :
    groupWriteFun ks k (groupWriteFun ks k g) = groupWriteFun ks k g := by
  cases hj : keyIdx? ks (EntryType.GROUP, g.id) with
  | none =>
    simp only [groupWriteFun, hj]
  | some j =>
    simp only [groupWriteFun, hj]

theorem collect_normalized_fix (s : State) (cid : Nat) (pm : Option PrefMap)
    (hIN : (s.items.map Item.id).Nodup) (hGN : (s.groups.map Group.id).Nodup) :
    ∀ e ∈ collectRootEntries (normalizeColumnRootEntryOrder s cid pm) cid,
      (⟨e.type, e.id, idxInt (rootWriteKeys s cid pm) (e.type, e.id)⟩ : Entry) = e := by
  intro e he
  have heq := normalizeColumn_eq s cid pm hIN hGN
  have hU : ungroupedItems (normalizeColumnRootEntryOrder s cid pm) cid
      = (ungroupedItems s cid).map (itemWriteFun (rootWriteKeys s cid pm) 0) := by
    rw [heq]
    unfold ungroupedItems
    exact filter_ungrouped_map _
      (fun it => ⟨(itemWriteFun_fields _ 0 it).2.1, (itemWriteFun_fields _ 0 it).2.2⟩)
      s.items cid
  have hG : columnGroups (normalizeColumnRootEntryOrder s cid pm) cid
      = (columnGroups s cid).map (groupWriteFun (rootWriteKeys s cid pm) 0) := by
    rw [heq]
    unfold columnGroups
    exact filter_groups_map _ (fun g => (groupWriteFun_fields _ 0 g).2) s.groups cid
  unfold collectRootEntries at he
  rw [List.mem_append] at he
  rcases he with hi | hg2
  · rw [List.mem_map] at hi
    obtain ⟨it, hit, he2⟩ := hi
    have hit2 : it ∈ ungroupedItems (normalizeColumnRootEntryOrder s cid pm) cid :=
      (List.perm_insertionSort _ _).mem_iff.mp hit
    rw [hU, List.mem_map] at hit2
    obtain ⟨it0, hit0, hfit⟩ := hit2
    have hid : it.id = it0.id := by
      rw [← hfit]
      exact (itemWriteFun_fields _ 0 it0).1
    have hkey : (EntryType.ITEM, it0.id) ∈ rootWriteKeys s cid pm := by
      rw [(rootWriteKeys_perm s cid pm).mem_iff]
      unfold rootKeys
      exact List.mem_append.mpr (Or.inl (List.mem_map_of_mem _ hit0))
    have hidx : idxInt (rootWriteKeys s cid pm) (EntryType.ITEM, it.id) = it.rowIndex := by
      rw [hid, ← hfit]
      exact (itemWriteFun_row_mem hkey).symm
    rw [← he2]
    show (⟨EntryType.ITEM, it.id, idxInt (rootWriteKeys s cid pm) (EntryType.ITEM, it.id)⟩ : Entry)
      = ⟨EntryType.ITEM, it.id, it.rowIndex⟩
    rw [hidx]
  · rw [List.mem_map] at hg2
    obtain ⟨g, hgm, he2⟩ := hg2
    have hgm2 : g ∈ columnGroups (normalizeColumnRootEntryOrder s cid pm) cid :=
      (List.perm_insertionSort _ _).mem_iff.mp hgm
    rw [hG, List.mem_map] at hgm2
    obtain ⟨g0, hg0, hfg⟩ := hgm2
    have hid : g.id = g0.id := by
      rw [← hfg]
      exact (groupWriteFun_fields _ 0 g0).1
    have hkey : (EntryType.GROUP, g0.id) ∈ rootWriteKeys s cid pm := by
      rw [(rootWriteKeys_perm s cid pm).mem_iff]
      unfold rootKeys
      exact List.mem_append.mpr (Or.inr (List.mem_map_of_mem _ hg0))
    have hidx : idxInt (rootWriteKeys s cid pm) (EntryType.GROUP, g.id) = g.orderIndex := by
      rw [hid, ← hfg]
      exact (groupWriteFun_ord_mem hkey).symm
    rw [← he2]
    show (⟨EntryType.GROUP, g.id, idxInt (rootWriteKeys s cid pm) (EntryType.GROUP, g.id)⟩ : Entry)
      = ⟨EntryType.GROUP, g.id, g.orderIndex⟩
    rw [hidx]

theorem normalizeColumn_idem (s : State) (cid : Nat) (pm : Option PrefMap) (hwf : WF s) :
    normalizeColumnRootEntryOrder (normalizeColumnRootEntryOrder s cid pm) cid none
      = normalizeColumnRootEntryOrder s cid pm := by
  have hIN := hwf.1
  have hGN := hwf.2.1
  have hwf2 := normalizeColumn_WF s cid pm hwf
  have heq := normalizeColumn_eq s cid pm hIN hGN
  have hknd := rootWriteKeys_nodup s cid pm hIN hGN
  have hU : ungroupedItems (normalizeColumnRootEntryOrder s cid pm) cid
      = (ungroupedItems s cid).map (itemWriteFun (rootWriteKeys s cid pm) 0) := by
    rw [heq]
    unfold ungroupedItems
    exact filter_ungrouped_map _
      (fun it => ⟨(itemWriteFun_fields _ 0 it).2.1, (itemWriteFun_fields _ 0 it).2.2⟩)
      s.items cid
  have hG : columnGroups (normalizeColumnRootEntryOrder s cid pm) cid
      = (columnGroups s cid).map (groupWriteFun (rootWriteKeys s cid pm) 0) := by
    rw [heq]
    unfold columnGroups
    exact filter_groups_map _ (fun g => (groupWriteFun_fields _ 0 g).2) s.groups cid
  have hRK : rootKeys (normalizeColumnRootEntryOrder s cid pm) cid = rootKeys s cid := by
    unfold rootKeys
    rw [hU, hG, List.map_map, List.map_map]
    congr 1
    · apply List.map_congr_left
      intro it _
      simp only [Function.comp]
      rw [(itemWriteFun_fields _ 0 it).1]
    · apply List.map_congr_left
      intro g _
      simp only [Function.comp]
      rw [(groupWriteFun_fields _ 0 g).1]
  have hkperm : List.Perm
      ((sortByCmp (rootEntryCmp none)
        (collectRootEntries (normalizeColumnRootEntryOrder s cid pm) cid)).map entryKey)
      (rootWriteKeys s cid pm) := by
    have h1 := rootWriteKeys_perm (normalizeColumnRootEntryOrder s cid pm) cid none
    rw [hRK] at h1
    exact h1.trans (rootWriteKeys_perm s cid pm).symm
  have hfix := collect_normalized_fix s cid pm hIN hGN
  have hE2eq : ((sortByCmp (rootEntryCmp none)
          (collectRootEntries (normalizeColumnRootEntryOrder s cid pm) cid)).map entryKey).map
        (fun key => (⟨key.1, key.2, idxInt (rootWriteKeys s cid pm) key⟩ : Entry))
      = sortByCmp (rootEntryCmp none)
        (collectRootEntries (normalizeColumnRootEntryOrder s cid pm) cid) := by
    rw [List.map_map]
    have h2 : (sortByCmp (rootEntryCmp none)
          (collectRootEntries (normalizeColumnRootEntryOrder s cid pm) cid)).map
          ((fun key => (⟨key.1, key.2, idxInt (rootWriteKeys s cid pm) key⟩ : Entry)) ∘ entryKey)
        = (sortByCmp (rootEntryCmp none)
          (collectRootEntries (normalizeColumnRootEntryOrder s cid pm) cid)).map (fun e => e) :=
      List.map_congr_left
        (fun e he => hfix e ((List.perm_insertionSort _ _).mem_iff.mp he))
    rw [h2, List.map_id']
  have hE2perm : List.Perm
      (sortByCmp (rootEntryCmp none)
        (collectRootEntries (normalizeColumnRootEntryOrder s cid pm) cid))
      ((rootWriteKeys s cid pm).map
        (fun key => (⟨key.1, key.2, idxInt (rootWriteKeys s cid pm) key⟩ : Entry))) :=
    hE2eq ▸ hkperm.map _
  haveI : IsTotal Entry (leOfCmp (rootEntryCmp none)) := ⟨rootNone_total⟩
  haveI : IsTrans Entry (leOfCmp (rootEntryCmp none)) := ⟨rootNone_trans⟩
  have hs1 : List.Pairwise (leOfCmp (rootEntryCmp none))
      (sortByCmp (rootEntryCmp none)
        (collectRootEntries (normalizeColumnRootEntryOrder s cid pm) cid)) :=
    List.sorted_insertionSort _ _
  have hcanonPW : List.Pairwise
      (fun k1 k2 => idxInt (rootWriteKeys s cid pm) k1 < idxInt (rootWriteKeys s cid pm) k2)
      (rootWriteKeys s cid pm) := by
    have h0 : List.Pairwise (fun a b : Int => a < b)
        ((rootWriteKeys s cid pm).map (idxInt (rootWriteKeys s cid pm))) := by
      rw [map_idxInt_self _ hknd]
      exact (List.pairwise_lt_range _).map Int.ofNat (fun a b hab => Int.ofNat_lt.mpr hab)
    exact (List.pairwise_map).mp h0
  have hs2 : List.Pairwise (leOfCmp (rootEntryCmp none))
      ((rootWriteKeys s cid pm).map
        (fun key => (⟨key.1, key.2, idxInt (rootWriteKeys s cid pm) key⟩ : Entry))) := by
    rw [List.pairwise_map]
    refine hcanonPW.imp ?_
    intro k1 k2 hlt
    rw [rootEntryCmpNone_le_iff]
    exact Or.inl hlt
  have hanti : ∀ a ∈ sortByCmp (rootEntryCmp none)
        (collectRootEntries (normalizeColumnRootEntryOrder s cid pm) cid),
      ∀ b ∈ sortByCmp (rootEntryCmp none)
        (collectRootEntries (normalizeColumnRootEntryOrder s cid pm) cid),
      leOfCmp (rootEntryCmp none) a b → leOfCmp (rootEntryCmp none) b a → a = b := by
    intro a ha b hb hab hba
    have ha2 := hE2perm.mem_iff.mp ha
    have hb2 := hE2perm.mem_iff.mp hb
    rw [List.mem_map] at ha2 hb2
    obtain ⟨k1, hk1, hak⟩ := ha2
    obtain ⟨k2, hk2, hbk⟩ := hb2
    rw [rootEntryCmpNone_le_iff] at hab hba
    subst hak
    subst hbk
    have hab2 : idxInt (rootWriteKeys s cid pm) k1 < idxInt (rootWriteKeys s cid pm) k2
        ∨ (idxInt (rootWriteKeys s cid pm) k1 = idxInt (rootWriteKeys s cid pm) k2
            ∧ ((k1.2 : Int) ≤ (k2.2 : Int))) := hab
    have hba2 : idxInt (rootWriteKeys s cid pm) k2 < idxInt (rootWriteKeys s cid pm) k1
        ∨ (idxInt (rootWriteKeys s cid pm) k2 = idxInt (rootWriteKeys s cid pm) k1
            ∧ ((k2.2 : Int) ≤ (k1.2 : Int))) := hba
    have hk12 : k1 = k2 := idxInt_inj hk1 hk2 (by omega)
    rw [hk12]
  have hE2c := sorted_perm_eq _ _ hE2perm hs1 hs2 hanti
  have hKK : rootWriteKeys (normalizeColumnRootEntryOrder s cid pm) cid none
      = rootWriteKeys s cid pm := by
    show (sortByCmp (rootEntryCmp none)
        (collectRootEntries (normalizeColumnRootEntryOrder s cid pm) cid)).map entryKey
      = rootWriteKeys s cid pm
    rw [hE2c, List.map_map]
    exact List.map_id'' (fun k => rfl) _
  rw [normalizeColumn_eq (normalizeColumnRootEntryOrder s cid pm) cid none hwf2.1 hwf2.2.1, hKK]
  have hitems : (normalizeColumnRootEntryOrder s cid pm).items.map
        (itemWriteFun (rootWriteKeys s cid pm) 0)
      = (normalizeColumnRootEntryOrder s cid pm).items := by
    rw [heq]
    show (s.items.map (itemWriteFun (rootWriteKeys s cid pm) 0)).map
        (itemWriteFun (rootWriteKeys s cid pm) 0)
      = s.items.map (itemWriteFun (rootWriteKeys s cid pm) 0)
    rw [List.map_map]
    apply List.map_congr_left
    intro it _
    simp only [Function.comp]
    exact itemWriteFun_idem _ _ _
  have hgroups : (normalizeColumnRootEntryOrder s cid pm).groups.map
        (groupWriteFun (rootWriteKeys s cid pm) 0)
      = (normalizeColumnRootEntryOrder s cid pm).groups := by
    rw [heq]
    show (s.groups.map (groupWriteFun (rootWriteKeys s cid pm) 0)).map
        (groupWriteFun (rootWriteKeys s cid pm) 0)
      = s.groups.map (groupWriteFun (rootWriteKeys s cid pm) 0)
    rw [List.map_map]
    apply List.map_congr_left
    intro g _
    simp only [Function.comp]
    exact groupWriteFun_idem _ _ _
  rw [hitems, hgroups]

theorem normalizeGroup_idem (s : State) (gid : Nat) (hwf : WF s) :
    normalizeGroupItemsOrder (normalizeGroupItemsOrder s gid) gid
      = normalizeGroupItemsOrder s gid := by
  have hIN := hwf.1
  have hwf2 := normalizeGroup_WF s gid hwf
  have heq := normalizeGroup_eq s gid hIN
  have hknd := groupWriteKeys_nodup s gid hIN
  have hUg : groupItems (normalizeGroupItemsOrder s gid) gid
      = (groupItems s gid).map (itemWriteFun (groupWriteKeys s gid) 0) := by
    rw [heq]
    unfold groupItems
    exact filter_grouped_map _ (fun it => (itemWriteFun_fields _ 0 it).2.2) s.items gid
  have hkeymem : ∀ it ∈ groupItems s gid,
      (EntryType.ITEM, it.id) ∈ groupWriteKeys s gid := by
    intro it hit
    rw [(groupWriteKeys_perm s gid).mem_iff]
    exact List.mem_map_of_mem _ hit
  have hfrow : ∀ it ∈ groupItems s gid,
      (itemWriteFun (groupWriteKeys s gid) 0 it).rowIndex
        = idxInt (groupWriteKeys s gid) (EntryType.ITEM, it.id) :=
    fun it hit => itemWriteFun_row_mem (hkeymem it hit)
  have hGKdef : groupWriteKeys s gid
      = (sortByCmp itemKeyCmp (groupItems s gid)).map
          (fun it => ((EntryType.ITEM, it.id) : EntryType × Nat)) := by
    unfold groupWriteKeys
    rw [List.map_map]
    rfl
  have hperm : List.Perm
      (sortByCmp itemKeyCmp (groupItems (normalizeGroupItemsOrder s gid) gid))
      ((sortByCmp itemKeyCmp (groupItems s gid)).map
        (itemWriteFun (groupWriteKeys s gid) 0)) := by
    have hp1 := List.perm_insertionSort (leOfCmp itemKeyCmp)
      (groupItems (normalizeGroupItemsOrder s gid) gid)
    have hpB : List.Perm (groupItems (normalizeGroupItemsOrder s gid) gid)
        ((groupItems s gid).map (itemWriteFun (groupWriteKeys s gid) 0)) := by
      rw [hUg]
    exact (hp1.trans hpB).trans
      ((List.perm_insertionSort (leOfCmp itemKeyCmp) (groupItems s gid)).map
        (itemWriteFun (groupWriteKeys s gid) 0)).symm
  haveI : IsTotal Item (leOfCmp itemKeyCmp) := ⟨itemKey_total⟩
  haveI : IsTrans Item (leOfCmp itemKeyCmp) := ⟨itemKey_trans⟩
  have hs1 : List.Pairwise (leOfCmp itemKeyCmp)
      (sortByCmp itemKeyCmp (groupItems (normalizeGroupItemsOrder s gid) gid)) :=
    List.sorted_insertionSort _ _
  have h0 : List.Pairwise (fun a b : Int => a < b)
      ((groupWriteKeys s gid).map (idxInt (groupWriteKeys s gid))) := by
    rw [map_idxInt_self _ hknd]
    exact (List.pairwise_lt_range _).map Int.ofNat (fun a b hab => Int.ofNat_lt.mpr hab)
  have h1 : List.Pairwise
      (fun a b : Item => idxInt (groupWriteKeys s gid) (EntryType.ITEM, a.id)
        < idxInt (groupWriteKeys s gid) (EntryType.ITEM, b.id))
      (sortByCmp itemKeyCmp (groupItems s gid)) := by
    nth_rewrite 2 [hGKdef] at h0
    rw [List.map_map] at h0
    exact (List.pairwise_map).mp h0
  have hsortmem : ∀ it ∈ sortByCmp itemKeyCmp (groupItems s gid), it ∈ groupItems s gid :=
    fun it hit => (List.perm_insertionSort _ _).mem_iff.mp hit
  have hs2 : List.Pairwise (leOfCmp itemKeyCmp)
      ((sortByCmp itemKeyCmp (groupItems s gid)).map
        (itemWriteFun (groupWriteKeys s gid) 0)) := by
    rw [List.pairwise_map]
    refine List.Pairwise.imp_of_mem ?_ h1
    intro a b ha hb hlt
    rw [itemKeyCmp_le_iff]
    left
    rw [hfrow a (hsortmem a ha), hfrow b (hsortmem b hb)]
    exact hlt
  have hanti : ∀ a ∈ sortByCmp itemKeyCmp (groupItems (normalizeGroupItemsOrder s gid) gid),
      ∀ b ∈ sortByCmp itemKeyCmp (groupItems (normalizeGroupItemsOrder s gid) gid),
      leOfCmp itemKeyCmp a b → leOfCmp itemKeyCmp b a → a = b := by
    intro a ha b hb hab hba
    have hat : a ∈ (normalizeGroupItemsOrder s gid).items := by
      have h2 := (List.perm_insertionSort _ _).mem_iff.mp ha
      unfold groupItems at h2
      exact (List.mem_filter.mp h2).1
    have hbt : b ∈ (normalizeGroupItemsOrder s gid).items := by
      have h2 := (List.perm_insertionSort _ _).mem_iff.mp hb
      unfold groupItems at h2
      exact (List.mem_filter.mp h2).1
    rw [itemKeyCmp_le_iff] at hab hba
    have hid : a.id = b.id := by omega
    exact List.inj_on_of_nodup_map hwf2.1 hat hbt hid
  have hL2c := sorted_perm_eq _ _ hperm hs1 hs2 hanti
  have hKK : groupWriteKeys (normalizeGroupItemsOrder s gid) gid = groupWriteKeys s gid := by
    show ((sortByCmp itemKeyCmp (groupItems (normalizeGroupItemsOrder s gid) gid)).map
        (fun it => (⟨EntryType.ITEM, it.id, it.rowIndex⟩ : Entry))).map entryKey
      = groupWriteKeys s gid
    rw [hL2c, List.map_map, List.map_map]
    conv_rhs => rw [hGKdef]
    apply List.map_congr_left
    intro it _
    show (EntryType.ITEM, (itemWriteFun (groupWriteKeys s gid) 0 it).id)
      = (EntryType.ITEM, it.id)
    rw [(itemWriteFun_fields _ 0 it).1]
  rw [normalizeGroup_eq (normalizeGroupItemsOrder s gid) gid hwf2.1, hKK]
  have hitems : (normalizeGroupItemsOrder s gid).items.map
        (itemWriteFun (groupWriteKeys s gid) 0)
      = (normalizeGroupItemsOrder s gid).items := by
    rw [heq]
    show (s.items.map (itemWriteFun (groupWriteKeys s gid) 0)).map
        (itemWriteFun (groupWriteKeys s gid) 0)
      = s.items.map (itemWriteFun (groupWriteKeys s gid) 0)
    rw [List.map_map]
    apply List.map_congr_left
    intro it _
    simp only [Function.comp]
    exact itemWriteFun_idem _ _ _
  rw [hitems]

/-- C8: renumbering is idempotent. After one renumbering pass over a
container -- the root-level entries of a column
(`normalizeColumnRootEntryOrder`, with any preference map) or the items of
a group (`normalizeGroupItemsOrder`) -- running the same pass again with
no preference map changes nothing: every entry keeps its index and the
final order (indeed the whole store) is identical. -/
theorem renumbering_idempotent_theorem (s : State) (cid gid : Nat) (pm : Option PrefMap)
    (hwf : WF s) :
    normalizeColumnRootEntryOrder (normalizeColumnRootEntryOrder s cid pm) cid none
      = normalizeColumnRootEntryOrder s cid pm
    ∧ normalizeGroupItemsOrder (normalizeGroupItemsOrder s gid) gid
      = normalizeGroupItemsOrder s gid :=
  ⟨normalizeColumn_idem s cid pm hwf, normalizeGroup_idem s gid hwf⟩

/-- C8 witness: renumbering column 1 and group 50 of `sampleState` twice
equals renumbering them once. -/
theorem renumbering_idempotent_witness :
    normalizeColumnRootEntryOrder (normalizeColumnRootEntryOrder sampleState 1 none) 1 none
      = normalizeColumnRootEntryOrder sampleState 1 none
    ∧ normalizeGroupItemsOrder (normalizeGroupItemsOrder sampleState 50) 50
      = normalizeGroupItemsOrder sampleState 50 :=
  renumbering_idempotent_theorem sampleState 1 50 none (by decide)

/-! ### Claim C1 machinery: transport of gap-freeness -/

def Consistent (s : State) : Prop :=
  (∀ it ∈ s.items, ∀ gid : Nat, it.groupId = some gid →
      ∃ g ∈ s.groups, g.id = gid ∧ g.columnId = it.columnId)
  ∧ (∀ it ∈ s.items, it.columnId ∈ s.columns.map Column.id)
  ∧ (∀ g ∈ s.groups, g.columnId ∈ s.columns.map Column.id)

instance (s : State) : Decidable (Consistent s) := by
  unfold Consistent
  infer_instance

theorem perm_range_of_gapFree {l : List Int} (h : gapFree l) :
    l.Perm ((List.range l.length).map Int.ofNat) := by
  have hp := (List.perm_insertionSort (fun a b : Int => a ≤ b) l).symm
  unfold gapFree sortInts at h
  rw [h] at hp
  exact hp

theorem gapFree_of_perm {l l2 : List Int} (hp : l.Perm l2) (h : gapFree l) : gapFree l2 :=
  gapFree_of_perm_range (hp.symm.trans (perm_range_of_gapFree h))

theorem gapFree_shift {l : List Int} (h : gapFree l) :
    gapFree ((0 : Int) :: l.map (· + 1)) := by
  have hA : List.Perm (l.map (· + 1)) (((List.range l.length).map Int.ofNat).map (· + 1)) :=
    (perm_range_of_gapFree h).map _
  have h2 : ((List.range l.length).map Int.ofNat).map (· + 1)
      = ((List.range l.length).map Nat.succ).map Int.ofNat := by
    rw [List.map_map, List.map_map]
    apply List.map_congr_left
    intro k _
    simp only [Function.comp]
    exact (Int.ofNat_succ k).symm
  rw [h2] at hA
  have hB := hA.cons (0 : Int)
  have h3 : (0 : Int) :: ((List.range l.length).map Nat.succ).map Int.ofNat
      = (List.range (l.length + 1)).map Int.ofNat := by
    rw [List.range_succ_eq_map, List.map_cons]
    rfl
  rw [h3] at hB
  exact gapFree_of_perm_range hB

theorem gapFree_snoc {l : List Int} (h : gapFree l) :
    gapFree (l ++ [(l.length : Int)]) := by
  have hB : List.Perm (l ++ [(l.length : Int)])
      (((List.range l.length).map Int.ofNat) ++ [(l.length : Int)]) :=
    (perm_range_of_gapFree h).append_right _
  have h4 : ((List.range l.length).map Int.ofNat) ++ [(l.length : Int)]
      = (List.range (l.length + 1)).map Int.ofNat := by
    rw [List.range_succ, List.map_append, List.map_singleton]
    rfl
  rw [h4] at hB
  exact gapFree_of_perm_range hB

theorem foldl_max_spec : ∀ (xs : List Int) (i : Int),
    (xs.foldl max i = i ∨ xs.foldl max i ∈ xs)
    ∧ i ≤ xs.foldl max i
    ∧ ∀ y ∈ xs, y ≤ xs.foldl max i
  | [], i => ⟨Or.inl rfl, le_refl _, fun y hy => absurd hy (List.not_mem_nil y)⟩
  | x :: xs, i => by
    rw [List.foldl_cons]
    obtain ⟨h1, h2, h3⟩ := foldl_max_spec xs (max i x)
    refine ⟨?_, ?_, ?_⟩
    · rcases h1 with h1 | h1
      · rcases max_choice i x with hm | hm
        · exact Or.inl (h1.trans hm)
        · refine Or.inr ?_
          rw [h1, hm]
          exact List.mem_cons_self x xs
      · exact Or.inr (List.mem_cons_of_mem x h1)
    · exact (le_max_left i x).trans h2
    · intro y hy
      rw [List.mem_cons] at hy
      rcases hy with hy | hy
      · subst hy
        exact (le_max_right i y).trans h2
      · exact h3 y hy

theorem maxIntD_spec (l : List Int) :
    ((maxInt? l).getD (-1) = -1 ∨ (maxInt? l).getD (-1) ∈ l)
    ∧ ∀ y ∈ l, y ≤ (maxInt? l).getD (-1) := by
  cases l with
  | nil => exact ⟨Or.inl rfl, fun y hy => absurd hy (List.not_mem_nil y)⟩
  | cons x xs =>
    obtain ⟨h1, h2, h3⟩ := foldl_max_spec xs x
    refine ⟨?_, ?_⟩
    · rcases h1 with h1 | h1
      · refine Or.inr ?_
        show xs.foldl max x ∈ x :: xs
        rw [h1]
        exact List.mem_cons_self x xs
      · exact Or.inr (List.mem_cons_of_mem x h1)
    · intro y hy
      rw [List.mem_cons] at hy
      rcases hy with hy | hy
      · subst hy
        exact h2
      · exact h3 y hy

theorem getNext_of_rootGapFree (s : State) (cid : Nat) (h : rootGapFree s cid) :
    getNextRootEntryIndex s cid = ((rootIndexList s cid).length : Int) := by
  have hp := perm_range_of_gapFree h
  obtain ⟨hA1, hA2⟩ := maxIntD_spec ((ungroupedItems s cid).map (·.rowIndex))
  obtain ⟨hB1, hB2⟩ := maxIntD_spec ((columnGroups s cid).map (·.orderIndex))
  show max ((maxInt? ((ungroupedItems s cid).map (·.rowIndex))).getD (-1))
      ((maxInt? ((columnGroups s cid).map (·.orderIndex))).getD (-1)) + 1
    = ((rootIndexList s cid).length : Int)
  cases hc : (rootIndexList s cid).length with
  | zero =>
    have hz : rootIndexList s cid = [] := List.length_eq_zero.mp hc
    have hz2 := List.append_eq_nil.mp
      (show (ungroupedItems s cid).map (·.rowIndex)
          ++ (columnGroups s cid).map (·.orderIndex) = [] from hz)
    have hMA := hA1.resolve_right (by rw [hz2.1]; exact List.not_mem_nil _)
    have hMB := hB1.resolve_right (by rw [hz2.2]; exact List.not_mem_nil _)
    rw [hMA, hMB]
    decide
  | succ n =>
    rw [hc] at hp
    have hnmem : ((n : Nat) : Int) ∈ rootIndexList s cid :=
      hp.mem_iff.mpr (List.mem_map_of_mem _ (List.mem_range.mpr (Nat.lt_succ_self n)))
    have hbound : ∀ y ∈ rootIndexList s cid, y ≤ (n : Int) := by
      intro y hy
      have h2 := hp.mem_iff.mp hy
      rw [List.mem_map] at h2
      obtain ⟨k, hk, hky⟩ := h2
      rw [List.mem_range] at hk
      subst hky
      exact Int.ofNat_le.mpr (Nat.lt_succ_iff.mp hk)
    have hAB : ∀ y : Int, (y ∈ (ungroupedItems s cid).map (·.rowIndex)
        ∨ y ∈ (columnGroups s cid).map (·.orderIndex)) → y ∈ rootIndexList s cid := by
      intro y hy
      unfold rootIndexList
      rw [List.mem_append]
      exact hy
    have hMA_le : (maxInt? ((ungroupedItems s cid).map (·.rowIndex))).getD (-1) ≤ (n : Int) := by
      rcases hA1 with h1 | h1
      · omega
      · exact hbound _ (hAB _ (Or.inl h1))
    have hMB_le : (maxInt? ((columnGroups s cid).map (·.orderIndex))).getD (-1) ≤ (n : Int) := by
      rcases hB1 with h1 | h1
      · omega
      · exact hbound _ (hAB _ (Or.inr h1))
    have hn2 : ((n : Nat) : Int) ∈ (ungroupedItems s cid).map (·.rowIndex)
        ∨ ((n : Nat) : Int) ∈ (columnGroups s cid).map (·.orderIndex) := by
      unfold rootIndexList at hnmem
      rw [List.mem_append] at hnmem
      exact hnmem
    have hge : (n : Int) ≤ max ((maxInt? ((ungroupedItems s cid).map (·.rowIndex))).getD (-1))
        ((maxInt? ((columnGroups s cid).map (·.orderIndex))).getD (-1)) := by
      rcases hn2 with h1 | h1
      · exact le_trans (hA2 _ h1) (le_max_left _ _)
      · exact le_trans (hB2 _ h1) (le_max_right _ _)
    rcases max_choice ((maxInt? ((ungroupedItems s cid).map (·.rowIndex))).getD (-1))
        ((maxInt? ((columnGroups s cid).map (·.orderIndex))).getD (-1)) with hm | hm
      <;> rw [hm] at hge ⊢ <;> omega

theorem rootIndexList_congr {t s : State} (hi : t.items = s.items) (hg : t.groups = s.groups)
    (cid : Nat) : rootIndexList t cid = rootIndexList s cid := by
  unfold rootIndexList ungroupedItems columnGroups
  rw [hi, hg]

theorem groupItems_congr {t s : State} (hi : t.items = s.items) (gid : Nat) :
    groupItems t gid = groupItems s gid := by
  unfold groupItems
  rw [hi]

theorem rootGapFree_tables_congr {t s : State} (hi : t.items = s.items)
    (hg : t.groups = s.groups) (cid : Nat) : rootGapFree t cid ↔ rootGapFree s cid := by
  unfold rootGapFree
  rw [rootIndexList_congr hi hg]

theorem createColumn_inv (s : State) (b u cid : Nat) (s1 : State)
    (hwf : WF s) (hcons : Consistent s) (hinv : LayoutInv s)
    (hok : createColumn s b u = .ok (cid, s1)) : LayoutInv s1 := by
  unfold createColumn at hok
  split at hok
  · exact Except.noConfusion hok
  injection hok with h1
  injection h1 with hcid hs1
  have hitems : s1.items = s.items := by rw [← hs1]
  have hgroups : s1.groups = s.groups := by rw [← hs1]
  obtain ⟨idx, hcols⟩ : ∃ x : Int, s1.columns = s.columns ++ [⟨s.nextColumnId, b, x⟩] :=
    ⟨_, by rw [← hs1]⟩
  constructor
  · intro c hc
    rw [hcols, List.mem_append] at hc
    unfold rootGapFree
    rw [rootIndexList_congr hitems hgroups]
    rcases hc with hold | hnew
    · exact hinv.1 c hold
    · rw [List.mem_singleton] at hnew
      subst hnew
      show gapFree (rootIndexList s s.nextColumnId)
      have hUe : ungroupedItems s s.nextColumnId = [] := by
        rw [List.eq_nil_iff_forall_not_mem]
        intro it hit
        have h2 := (List.mem_filter.mp hit).1
        have h3 := of_decide_eq_true (List.mem_filter.mp hit).2
        have h4 := hcons.2.1 it h2
        rw [h3.1] at h4
        rw [List.mem_map] at h4
        obtain ⟨c0, hc0, hc0id⟩ := h4
        exact absurd hc0id (Nat.ne_of_lt (hwf.2.2.2.2.2 c0 hc0))
      have hGe : columnGroups s s.nextColumnId = [] := by
        rw [List.eq_nil_iff_forall_not_mem]
        intro g hgm
        have h2 := (List.mem_filter.mp hgm).1
        have h3 := of_decide_eq_true (List.mem_filter.mp hgm).2
        have h4 := hcons.2.2 g h2
        rw [h3] at h4
        rw [List.mem_map] at h4
        obtain ⟨c0, hc0, hc0id⟩ := h4
        exact absurd hc0id (Nat.ne_of_lt (hwf.2.2.2.2.2 c0 hc0))
      unfold rootIndexList
      rw [hUe, hGe]
      decide
  · intro g hg2
    rw [hgroups] at hg2
    unfold groupGapFree
    rw [groupItems_congr hitems]
    exact hinv.2 g hg2

theorem createGroup_inv (s : State) (c0 u gid : Nat) (s1 : State)
    (hwf : WF s) (hcons : Consistent s) (hinv : LayoutInv s)
    (hok : createGroup s c0 u = .ok (gid, s1)) : LayoutInv s1 := by
  unfold createGroup at hok
  split at hok
  · exact Except.noConfusion hok
  rename_i hacc
  injection hok with h1
  injection h1 with hgid hs1
  have hitems : s1.items = s.items := by rw [← hs1]
  have hcols : s1.columns = s.columns := by rw [← hs1]
  have hgroups : s1.groups
      = s.groups ++ [⟨s.nextGroupId, c0, getNextRootEntryIndex s c0⟩] := by
    rw [← hs1]
  have hfreshItems : ∀ it ∈ s.items, it.groupId ≠ some s.nextGroupId := by
    intro it hit hcontra
    obtain ⟨g0, hg0, hg0id, h5⟩ := hcons.1 it hit s.nextGroupId hcontra
    exact absurd hg0id (Nat.ne_of_lt (hwf.2.2.2.2.1 g0 hg0))
  have hcolmem : ∃ col ∈ s.columns, col.id = c0 := by
    rw [not_not] at hacc
    unfold columnAccessible at hacc
    cases hf : findColumn s c0 with
    | none =>
      rw [hf] at hacc
      exact Bool.noConfusion hacc
    | some col =>
      unfold findColumn at hf
      have h5 := List.mem_of_find?_eq_some hf
      have h6 := List.find?_some hf
      exact ⟨col, h5, of_decide_eq_true h6⟩
  have hUng : ∀ x, ungroupedItems s1 x = ungroupedItems s x := by
    intro x
    unfold ungroupedItems
    rw [hitems]
  have hCG : ∀ x, x ≠ c0 → columnGroups s1 x = columnGroups s x := by
    intro x hx
    unfold columnGroups
    have hd : decide ((⟨s.nextGroupId, c0, getNextRootEntryIndex s c0⟩ : Group).columnId = x)
        = false := decide_eq_false (fun h2 => hx h2.symm)
    rw [hgroups, List.filter_append, List.filter_singleton, hd, Bool.cond_false,
      List.append_nil]
  have hCGc : columnGroups s1 c0
      = columnGroups s c0 ++ [⟨s.nextGroupId, c0, getNextRootEntryIndex s c0⟩] := by
    unfold columnGroups
    have hd : decide ((⟨s.nextGroupId, c0, getNextRootEntryIndex s c0⟩ : Group).columnId = c0)
        = true := decide_eq_true rfl
    rw [hgroups, List.filter_append, List.filter_singleton, hd, Bool.cond_true]
  have hroot : rootGapFree s c0 := by
    obtain ⟨col, hcm, hcid2⟩ := hcolmem
    rw [← hcid2]
    exact hinv.1 col hcm
  constructor
  · intro c hc
    rw [hcols] at hc
    by_cases hcc : c.id = c0
    · unfold rootGapFree rootIndexList
      rw [hcc, hUng c0, hCGc, List.map_append, List.map_singleton, ← List.append_assoc]
      show gapFree (rootIndexList s c0 ++ [getNextRootEntryIndex s c0])
      rw [getNext_of_rootGapFree s c0 hroot]
      exact gapFree_snoc hroot
    · unfold rootGapFree rootIndexList
      rw [hUng c.id, hCG c.id hcc]
      exact hinv.1 c hc
  · intro g hg2
    rw [hgroups, List.mem_append] at hg2
    unfold groupGapFree
    rw [groupItems_congr hitems]
    rcases hg2 with hold | hnew
    · exact hinv.2 g hold
    · rw [List.mem_singleton] at hnew
      subst hnew
      show gapFree ((groupItems s s.nextGroupId).map (·.rowIndex))
      have hempty : groupItems s s.nextGroupId = [] := by
        rw [List.eq_nil_iff_forall_not_mem]
        intro it hit
        exact hfreshItems it (List.mem_filter.mp hit).1
          (of_decide_eq_true (List.mem_filter.mp hit).2)
      rw [hempty]
      decide

theorem writeBackColumns_tables : ∀ (l : List Column) (s : State) (k : Int),
    (writeBackColumns s l k).items = s.items
    ∧ (writeBackColumns s l k).groups = s.groups
  | [], _, _ => ⟨rfl, rfl⟩
  | c :: rest, s, k => writeBackColumns_tables rest _ (k + 1)

theorem writeBackColumns_ids : ∀ (l : List Column) (s : State) (k : Int),
    (writeBackColumns s l k).columns.map Column.id = s.columns.map Column.id
  | [], _, _ => rfl
  | c :: rest, s, k => by
    refine (writeBackColumns_ids rest _ (k + 1)).trans ?_
    show (s.columns.map (fun c2 =>
        if c2.id = c.id then { c2 with orderIndex := k } else c2)).map Column.id
      = s.columns.map Column.id
    rw [List.map_map]
    apply List.map_congr_left
    intro c2 h
    simp only [Function.comp]
    split <;> rfl

theorem reorderColumns_inv (s : State) (b u : Nat) (oi ni : Int) (s1 : State)
    (hinv : LayoutInv s) (hok : reorderColumns s b u oi ni = .ok s1) : LayoutInv s1 := by
  unfold reorderColumns at hok
  split at hok
  · exact Except.noConfusion hok
  simp only [] at hok
  split at hok
  · exact Except.noConfusion hok
  split at hok
  · exact Except.noConfusion hok
  split at hok
  · exact Except.noConfusion hok
  injection hok with hs1
  obtain ⟨L, hL⟩ : ∃ L : List Column, writeBackColumns s L 0 = s1 := ⟨_, hs1⟩
  obtain ⟨hti, htg⟩ := writeBackColumns_tables L s 0
  rw [hL] at hti htg
  have hcid : s1.columns.map Column.id = s.columns.map Column.id := by
    rw [← hL]
    exact writeBackColumns_ids L s 0
  constructor
  · intro c hc
    have h2 : c.id ∈ s.columns.map Column.id := by
      rw [← hcid]
      exact List.mem_map_of_mem _ hc
    rw [List.mem_map] at h2
    obtain ⟨cc, hcc, hccid⟩ := h2
    unfold rootGapFree
    rw [rootIndexList_congr hti htg, ← hccid]
    exact hinv.1 cc hcc
  · intro g hg2
    rw [htg] at hg2
    unfold groupGapFree
    rw [groupItems_congr hti]
    exact hinv.2 g hg2

theorem map_id_on {α : Type} {f : α → α} {l : List α} (h : ∀ a ∈ l, f a = a) :
    l.map f = l := by
  have h2 : l.map f = l.map (fun a => a) := List.map_congr_left h
  rw [h2, List.map_id']

theorem addItem_inv (s : State) (c0 u : Nat) (gopt : Option Nat) (iid : Nat) (s1 : State)
    (hwf : WF s) (hcons : Consistent s) (hinv : LayoutInv s)
    (hok : addItemToColumn s c0 u gopt = .ok (iid, s1)) : LayoutInv s1 := by
  unfold addItemToColumn at hok
  split at hok
  · exact Except.noConfusion hok
  cases gopt with
  | none =>
    simp only [] at hok
    injection hok with h1
    injection h1 with hiid hs1
    set fI := (fun it : Item =>
      if it.columnId = c0 ∧ it.groupId = none then { it with rowIndex := it.rowIndex + 1 }
      else it) with hfIdef
    set fG := (fun g : Group =>
      if g.columnId = c0 then { g with orderIndex := g.orderIndex + 1 } else g) with hfGdef
    have hitems : s1.items = s.items.map fI ++ [(⟨s.nextItemId, c0, none, 0⟩ : Item)] := by
      rw [← hs1]
    have hgroups : s1.groups = s.groups.map fG := by
      rw [← hs1]
    have hcols : s1.columns = s.columns := by
      rw [← hs1]
    have hfI : ∀ it : Item, (fI it).id = it.id ∧ (fI it).columnId = it.columnId
        ∧ (fI it).groupId = it.groupId := by
      intro it
      show ((if it.columnId = c0 ∧ it.groupId = none
            then ({ it with rowIndex := it.rowIndex + 1 } : Item) else it).id = it.id)
        ∧ ((if it.columnId = c0 ∧ it.groupId = none
            then ({ it with rowIndex := it.rowIndex + 1 } : Item) else it).columnId
          = it.columnId)
        ∧ ((if it.columnId = c0 ∧ it.groupId = none
            then ({ it with rowIndex := it.rowIndex + 1 } : Item) else it).groupId
          = it.groupId)
      split <;> exact ⟨rfl, rfl, rfl⟩
    have hfG : ∀ g : Group, (fG g).id = g.id ∧ (fG g).columnId = g.columnId := by
      intro g
      show ((if g.columnId = c0
            then ({ g with orderIndex := g.orderIndex + 1 } : Group) else g).id = g.id)
        ∧ ((if g.columnId = c0
            then ({ g with orderIndex := g.orderIndex + 1 } : Group) else g).columnId
          = g.columnId)
      split <;> exact ⟨rfl, rfl⟩
    have hfI2 : ∀ it : Item, (fI it).columnId = it.columnId ∧ (fI it).groupId = it.groupId :=
      fun it => ⟨(hfI it).2.1, (hfI it).2.2⟩
    have hfG2 : ∀ g : Group, (fG g).columnId = g.columnId := fun g => (hfG g).2
    have hUmap : ∀ x, (s.items.map fI).filter
          (fun it => decide (it.columnId = x ∧ it.groupId = none))
        = (ungroupedItems s x).map fI :=
      fun x => filter_ungrouped_map fI hfI2 s.items x
    have hGmap : ∀ x, (s.groups.map fG).filter (fun g => decide (g.columnId = x))
        = (columnGroups s x).map fG :=
      fun x => filter_groups_map fG hfG2 s.groups x
    constructor
    · intro c hc
      rw [hcols] at hc
      unfold rootGapFree rootIndexList ungroupedItems columnGroups
      rw [hitems, hgroups, List.filter_append, hUmap, hGmap]
      by_cases hcc : c.id = c0
      · -- the target column: every root sibling bumped, new item at 0
        rw [hcc]
        have hnew : List.filter (fun it => decide (it.columnId = c0 ∧ it.groupId = none))
            [(⟨s.nextItemId, c0, none, 0⟩ : Item)] = [(⟨s.nextItemId, c0, none, 0⟩ : Item)] := by
          rw [List.filter_singleton, decide_eq_true ⟨rfl, rfl⟩, Bool.cond_true]
        rw [hnew]
        have hrows : ((ungroupedItems s c0).map fI).map (·.rowIndex)
            = ((ungroupedItems s c0).map (·.rowIndex)).map (· + 1) := by
          rw [List.map_map, List.map_map]
          apply List.map_congr_left
          intro it hit
          have hmem := List.mem_filter.mp hit
          have hcond := of_decide_eq_true hmem.2
          simp only [Function.comp]
          rw [hfIdef]
          show (if it.columnId = c0 ∧ it.groupId = none
              then ({ it with rowIndex := it.rowIndex + 1 } : Item) else it).rowIndex
            = it.rowIndex + 1
          rw [if_pos hcond]
        have hords : ((columnGroups s c0).map fG).map (·.orderIndex)
            = ((columnGroups s c0).map (·.orderIndex)).map (· + 1) := by
          rw [List.map_map, List.map_map]
          apply List.map_congr_left
          intro g hgm
          have hcond := of_decide_eq_true (List.mem_filter.mp hgm).2
          simp only [Function.comp]
          rw [hfGdef]
          show (if g.columnId = c0
              then ({ g with orderIndex := g.orderIndex + 1 } : Group) else g).orderIndex
            = g.orderIndex + 1
          rw [if_pos hcond]
        rw [List.map_append, hrows, hords, List.map_singleton]
        have hperm : List.Perm
            ((0 : Int) :: (((ungroupedItems s c0).map (·.rowIndex)).map (· + 1)
              ++ ((columnGroups s c0).map (·.orderIndex)).map (· + 1)))
            ((((ungroupedItems s c0).map (·.rowIndex)).map (· + 1) ++ [(0 : Int)])
              ++ ((columnGroups s c0).map (·.orderIndex)).map (· + 1)) := by
          rw [List.append_assoc]
          exact List.perm_middle.symm
        refine gapFree_of_perm hperm ?_
        have hshift := gapFree_shift (show gapFree (rootIndexList s c0) from by
          rw [← hcc]
          exact hinv.1 c hc)
        have hsplit : (rootIndexList s c0).map (· + 1)
            = ((ungroupedItems s c0).map (·.rowIndex)).map (· + 1)
              ++ ((columnGroups s c0).map (·.orderIndex)).map (· + 1) := by
          unfold rootIndexList
          rw [List.map_append]
        rw [hsplit] at hshift
        exact hshift
      · -- other columns: the bump is the identity there
        have hnew : List.filter (fun it => decide (it.columnId = c.id ∧ it.groupId = none))
            [(⟨s.nextItemId, c0, none, 0⟩ : Item)] = [] := by
          rw [List.filter_singleton, decide_eq_false (fun h3 => hcc h3.1.symm),
            Bool.cond_false]
        rw [hnew, List.append_nil]
        have hid1 : (ungroupedItems s c.id).map fI = ungroupedItems s c.id := by
          apply map_id_on
          intro it hit
          have hcond := of_decide_eq_true (List.mem_filter.mp hit).2
          rw [hfIdef]
          show (if it.columnId = c0 ∧ it.groupId = none
              then ({ it with rowIndex := it.rowIndex + 1 } : Item) else it) = it
          rw [if_neg (fun h3 => hcc (hcond.1 ▸ h3.1.symm).symm)]
        have hid2 : (columnGroups s c.id).map fG = columnGroups s c.id := by
          apply map_id_on
          intro g hgm
          have hcond := of_decide_eq_true (List.mem_filter.mp hgm).2
          rw [hfGdef]
          show (if g.columnId = c0
              then ({ g with orderIndex := g.orderIndex + 1 } : Group) else g) = g
          rw [if_neg (fun h3 => hcc (hcond ▸ h3.symm).symm)]
        rw [hid1, hid2]
        exact hinv.1 c hc
    · intro g hg2
      rw [hgroups] at hg2
      rw [List.mem_map] at hg2
      obtain ⟨g0, hg0, hgg⟩ := hg2
      unfold groupGapFree groupItems
      rw [hitems, List.filter_append]
      have hgid : g.id = g0.id := by
        rw [← hgg]
        exact (hfG g0).1
      have hnew : List.filter (fun it => decide (it.groupId = some g.id))
          [(⟨s.nextItemId, c0, none, 0⟩ : Item)] = [] := by
        rw [List.filter_singleton, decide_eq_false (fun h3 => Option.noConfusion h3),
          Bool.cond_false]
      have hfI3 : ∀ it : Item, (fI it).groupId = it.groupId := fun it => (hfI it).2.2
      rw [hnew, List.append_nil, filter_grouped_map fI hfI3 s.items g.id]
      have hid1 : (s.items.filter (fun it => decide (it.groupId = some g.id))).map fI
          = s.items.filter (fun it => decide (it.groupId = some g.id)) := by
        apply map_id_on
        intro it hit
        have hcond := of_decide_eq_true (List.mem_filter.mp hit).2
        rw [hfIdef]
        show (if it.columnId = c0 ∧ it.groupId = none
            then ({ it with rowIndex := it.rowIndex + 1 } : Item) else it) = it
        rw [if_neg (fun h3 => Option.noConfusion (hcond ▸ h3.2))]
      rw [hid1, hgid]
      exact hinv.2 g0 hg0
  | some gid0 =>
    split at hok
    · rename_i heqn
      exact Option.noConfusion heqn
    rename_i x gid1 heq
    injection heq with heq2
    subst heq2
    split at hok
    · exact Except.noConfusion hok
    rename_i hany
    simp only [] at hok
    injection hok with h1
    injection h1 with hiid hs1
    set fI := (fun it : Item =>
      if it.columnId = c0 ∧ it.groupId = some gid0
      then { it with rowIndex := it.rowIndex + 1 } else it) with hfIdef
    have hitems : s1.items = s.items.map fI ++ [(⟨s.nextItemId, c0, some gid0, 0⟩ : Item)] := by
      rw [← hs1]
    have hgroups : s1.groups = s.groups := by
      rw [← hs1]
    have hcols : s1.columns = s.columns := by
      rw [← hs1]
    have hfI : ∀ it : Item, (fI it).id = it.id ∧ (fI it).columnId = it.columnId
        ∧ (fI it).groupId = it.groupId := by
      intro it
      show ((if it.columnId = c0 ∧ it.groupId = some gid0
            then ({ it with rowIndex := it.rowIndex + 1 } : Item) else it).id = it.id)
        ∧ ((if it.columnId = c0 ∧ it.groupId = some gid0
            then ({ it with rowIndex := it.rowIndex + 1 } : Item) else it).columnId
          = it.columnId)
        ∧ ((if it.columnId = c0 ∧ it.groupId = some gid0
            then ({ it with rowIndex := it.rowIndex + 1 } : Item) else it).groupId
          = it.groupId)
      split <;> exact ⟨rfl, rfl, rfl⟩
    -- resolve the target group
    rw [not_not] at hany
    rw [List.any_eq_true] at hany
    obtain ⟨gt, hgt, hgtc⟩ := hany
    have hgtc2 := of_decide_eq_true hgtc
    constructor
    · intro c hc
      rw [hcols] at hc
      unfold rootGapFree rootIndexList ungroupedItems columnGroups
      have hfI2 : ∀ it : Item, (fI it).columnId = it.columnId ∧ (fI it).groupId = it.groupId :=
        fun it => ⟨(hfI it).2.1, (hfI it).2.2⟩
      have hUmap : (s.items.map fI).filter
            (fun it => decide (it.columnId = c.id ∧ it.groupId = none))
          = (ungroupedItems s c.id).map fI :=
        filter_ungrouped_map fI hfI2 s.items c.id
      rw [hitems, hgroups, List.filter_append, hUmap]
      have hnew : List.filter (fun it => decide (it.columnId = c.id ∧ it.groupId = none))
          [(⟨s.nextItemId, c0, some gid0, 0⟩ : Item)] = [] := by
        rw [List.filter_singleton, decide_eq_false (fun h3 => Option.noConfusion h3.2),
          Bool.cond_false]
      rw [hnew, List.append_nil]
      have hid1 : (ungroupedItems s c.id).map fI = ungroupedItems s c.id := by
        apply map_id_on
        intro it hit
        have hcond := of_decide_eq_true (List.mem_filter.mp hit).2
        rw [hfIdef]
        show (if it.columnId = c0 ∧ it.groupId = some gid0
            then ({ it with rowIndex := it.rowIndex + 1 } : Item) else it) = it
        rw [if_neg (fun h3 => Option.noConfusion (hcond.2.symm.trans h3.2))]
      rw [hid1]
      exact hinv.1 c hc
    · intro g hg2
      rw [hgroups] at hg2
      have hfI3 : ∀ it : Item, (fI it).groupId = it.groupId := fun it => (hfI it).2.2
      unfold groupGapFree groupItems
      rw [hitems, List.filter_append, filter_grouped_map fI hfI3 s.items g.id]
      by_cases hgg : g.id = gid0
      · -- the target group: members bumped, new item at 0
        rw [hgg]
        have hnew : List.filter (fun it => decide (it.groupId = some gid0))
            [(⟨s.nextItemId, c0, some gid0, 0⟩ : Item)] = [(⟨s.nextItemId, c0, some gid0, 0⟩ : Item)] := by
          rw [List.filter_singleton, decide_eq_true rfl, Bool.cond_true]
        rw [hnew]
        have hrows : ((s.items.filter (fun it => decide (it.groupId = some gid0))).map fI).map
              (·.rowIndex)
            = ((s.items.filter (fun it =>
                decide (it.groupId = some gid0))).map (·.rowIndex)).map (· + 1) := by
          rw [List.map_map, List.map_map]
          apply List.map_congr_left
          intro it hit
          have hitmem := (List.mem_filter.mp hit).1
          have hcond := of_decide_eq_true (List.mem_filter.mp hit).2
          have hcol : it.columnId = c0 := by
            obtain ⟨g1, hg1, hg1id, hg1col⟩ := hcons.1 it hitmem gid0 hcond
            have : g1 = gt := List.inj_on_of_nodup_map hwf.2.1 hg1 hgt
              (hg1id.trans hgtc2.1.symm)
            rw [← hg1col, this, hgtc2.2]
          simp only [Function.comp]
          rw [hfIdef]
          show (if it.columnId = c0 ∧ it.groupId = some gid0
              then ({ it with rowIndex := it.rowIndex + 1 } : Item) else it).rowIndex
            = it.rowIndex + 1
          rw [if_pos ⟨hcol, hcond⟩]
        rw [List.map_append, hrows, List.map_singleton]
        have hperm : List.Perm
            ((0 : Int) :: ((s.items.filter (fun it =>
                decide (it.groupId = some gid0))).map (·.rowIndex)).map (· + 1))
            (((s.items.filter (fun it =>
                decide (it.groupId = some gid0))).map (·.rowIndex)).map (· + 1)
              ++ [(0 : Int)]) := by
          have h9 := @List.perm_middle Int 0 ((s.items.filter (fun it =>
            decide (it.groupId = some gid0))).map (·.rowIndex) |>.map (· + 1)) []
          rw [List.append_nil] at h9
          exact h9.symm
        refine gapFree_of_perm hperm ?_
        refine gapFree_shift ?_
        have : gt.id = gid0 := hgtc2.1
        rw [← this]
        exact hinv.2 gt hgt
      · -- other groups untouched
        have hnew : List.filter (fun it => decide (it.groupId = some g.id))
            [(⟨s.nextItemId, c0, some gid0, 0⟩ : Item)] = [] := by
          rw [List.filter_singleton, decide_eq_false
            (fun h3 => hgg (Option.some.inj h3).symm), Bool.cond_false]
        rw [hnew, List.append_nil]
        have hid1 : (s.items.filter (fun it => decide (it.groupId = some g.id))).map fI
            = s.items.filter (fun it => decide (it.groupId = some g.id)) := by
          apply map_id_on
          intro it hit
          have hcond := of_decide_eq_true (List.mem_filter.mp hit).2
          rw [hfIdef]
          show (if it.columnId = c0 ∧ it.groupId = some gid0
              then ({ it with rowIndex := it.rowIndex + 1 } : Item) else it) = it
          rw [if_neg (fun h3 => hgg (Option.some.inj (hcond.symm.trans h3.2)))]
        rw [hid1]
        exact hinv.2 g hg2

theorem filter_of_filter_weaker {α : Type} {p q : α → Bool} :
    ∀ (l : List α), (∀ a ∈ l, p a = true → q a = true) →
      (l.filter q).filter p = l.filter p
  | [], _ => rfl
  | a :: l, h => by
    have hrest := filter_of_filter_weaker l (fun b hb => h b (List.mem_cons_of_mem a hb))
    rw [List.filter_cons]
    by_cases hq : q a = true
    · rw [if_pos hq, List.filter_cons, List.filter_cons]
      by_cases hp : p a = true
      · rw [if_pos hp, if_pos hp, hrest]
      · rw [if_neg hp, if_neg hp, hrest]
    · have hp : ¬ p a = true := fun hp2 => hq (h a (List.mem_cons_self a l) hp2)
      rw [if_neg hq, hrest, List.filter_cons, if_neg hp]

theorem deleteColumn_inv (s : State) (c0 u : Nat) (s1 : State)
    (hwf : WF s) (hcons : Consistent s) (hinv : LayoutInv s)
    (hok : deleteColumn s c0 u = .ok ((), s1)) : LayoutInv s1 := by
  unfold deleteColumn at hok
  cases hfind : findColumn s c0 with
  | none =>
    rw [hfind] at hok
    exact Except.noConfusion hok
  | some col =>
    rw [hfind] at hok
    split at hok
    · exact Except.noConfusion hok
    rename_i x col2 heq
    injection heq with heq2
    subst heq2
    split at hok
    · exact Except.noConfusion hok
    injection hok with h1
    injection h1 with hu hs1
    have hitems : s1.items = s.items.filter (fun it => decide (it.columnId ≠ c0)) := by
      rw [← hs1]
    have hgroups : s1.groups = s.groups.filter (fun g => decide (g.columnId ≠ c0)) := by
      rw [← hs1]
    obtain ⟨fC, hcols, hfCid⟩ : ∃ fc : Column → Column,
        s1.columns = (s.columns.filter (fun c => decide (c.id ≠ c0))).map fc
          ∧ ∀ c2 : Column, (fc c2).id = c2.id := by
      refine ⟨fun c2 =>
        if c2.boardId = col.boardId ∧ c2.orderIndex > col.orderIndex
        then { c2 with orderIndex := c2.orderIndex - 1 } else c2, ?_, ?_⟩
      · rw [← hs1]
      · intro c2
        show (if c2.boardId = col.boardId ∧ c2.orderIndex > col.orderIndex
            then ({ c2 with orderIndex := c2.orderIndex - 1 } : Column) else c2).id = c2.id
        split <;> rfl
    constructor
    · intro c hc
      rw [hcols, List.mem_map] at hc
      obtain ⟨c1, hc1, hcc⟩ := hc
      have hc1mem := (List.mem_filter.mp hc1).1
      have hc1ne : c1.id ≠ c0 := of_decide_eq_true (List.mem_filter.mp hc1).2
      have hcid : c.id = c1.id := by
        rw [← hcc]
        exact hfCid c1
      unfold rootGapFree rootIndexList ungroupedItems columnGroups
      rw [hitems, hgroups]
      have h5 : (s.items.filter (fun it => decide (it.columnId ≠ c0))).filter
            (fun it => decide (it.columnId = c.id ∧ it.groupId = none))
          = s.items.filter (fun it => decide (it.columnId = c.id ∧ it.groupId = none)) := by
        apply filter_of_filter_weaker
        intro it hitm hp
        have hp2 := of_decide_eq_true hp
        refine decide_eq_true ?_
        rw [hp2.1, hcid]
        exact hc1ne
      have h6 : (s.groups.filter (fun g => decide (g.columnId ≠ c0))).filter
            (fun g => decide (g.columnId = c.id))
          = s.groups.filter (fun g => decide (g.columnId = c.id)) := by
        apply filter_of_filter_weaker
        intro g2 hgm hp
        have hp2 := of_decide_eq_true hp
        refine decide_eq_true ?_
        rw [hp2, hcid]
        exact hc1ne
      rw [h5, h6, hcid]
      exact hinv.1 c1 hc1mem
    · intro g hg2
      rw [hgroups] at hg2
      have hgmem := (List.mem_filter.mp hg2).1
      have hgne : g.columnId ≠ c0 := of_decide_eq_true (List.mem_filter.mp hg2).2
      unfold groupGapFree groupItems
      rw [hitems]
      have h5 : (s.items.filter (fun it => decide (it.columnId ≠ c0))).filter
            (fun it => decide (it.groupId = some g.id))
          = s.items.filter (fun it => decide (it.groupId = some g.id)) := by
        apply filter_of_filter_weaker
        intro it hitm hp
        have hp2 := of_decide_eq_true hp
        obtain ⟨g1, hg1, hg1id, hg1col⟩ := hcons.1 it hitm g.id hp2
        have hg1g : g1 = g := List.inj_on_of_nodup_map hwf.2.1 hg1 hgmem hg1id
        refine decide_eq_true ?_
        rw [← hg1col, hg1g]
        exact hgne
      rw [h5]
      exact hinv.2 g hgmem

theorem applyGroupChange_groups_eq (fetched : List Group) (st : State) (ch : GroupChange) :
    (applyGroupChange fetched st ch).groups = st.groups.map (fun g =>
      if g.id = ch.groupId
      then { g with columnId := ch.newColumnId, orderIndex := ch.newOrderIndex } else g) := by
  unfold applyGroupChange
  split
  · split
    · rfl
    · rfl
  · rfl

theorem applyGroupChange_items_eq (fetched : List Group) (st : State) (ch : GroupChange) :
    ∃ fi : Item → Item, (applyGroupChange fetched st ch).items = st.items.map fi
      ∧ ∀ it : Item, (fi it).id = it.id ∧ (fi it).groupId = it.groupId
        ∧ (fi it).rowIndex = it.rowIndex
        ∧ (fi it = it ∨ ((fi it).columnId = ch.newColumnId
            ∧ it.groupId = some ch.groupId)) := by
  unfold applyGroupChange
  split
  · split
    · refine ⟨fun it => if it.groupId = some ch.groupId
          then { it with columnId := ch.newColumnId } else it, rfl, ?_⟩
      intro it
      by_cases h : it.groupId = some ch.groupId
      · simp only []
        rw [if_pos h]
        exact ⟨rfl, rfl, rfl, Or.inr ⟨rfl, h⟩⟩
      · simp only []
        rw [if_neg h]
        exact ⟨rfl, rfl, rfl, Or.inl rfl⟩
    · exact ⟨fun it => it, (List.map_id' st.items).symm,
        fun it => ⟨rfl, rfl, rfl, Or.inl rfl⟩⟩
  · exact ⟨fun it => it, (List.map_id' st.items).symm,
      fun it => ⟨rfl, rfl, rfl, Or.inl rfl⟩⟩

theorem applyGroupChange_frame_step (fetched : List Group) (st : State) (ch : GroupChange)
    (T : List Nat) (hnew : ch.newColumnId ∈ T)
    (hcur : ∀ g ∈ st.groups, g.id = ch.groupId → g.columnId ∈ T) :
    (∀ c', c' ∉ T →
      ungroupedItems (applyGroupChange fetched st ch) c' = ungroupedItems st c'
      ∧ columnGroups (applyGroupChange fetched st ch) c' = columnGroups st c')
    ∧ (∀ gid, (groupItems (applyGroupChange fetched st ch) gid).map (·.rowIndex)
        = (groupItems st gid).map (·.rowIndex))
    ∧ (∀ gid2, (∀ g ∈ st.groups, g.id = gid2 → g.columnId ∈ T) →
        ∀ g ∈ (applyGroupChange fetched st ch).groups, g.id = gid2 → g.columnId ∈ T) := by
  obtain ⟨fi, hfi, hfispec⟩ := applyGroupChange_items_eq fetched st ch
  have hgeq := applyGroupChange_groups_eq fetched st ch
  refine ⟨?_, ?_, ?_⟩
  · intro c' hc'
    constructor
    · unfold ungroupedItems
      rw [hfi, List.filter_map]
      have hcong : st.items.filter (fun it =>
            decide ((fi it).columnId = c' ∧ (fi it).groupId = none))
          = st.items.filter (fun it => decide (it.columnId = c' ∧ it.groupId = none)) := by
        apply List.filter_congr
        intro it hitm
        obtain ⟨h1, h2, h3, h4⟩ := hfispec it
        rcases h4 with h4 | h4
        · rw [h4]
        · refine decide_eq_decide.mpr ?_
          constructor
          · intro hx
            exact absurd (h2.symm.trans hx.2) (fun h5 => Option.noConfusion
              (h4.2.symm.trans h5))
          · intro hx
            exact absurd (h4.2.symm.trans hx.2) (fun h5 => Option.noConfusion h5)
      show ((st.items.filter (fun it =>
          decide ((fi it).columnId = c' ∧ (fi it).groupId = none))).map fi)
        = st.items.filter (fun it => decide (it.columnId = c' ∧ it.groupId = none))
      rw [hcong]
      apply map_id_on
      intro it hitm
      have hcond := of_decide_eq_true (List.mem_filter.mp hitm).2
      rcases (hfispec it).2.2.2 with h4 | h4
      · exact h4
      · exact absurd (h4.2.symm.trans hcond.2) (fun h5 => Option.noConfusion h5)
    · unfold columnGroups
      rw [hgeq, List.filter_map]
      have hcong : st.groups.filter (fun g =>
            decide ((if g.id = ch.groupId
              then ({ g with columnId := ch.newColumnId, orderIndex := ch.newOrderIndex } : Group)
              else g).columnId = c'))
          = st.groups.filter (fun g => decide (g.columnId = c')) := by
        apply List.filter_congr
        intro g hgm
        by_cases hgi : g.id = ch.groupId
        · rw [if_pos hgi]
          refine decide_eq_decide.mpr ?_
          constructor
          · intro hx
            exact absurd (hx ▸ hnew) hc'
          · intro hx
            exact absurd (hx ▸ hcur g hgm hgi) hc'
        · rw [if_neg hgi]
      show (st.groups.filter (fun g =>
          decide ((if g.id = ch.groupId
            then ({ g with columnId := ch.newColumnId, orderIndex := ch.newOrderIndex } : Group)
            else g).columnId = c'))).map
          (fun g => if g.id = ch.groupId
            then { g with columnId := ch.newColumnId, orderIndex := ch.newOrderIndex }
            else g)
        = st.groups.filter (fun g => decide (g.columnId = c'))
      rw [hcong]
      apply map_id_on
      intro g hgm2
      have hgm := (List.mem_filter.mp hgm2).1
      have hcol := of_decide_eq_true (List.mem_filter.mp hgm2).2
      by_cases hgi : g.id = ch.groupId
      · exact absurd (hcol ▸ hcur g hgm hgi) hc'
      · show (if g.id = ch.groupId
            then ({ g with columnId := ch.newColumnId, orderIndex := ch.newOrderIndex } : Group)
            else g) = g
        rw [if_neg hgi]
  · intro gid
    unfold groupItems
    rw [hfi, List.filter_map]
    have hcong : st.items.filter (fun it => decide ((fi it).groupId = some gid))
        = st.items.filter (fun it => decide (it.groupId = some gid)) := by
      apply List.filter_congr
      intro it hitm
      rw [(hfispec it).2.1]
    show ((st.items.filter (fun it => decide ((fi it).groupId = some gid))).map fi).map
        (·.rowIndex)
      = (st.items.filter (fun it => decide (it.groupId = some gid))).map (·.rowIndex)
    rw [hcong, List.map_map]
    apply List.map_congr_left
    intro it hitm
    simp only [Function.comp]
    exact (hfispec it).2.2.1
  · intro gid2 hyp g hgm hgi
    rw [hgeq] at hgm
    rw [List.mem_map] at hgm
    obtain ⟨g0, hg0, hgg⟩ := hgm
    by_cases hg0i : g0.id = ch.groupId
    · have he : g
          = { g0 with columnId := ch.newColumnId, orderIndex := ch.newOrderIndex } := by
        rw [← hgg]
        rw [if_pos hg0i]
      rw [he]
      exact hnew
    · have he : g = g0 := by
        rw [← hgg]
        rw [if_neg hg0i]
      rw [he] at hgi ⊢
      exact hyp g0 hg0 hgi

theorem groupSyncFold_frame (fetched : List Group) (T : List Nat) :
    ∀ (changes : List GroupChange) (st : State),
      (∀ ch ∈ changes, ch.newColumnId ∈ T) →
      (∀ ch ∈ changes, ∀ g ∈ st.groups, g.id = ch.groupId → g.columnId ∈ T) →
      (∀ c', c' ∉ T →
        ungroupedItems (changes.foldl (applyGroupChange fetched) st) c'
            = ungroupedItems st c'
        ∧ columnGroups (changes.foldl (applyGroupChange fetched) st) c'
            = columnGroups st c')
      ∧ (∀ gid, (groupItems (changes.foldl (applyGroupChange fetched) st) gid).map
            (·.rowIndex)
          = (groupItems st gid).map (·.rowIndex))
  | [], st, _, _ => ⟨fun c' h => ⟨rfl, rfl⟩, fun gid => rfl⟩
  | ch :: rest, st, hT, hC => by
    rw [List.foldl_cons]
    have hstep := applyGroupChange_frame_step fetched st ch T
      (hT ch (List.mem_cons_self ch rest))
      (fun g hg hgi => hC ch (List.mem_cons_self ch rest) g hg hgi)
    have hrec := groupSyncFold_frame fetched T rest (applyGroupChange fetched st ch)
      (fun ch2 hch2 => hT ch2 (List.mem_cons_of_mem ch hch2))
      (fun ch2 hch2 => hstep.2.2 ch2.groupId
        (fun g hg hgi => hC ch2 (List.mem_cons_of_mem ch hch2) g hg hgi))
    refine ⟨?_, ?_⟩
    · intro c' hc'
      exact ⟨((hrec.1 c' hc').1).trans (hstep.1 c' hc').1,
        ((hrec.1 c' hc').2).trans (hstep.1 c' hc').2⟩
    · intro gid
      exact (hrec.2 gid).trans (hstep.2.1 gid)

theorem normalizeFold_strip (pf : Nat → Option PrefMap) :
    ∀ (cids : List Nat) (s0 : State),
      ((cids.foldl (fun st c => normalizeColumnRootEntryOrder st c (pf c)) s0).items).map
          stripI
        = s0.items.map stripI
      ∧ ((cids.foldl (fun st c => normalizeColumnRootEntryOrder st c (pf c)) s0).groups).map
          stripG
        = s0.groups.map stripG
  | [], _ => ⟨rfl, rfl⟩
  | c :: rest, s0 => by
    rw [List.foldl_cons]
    have hstep := writeBackEntries_strip
      (sortByCmp (rootEntryCmp (pf c)) (collectRootEntries s0 c)) s0 0
    have hrec := normalizeFold_strip pf rest (normalizeColumnRootEntryOrder s0 c (pf c))
    exact ⟨hrec.1.trans hstep.1, hrec.2.trans hstep.2.1⟩

theorem syncGroups_inv (s : State) (boardId userId : Nat) (changes : List GroupChange)
    (r : SyncResult) (s1 : State)
    (hwf : WF s) (hinv : LayoutInv s)
    (hok : syncGroupPositions s boardId userId changes = .ok (r, s1)) : LayoutInv s1 := by
  by_cases hne : changes = []
  · rw [hne] at hok
    unfold syncGroupPositions at hok
    rw [if_pos rfl] at hok
    injection hok with h1
    injection h1 with hr hs1
    rw [← hs1]
    exact hinv
  unfold syncGroupPositions at hok
  rw [if_neg hne] at hok
  split at hok
  · exact Except.noConfusion hok
  simp only [] at hok
  split at hok
  · exact Except.noConfusion hok
  split at hok
  · exact Except.noConfusion hok
  split at hok
  · exact Except.noConfusion hok
  rename_i hlenne
  injection hok with hpair
  injection hpair with hr hs2
  subst hs2
  set U := dedupFirst (changes.map (·.groupId)) with hU2
  set fetched := s.groups.filter (fun g =>
    decide (g.id ∈ U) && (boardColumns s boardId).any (fun c => decide (c.id = g.columnId)))
    with hF2
  set ccols := (fetched.map (·.columnId) ++ changes.map (·.newColumnId)).foldl insertUnique []
    with hC2
  have hlen : fetched.length = U.length := not_ne_iff.mp hlenne
  have hmemF : ∀ ch ∈ changes, ∀ g ∈ s.groups, g.id = ch.groupId → g ∈ fetched := by
    have hlen2 := hlen
    rw [hF2] at hlen2
    intro ch hch g hg hgi
    have hgU : g.id ∈ U := by
      rw [hU2, mem_dedupFirst, hgi]
      exact List.mem_map_of_mem _ hch
    rw [hF2]
    refine mem_filter_of_count hwf.2.1 ?_ hlen2 hg hgU
    intro y hy
    simp only [Bool.and_eq_true] at hy
    exact of_decide_eq_true hy.1
  have hT : ∀ ch ∈ changes, ch.newColumnId ∈ ccols := by
    intro ch hch
    rw [hC2, foldl_insertUnique_mem]
    right
    rw [List.mem_append]
    right
    exact List.mem_map_of_mem _ hch
  have hG : ∀ ch ∈ changes, ∀ g ∈ s.groups, g.id = ch.groupId → g.columnId ∈ ccols := by
    intro ch hch g hg hgi
    rw [hC2, foldl_insertUnique_mem]
    right
    rw [List.mem_append]
    left
    exact List.mem_map_of_mem _ (hmemF ch hch g hg hgi)
  have hids := groupSyncFold_ids fetched changes s
  have hwf1 : WF (changes.foldl (applyGroupChange fetched) s) :=
    WF_of_ids_eq hids.1 hids.2.1 hids.2.2.1 hids.2.2.2.1 hids.2.2.2.2.1 hids.2.2.2.2.2 hwf
  have hccolsN : ccols.Nodup := by
    rw [hC2]
    exact foldl_insertUnique_nodup _ [] List.nodup_nil
  have hprops := normalize_foldl_props
    (fun c => colPrefGet (buildGroupPrefs fetched changes) c) ccols
    (changes.foldl (applyGroupChange fetched) s) hwf1 hccolsN
  have hframe := groupSyncFold_frame fetched ccols changes s hT hG
  constructor
  · intro c hc
    rw [hprops.2.2.2.2.1, hids.2.2.1] at hc
    by_cases hcin : c.id ∈ ccols
    · exact hprops.2.1 c.id hcin
    · unfold rootGapFree rootIndexList
      rw [(hprops.2.2.1 c.id hcin).1, (hprops.2.2.1 c.id hcin).2,
        (hframe.1 c.id hcin).1, (hframe.1 c.id hcin).2]
      exact hinv.1 c hc
  · intro g hg
    have hgid0 : g.id ∈ s.groups.map Group.id := by
      rw [← hids.2.1, ← hprops.2.2.2.2.2]
      exact List.mem_map_of_mem _ hg
    rw [List.mem_map] at hgid0
    obtain ⟨g0, hg0, hg0id⟩ := hgid0
    unfold groupGapFree
    rw [hprops.2.2.2.1 g.id, hframe.2 g.id, ← hg0id]
    exact hinv.2 g0 hg0

theorem notin_spliceKeys_item (s : State) (gid0 : Nat) (grp : Group)
    (hwf : WF s) (hcons : Consistent s) (hgrpmem : grp ∈ s.groups) (hgrpid : grp.id = gid0)
    (it0 : Item) (hit0 : it0 ∈ s.items)
    (hside : it0.columnId ≠ grp.columnId
      ∨ (∃ gg : Nat, it0.groupId = some gg ∧ gg ≠ gid0)) :
    (EntryType.ITEM, it0.id) ∉
      ((ungroupedItems s grp.columnId).map
          (fun it => ((EntryType.ITEM, it.id) : EntryType × Nat))
        ++ ((columnGroups s grp.columnId).filter (fun g => decide (g.id ≠ gid0))).map
          (fun g => ((EntryType.GROUP, g.id) : EntryType × Nat))
        ++ (groupItems s gid0).map
          (fun it => ((EntryType.ITEM, it.id) : EntryType × Nat))) := by
  intro hmem
  rw [List.mem_append, List.mem_append] at hmem
  rcases hmem with (hA | hB) | hG
  · rw [List.mem_map] at hA
    obtain ⟨it2, hit2, hk⟩ := hA
    have hid : it2.id = it0.id := congrArg Prod.snd hk
    have hit2s := (List.mem_filter.mp hit2).1
    have hcond := of_decide_eq_true (List.mem_filter.mp hit2).2
    have he : it2 = it0 := List.inj_on_of_nodup_map hwf.1 hit2s hit0 hid
    rcases hside with hs1 | hs2
    · apply hs1
      rw [← he]
      exact hcond.1
    · obtain ⟨gg, hgg, hggne⟩ := hs2
      rw [he] at hcond
      exact Option.noConfusion (hcond.2.symm.trans hgg)
  · rw [List.mem_map] at hB
    obtain ⟨g2, hg2, hk⟩ := hB
    exact EntryType.noConfusion (congrArg Prod.fst hk)
  · rw [List.mem_map] at hG
    obtain ⟨it2, hit2, hk⟩ := hG
    have hid : it2.id = it0.id := congrArg Prod.snd hk
    have hit2s := (List.mem_filter.mp hit2).1
    have hcond := of_decide_eq_true (List.mem_filter.mp hit2).2
    have he : it2 = it0 := List.inj_on_of_nodup_map hwf.1 hit2s hit0 hid
    rw [he] at hcond
    rcases hside with hs1 | hs2
    · obtain ⟨g1, hg1, hg1id, hg1col⟩ := hcons.1 it0 hit0 gid0 hcond
      have hge : g1 = grp :=
        List.inj_on_of_nodup_map hwf.2.1 hg1 hgrpmem (hg1id.trans hgrpid.symm)
      apply hs1
      rw [← hg1col, hge]
    · obtain ⟨gg, hgg, hggne⟩ := hs2
      exact hggne (Option.some.inj (hgg.symm.trans hcond))

theorem notin_spliceKeys_group (s : State) (gid0 : Nat) (grp : Group)
    (hwf : WF s) (g0 : Group) (hg0 : g0 ∈ s.groups) (hcol : g0.columnId ≠ grp.columnId) :
    (EntryType.GROUP, g0.id) ∉
      ((ungroupedItems s grp.columnId).map
          (fun it => ((EntryType.ITEM, it.id) : EntryType × Nat))
        ++ ((columnGroups s grp.columnId).filter (fun g => decide (g.id ≠ gid0))).map
          (fun g => ((EntryType.GROUP, g.id) : EntryType × Nat))
        ++ (groupItems s gid0).map
          (fun it => ((EntryType.ITEM, it.id) : EntryType × Nat))) := by
  intro hmem
  rw [List.mem_append, List.mem_append] at hmem
  rcases hmem with (hA | hB) | hG
  · rw [List.mem_map] at hA
    obtain ⟨it2, hit2, hk⟩ := hA
    exact EntryType.noConfusion (congrArg Prod.fst hk)
  · rw [List.mem_map] at hB
    obtain ⟨g2, hg2, hk⟩ := hB
    have hid : g2.id = g0.id := congrArg Prod.snd hk
    have hg2f := List.mem_filter.mp hg2
    have hg2s := (List.mem_filter.mp hg2f.1).1
    have hg2col := of_decide_eq_true (List.mem_filter.mp hg2f.1).2
    have he : g2 = g0 := List.inj_on_of_nodup_map hwf.2.1 hg2s hg0 hid
    apply hcol
    rw [← he]
    exact hg2col
  · rw [List.mem_map] at hG
    obtain ⟨it2, hit2, hk⟩ := hG
    exact EntryType.noConfusion (congrArg Prod.fst hk)

theorem spliceKeys_nodup (s : State) (gid0 : Nat) (grp : Group) (hwf : WF s) :
    (((ungroupedItems s grp.columnId).map
        (fun it => ((EntryType.ITEM, it.id) : EntryType × Nat))
      ++ ((columnGroups s grp.columnId).filter (fun g => decide (g.id ≠ gid0))).map
        (fun g => ((EntryType.GROUP, g.id) : EntryType × Nat)))
      ++ (groupItems s gid0).map
        (fun it => ((EntryType.ITEM, it.id) : EntryType × Nat))).Nodup := by
  rw [List.nodup_append]
  refine ⟨?_, ?_, ?_⟩
  · rw [List.nodup_append]
    refine ⟨?_, ?_, ?_⟩
    · have h : ((ungroupedItems s grp.columnId).map Item.id).Nodup :=
        filter_map_nodup Item.id _ s.items hwf.1
      have hcomp : (ungroupedItems s grp.columnId).map
          (fun it => ((EntryType.ITEM, it.id) : EntryType × Nat))
          = ((ungroupedItems s grp.columnId).map Item.id).map
            (fun i => (EntryType.ITEM, i)) := by
        rw [List.map_map]
        rfl
      rw [hcomp]
      exact h.map (fun a b hab => congrArg Prod.snd hab)
    · have h : (((columnGroups s grp.columnId).filter
          (fun g => decide (g.id ≠ gid0))).map Group.id).Nodup :=
        filter_map_nodup Group.id _ _ (filter_map_nodup Group.id _ s.groups hwf.2.1)
      have hcomp : ((columnGroups s grp.columnId).filter
            (fun g => decide (g.id ≠ gid0))).map
            (fun g => ((EntryType.GROUP, g.id) : EntryType × Nat))
          = (((columnGroups s grp.columnId).filter
              (fun g => decide (g.id ≠ gid0))).map Group.id).map
            (fun i => (EntryType.GROUP, i)) := by
        rw [List.map_map]
        rfl
      rw [hcomp]
      exact h.map (fun a b hab => congrArg Prod.snd hab)
    · intro a ha hb
      rw [List.mem_map] at ha hb
      obtain ⟨it, -, rfl⟩ := ha
      obtain ⟨g, -, hg⟩ := hb
      exact EntryType.noConfusion (congrArg Prod.fst hg)
  · have h : ((groupItems s gid0).map Item.id).Nodup :=
      filter_map_nodup Item.id _ s.items hwf.1
    have hcomp : (groupItems s gid0).map
        (fun it => ((EntryType.ITEM, it.id) : EntryType × Nat))
        = ((groupItems s gid0).map Item.id).map (fun i => (EntryType.ITEM, i)) := by
      rw [List.map_map]
      rfl
    rw [hcomp]
    exact h.map (fun a b hab => congrArg Prod.snd hab)
  · intro a ha hb
    rw [List.mem_append] at ha
    rcases ha with ha | ha
    · rw [List.mem_map] at ha hb
      obtain ⟨it1, hit1, rfl⟩ := ha
      obtain ⟨it2, hit2, hk⟩ := hb
      have hid : it2.id = it1.id := congrArg Prod.snd hk
      have hit1s := (List.mem_filter.mp hit1).1
      have hit1c := of_decide_eq_true (List.mem_filter.mp hit1).2
      have hit2s := (List.mem_filter.mp hit2).1
      have hit2c := of_decide_eq_true (List.mem_filter.mp hit2).2
      have he : it2 = it1 := List.inj_on_of_nodup_map hwf.1 hit2s hit1s hid
      rw [he] at hit2c
      exact Option.noConfusion (hit1c.2.symm.trans hit2c)
    · rw [List.mem_map] at ha hb
      obtain ⟨g1, hg1, rfl⟩ := ha
      obtain ⟨it2, hit2, hk⟩ := hb
      exact EntryType.noConfusion (congrArg Prod.fst hk)

theorem deleteGroup_inv (s : State) (gid0 u : Nat) (s1 : State)
    (hwf : WF s) (hcons : Consistent s) (hinv : LayoutInv s)
    (hok : deleteGroup s gid0 u = .ok ((), s1)) : LayoutInv s1 := by
  unfold deleteGroup at hok
  cases hfind : findGroup s gid0 with
  | none =>
    rw [hfind] at hok
    exact Except.noConfusion hok
  | some grp =>
    rw [hfind] at hok
    split at hok
    · exact Except.noConfusion hok
    rename_i x grp2 heq
    injection heq with heq2
    subst heq2
    split at hok
    · exact Except.noConfusion hok
    injection hok with h1
    injection h1 with hu hs1
    have hgrpmem : grp ∈ s.groups := (findGroup_spec hfind).1
    have hgrpid : grp.id = gid0 := (findGroup_spec hfind).2
    subst hs1
    set sMid := { s with
      items := s.items.map (fun it : Item =>
        if it.groupId = some gid0 then { it with groupId := none } else it),
      groups := s.groups.filter (fun g => decide (g.id ≠ gid0)) } with hsMiddef
    set rootTokens := sortByCmp entryIdxIdCmp
      ((ungroupedItems s grp.columnId).map
          (fun it => (⟨EntryType.ITEM, it.id, it.rowIndex⟩ : Entry))
        ++ ((columnGroups s grp.columnId).filter (fun g => decide (g.id ≠ gid0))).map
          (fun g => (⟨EntryType.GROUP, g.id, g.orderIndex⟩ : Entry))) with hrtdef
    set IA := (max 0 (min grp.orderIndex (rootTokens.length : Int))).toNat with hIAdef
    set spliced := rootTokens.take IA
      ++ (sortByCmp itemRowOnlyCmp (groupItems s gid0)).map
        (fun it => (⟨EntryType.ITEM, it.id, -1⟩ : Entry))
      ++ rootTokens.drop IA with hspdef
    have hKperm : List.Perm (spliced.map entryKey)
        (((ungroupedItems s grp.columnId).map
            (fun it => ((EntryType.ITEM, it.id) : EntryType × Nat))
          ++ ((columnGroups s grp.columnId).filter (fun g => decide (g.id ≠ gid0))).map
            (fun g => ((EntryType.GROUP, g.id) : EntryType × Nat)))
          ++ (groupItems s gid0).map
            (fun it => ((EntryType.ITEM, it.id) : EntryType × Nat))) := by
      rw [hspdef, List.map_append, List.map_append]
      have h2 : (((rootTokens.take IA).map entryKey
            ++ ((sortByCmp itemRowOnlyCmp (groupItems s gid0)).map
              (fun it => (⟨EntryType.ITEM, it.id, -1⟩ : Entry))).map entryKey)
          ++ (rootTokens.drop IA).map entryKey).Perm
          (((rootTokens.take IA).map entryKey ++ (rootTokens.drop IA).map entryKey)
            ++ ((sortByCmp itemRowOnlyCmp (groupItems s gid0)).map
              (fun it => (⟨EntryType.ITEM, it.id, -1⟩ : Entry))).map entryKey) := by
        rw [List.append_assoc, List.append_assoc]
        exact List.Perm.append_left _ List.perm_append_comm
      refine h2.trans ?_
      rw [← List.map_append, List.take_append_drop]
      refine List.Perm.append ?_ ?_
      · rw [hrtdef]
        refine ((List.perm_insertionSort _ _).map entryKey).trans ?_
        have h3 : ((ungroupedItems s grp.columnId).map
              (fun it => (⟨EntryType.ITEM, it.id, it.rowIndex⟩ : Entry))
            ++ ((columnGroups s grp.columnId).filter (fun g => decide (g.id ≠ gid0))).map
              (fun g => (⟨EntryType.GROUP, g.id, g.orderIndex⟩ : Entry))).map entryKey
            = (ungroupedItems s grp.columnId).map
                (fun it => ((EntryType.ITEM, it.id) : EntryType × Nat))
              ++ ((columnGroups s grp.columnId).filter (fun g => decide (g.id ≠ gid0))).map
                (fun g => ((EntryType.GROUP, g.id) : EntryType × Nat)) := by
          rw [List.map_append, List.map_map, List.map_map]
          rfl
        rw [h3]
      · rw [List.map_map]
        exact (List.perm_insertionSort _ _).map _
    have hms : sMid.items = s.items.map (fun it =>
        if it.groupId = some gid0 then { it with groupId := none } else it) := by
      rw [hsMiddef]
    have hmg : sMid.groups = s.groups.filter (fun g => decide (g.id ≠ gid0)) := by
      rw [hsMiddef]
    have hunf : ∀ it : Item, ((if it.groupId = some gid0
          then ({ it with groupId := none } : Item) else it).id = it.id)
        ∧ ((if it.groupId = some gid0
          then ({ it with groupId := none } : Item) else it).columnId = it.columnId) := by
      intro it
      split <;> exact ⟨rfl, rfl⟩
    have hKnd : (spliced.map entryKey).Nodup :=
      hKperm.nodup_iff.mpr (spliceKeys_nodup s gid0 grp hwf)
    have hs2eq := writeBackEntries_eq spliced sMid 0 hKnd
    have hidI : sMid.items.map Item.id = s.items.map Item.id := by
      rw [hms, List.map_map]
      apply List.map_congr_left
      intro it h5
      simp only [Function.comp]
      exact (hunf it).1
    have hIN1 : (sMid.items.map Item.id).Nodup := by
      rw [hidI]
      exact hwf.1
    have hGN1 : (sMid.groups.map Group.id).Nodup := by
      rw [hmg]
      exact filter_map_nodup _ _ _ hwf.2.1
    have hIN2 : ((writeBackEntries sMid spliced 0).items.map Item.id).Nodup := by
      rw [item_ids_eq_of_strip (writeBackEntries_strip spliced sMid 0).1]
      exact hIN1
    have hGN2 : ((writeBackEntries sMid spliced 0).groups.map Group.id).Nodup := by
      rw [group_ids_eq_of_strip (writeBackEntries_strip spliced sMid 0).2.1]
      exact hGN1
    have hnotK_it : ∀ it0 ∈ s.items,
        (it0.columnId ≠ grp.columnId ∨ (∃ gg : Nat, it0.groupId = some gg ∧ gg ≠ gid0)) →
        (EntryType.ITEM, it0.id) ∉ spliced.map entryKey := by
      intro it0 h5 h6 hmm2
      exact notin_spliceKeys_item s gid0 grp hwf hcons hgrpmem hgrpid it0 h5 h6
        (hKperm.mem_iff.mp hmm2)
    have hnotK_g : ∀ g0 ∈ s.groups, g0.columnId ≠ grp.columnId →
        (EntryType.GROUP, g0.id) ∉ spliced.map entryKey := by
      intro g0 h5 h6 hmm2
      exact notin_spliceKeys_group s gid0 grp hwf g0 h5 h6 (hKperm.mem_iff.mp hmm2)
    have hUmid : ∀ y, y ≠ grp.columnId → ungroupedItems sMid y = ungroupedItems s y := by
      intro y hy
      unfold ungroupedItems
      rw [hms, List.filter_map]
      have hpt : ∀ it ∈ s.items,
          ((fun it2 : Item => decide (it2.columnId = y ∧ it2.groupId = none))
            ∘ fun it2 : Item =>
              if it2.groupId = some gid0 then { it2 with groupId := none } else it2) it
          = (fun it2 : Item => decide (it2.columnId = y ∧ it2.groupId = none)) it := by
        intro it hitm
        show decide ((if it.groupId = some gid0
              then ({ it with groupId := none } : Item) else it).columnId = y
            ∧ (if it.groupId = some gid0
              then ({ it with groupId := none } : Item) else it).groupId = none)
          = decide (it.columnId = y ∧ it.groupId = none)
        by_cases h7 : it.groupId = some gid0
        · rw [if_pos h7]
          refine decide_eq_decide.mpr ?_
          constructor
          · intro hcl
            obtain ⟨g1, hg1, hg1id, hg1col⟩ := hcons.1 it hitm gid0 h7
            have hge : g1 = grp := List.inj_on_of_nodup_map hwf.2.1 hg1 hgrpmem
              (hg1id.trans hgrpid.symm)
            have h9 : it.columnId = grp.columnId := by
              rw [← hg1col, hge]
            exact absurd (h9.symm.trans hcl.1).symm hy
          · intro hcl
            exact absurd (h7.symm.trans hcl.2) (fun h8 => Option.noConfusion h8)
        · rw [if_neg h7]
      rw [List.filter_congr hpt]
      apply map_id_on
      intro it hitm2
      have hcond := of_decide_eq_true (List.mem_filter.mp hitm2).2
      show (if it.groupId = some gid0 then ({ it with groupId := none } : Item) else it) = it
      rw [if_neg (fun h7 => Option.noConfusion (h7.symm.trans hcond.2))]
    have hCGmid : ∀ y, y ≠ grp.columnId → columnGroups sMid y = columnGroups s y := by
      intro y hy
      unfold columnGroups
      rw [hmg]
      apply filter_of_filter_weaker
      intro g2 hg2 hp
      have hp2 := of_decide_eq_true hp
      refine decide_eq_true ?_
      intro h7
      have hge : g2 = grp := List.inj_on_of_nodup_map hwf.2.1 hg2 hgrpmem
        (h7.trans hgrpid.symm)
      rw [hge] at hp2
      exact hy hp2.symm
    have hGImid : ∀ gg, gg ≠ gid0 → groupItems sMid gg = groupItems s gg := by
      intro gg hgg
      unfold groupItems
      rw [hms, List.filter_map]
      have hpt : ∀ it ∈ s.items,
          ((fun it2 : Item => decide (it2.groupId = some gg))
            ∘ fun it2 : Item =>
              if it2.groupId = some gid0 then { it2 with groupId := none } else it2) it
          = (fun it2 : Item => decide (it2.groupId = some gg)) it := by
        intro it hitm
        show decide ((if it.groupId = some gid0
              then ({ it with groupId := none } : Item) else it).groupId = some gg)
          = decide (it.groupId = some gg)
        by_cases h7 : it.groupId = some gid0
        · rw [if_pos h7]
          refine decide_eq_decide.mpr ?_
          constructor
          · intro h8
            exact absurd h8 (fun h9 => Option.noConfusion h9)
          · intro h8
            exact absurd (Option.some.inj (h7.symm.trans h8)) (fun h9 => hgg h9.symm)
        · rw [if_neg h7]
      rw [List.filter_congr hpt]
      apply map_id_on
      intro it hitm2
      have hcond := of_decide_eq_true (List.mem_filter.mp hitm2).2
      show (if it.groupId = some gid0 then ({ it with groupId := none } : Item) else it) = it
      rw [if_neg (fun h7 => hgg (Option.some.inj (h7.symm.trans hcond)).symm)]
    have hU2 : ∀ y, y ≠ grp.columnId →
        ungroupedItems (writeBackEntries sMid spliced 0) y = ungroupedItems s y := by
      intro y hy
      have hstep1 : ungroupedItems (writeBackEntries sMid spliced 0) y
          = (ungroupedItems sMid y).map (itemWriteFun (spliced.map entryKey) 0) := by
        rw [hs2eq]
        unfold ungroupedItems
        exact filter_ungrouped_map _ (fun it =>
          ⟨(itemWriteFun_fields _ 0 it).2.1, (itemWriteFun_fields _ 0 it).2.2⟩) sMid.items y
      have hstep2 : (ungroupedItems sMid y).map (itemWriteFun (spliced.map entryKey) 0)
          = ungroupedItems sMid y := by
        apply map_id_on
        intro it hit
        have hitM := (List.mem_filter.mp hit).1
        have hcond := of_decide_eq_true (List.mem_filter.mp hit).2
        rw [hms, List.mem_map] at hitM
        obtain ⟨it0, hit0, hun⟩ := hitM
        have hid5 : it.id = it0.id := by
          rw [← hun]
          exact (hunf it0).1
        have hcol5 : it.columnId = it0.columnId := by
          rw [← hun]
          exact (hunf it0).2
        apply itemWriteFun_not_mem
        rw [hid5]
        refine hnotK_it it0 hit0 (Or.inl ?_)
        rw [← hcol5, hcond.1]
        exact hy
      exact hstep1.trans (hstep2.trans (hUmid y hy))
    have hCG2 : ∀ y, y ≠ grp.columnId →
        columnGroups (writeBackEntries sMid spliced 0) y = columnGroups s y := by
      intro y hy
      have hstep1 : columnGroups (writeBackEntries sMid spliced 0) y
          = (columnGroups sMid y).map (groupWriteFun (spliced.map entryKey) 0) := by
        rw [hs2eq]
        unfold columnGroups
        exact filter_groups_map _ (fun g => (groupWriteFun_fields _ 0 g).2) sMid.groups y
      have hstep2 : (columnGroups sMid y).map (groupWriteFun (spliced.map entryKey) 0)
          = columnGroups sMid y := by
        apply map_id_on
        intro g hg5
        have hgM := (List.mem_filter.mp hg5).1
        have hcond := of_decide_eq_true (List.mem_filter.mp hg5).2
        rw [hmg] at hgM
        have hgs := (List.mem_filter.mp hgM).1
        apply groupWriteFun_not_mem
        refine hnotK_g g hgs ?_
        rw [hcond]
        exact hy
      exact hstep1.trans (hstep2.trans (hCGmid y hy))
    have hGI2 : ∀ gg, gg ≠ gid0 →
        groupItems (writeBackEntries sMid spliced 0) gg = groupItems s gg := by
      intro gg hgg
      have hstep1 : groupItems (writeBackEntries sMid spliced 0) gg
          = (groupItems sMid gg).map (itemWriteFun (spliced.map entryKey) 0) := by
        rw [hs2eq]
        unfold groupItems
        exact filter_grouped_map _ (fun it => (itemWriteFun_fields _ 0 it).2.2) sMid.items gg
      have hstep2 : (groupItems sMid gg).map (itemWriteFun (spliced.map entryKey) 0)
          = groupItems sMid gg := by
        apply map_id_on
        intro it hit
        have hitM := (List.mem_filter.mp hit).1
        have hcond := of_decide_eq_true (List.mem_filter.mp hit).2
        rw [hms, List.mem_map] at hitM
        obtain ⟨it0, hit0, hun⟩ := hitM
        have hid5 : it.id = it0.id := by
          rw [← hun]
          exact (hunf it0).1
        have hg0 : it0.groupId = some gg := by
          by_cases h7 : it0.groupId = some gid0
          · exfalso
            rw [← hun, if_pos h7] at hcond
            exact Option.noConfusion hcond
          · rw [← hun, if_neg h7] at hcond
            exact hcond
        apply itemWriteFun_not_mem
        rw [hid5]
        exact hnotK_it it0 hit0 (Or.inr ⟨gg, hg0, hgg⟩)
      exact hstep1.trans (hstep2.trans (hGImid gg hgg))
    have hframe := normalizeColumn_frame (writeBackEntries sMid spliced 0)
      grp.columnId none hIN2 hGN2
    have hrescols : (normalizeColumnRootEntryOrder (writeBackEntries sMid spliced 0)
        grp.columnId none).columns = s.columns := by
      have h5 : (normalizeColumnRootEntryOrder (writeBackEntries sMid spliced 0)
          grp.columnId none).columns = (writeBackEntries sMid spliced 0).columns :=
        (writeBackEntries_strip _ _ 0).2.2.2.1
      have h6 : (writeBackEntries sMid spliced 0).columns = sMid.columns :=
        (writeBackEntries_strip spliced sMid 0).2.2.2.1
      exact h5.trans h6
    have hresgids : (normalizeColumnRootEntryOrder (writeBackEntries sMid spliced 0)
        grp.columnId none).groups.map Group.id
        = (s.groups.filter (fun g => decide (g.id ≠ gid0))).map Group.id := by
      have h5 : (normalizeColumnRootEntryOrder (writeBackEntries sMid spliced 0)
          grp.columnId none).groups.map stripG
          = (writeBackEntries sMid spliced 0).groups.map stripG :=
        (writeBackEntries_strip _ _ 0).2.1
      have h6 := (writeBackEntries_strip spliced sMid 0).2.1
      have h7 := group_ids_eq_of_strip (h5.trans h6)
      rw [h7, hmg]
    constructor
    · intro c hc
      rw [hrescols] at hc
      by_cases hcc : c.id = grp.columnId
      · rw [hcc]
        exact rootGapFree_normalizeColumn (writeBackEntries sMid spliced 0)
          grp.columnId none hIN2 hGN2
      · unfold rootGapFree rootIndexList
        rw [hframe.1 c.id hcc, hframe.2.2 c.id hcc, hU2 c.id hcc, hCG2 c.id hcc]
        exact hinv.1 c hc
    · intro g hg
      have hgid5 : g.id ∈ (s.groups.filter (fun g2 => decide (g2.id ≠ gid0))).map Group.id := by
        rw [← hresgids]
        exact List.mem_map_of_mem _ hg
      rw [List.mem_map] at hgid5
      obtain ⟨g0, hg0f, hg0id⟩ := hgid5
      have hg0s := (List.mem_filter.mp hg0f).1
      have hg0ne : g0.id ≠ gid0 := of_decide_eq_true (List.mem_filter.mp hg0f).2
      unfold groupGapFree
      have hgne2 : g.id ≠ gid0 := by
        rw [← hg0id]
        exact hg0ne
      rw [hframe.2.1 g.id, hGI2 g.id hgne2, ← hg0id]
      exact hinv.2 g0 hg0s

/-- One step of the `changedGroupIds` fold, as a named function. -/
def cgStep (fetched : List Item) (ac : List Nat) (ch : ItemChange) : List Nat :=
  let acc1 :=
    match fetched.find? (fun it => decide (it.id = ch.itemId)) with
    | some prev =>
      match prev.groupId with
      | some g => insertUnique ac g
      | none => ac
    | none => ac
  match ch.newGroupId with
  | some g => insertUnique acc1 g
  | none => acc1

theorem changedGroupIds_eq_foldl (fetched : List Item) (changes : List ItemChange) :
    changedGroupIds fetched changes = changes.foldl (cgStep fetched) [] := rfl

/-- Insert an optional id. -/
def optInsert (l : List Nat) : Option Nat → List Nat
  | some g => insertUnique l g
  | none => l

theorem cgStep_char (fetched : List Item) (ac : List Nat) (ch : ItemChange) :
    cgStep fetched ac ch
      = optInsert (optInsert ac
          ((fetched.find? (fun it => decide (it.id = ch.itemId))).bind Item.groupId))
        ch.newGroupId := by
  unfold cgStep
  cases fetched.find? (fun it => decide (it.id = ch.itemId)) with
  | none => rfl
  | some prev => rfl

theorem mem_optInsert_of_mem {y : Nat} (l : List Nat) (o : Option Nat) (hy : y ∈ l) :
    y ∈ optInsert l o := by
  cases o with
  | none => exact hy
  | some g => exact mem_insertUnique.mpr (Or.inl hy)

theorem mem_optInsert_self (l : List Nat) (g : Nat) : g ∈ optInsert l (some g) :=
  mem_insertUnique.mpr (Or.inr rfl)

theorem optInsert_nodup (l : List Nat) (o : Option Nat) (h : l.Nodup) :
    (optInsert l o).Nodup := by
  cases o with
  | none => exact h
  | some g => exact insertUnique_nodup h

theorem cgStep_mono (fetched : List Item) (ac : List Nat) (ch : ItemChange)
    (y : Nat) (hy : y ∈ ac) : y ∈ cgStep fetched ac ch := by
  rw [cgStep_char]
  exact mem_optInsert_of_mem _ _ (mem_optInsert_of_mem _ _ hy)

theorem cgStep_nodup (fetched : List Item) (ac : List Nat) (ch : ItemChange)
    (h : ac.Nodup) : (cgStep fetched ac ch).Nodup := by
  rw [cgStep_char]
  exact optInsert_nodup _ _ (optInsert_nodup _ _ h)

theorem cgStep_new (fetched : List Item) (ac : List Nat) (ch : ItemChange) (gg : Nat)
    (h : ch.newGroupId = some gg) : gg ∈ cgStep fetched ac ch := by
  rw [cgStep_char, h]
  exact mem_optInsert_self _ gg

theorem cgStep_prev (fetched : List Item) (ac : List Nat) (ch : ItemChange)
    (prev : Item) (gg : Nat)
    (hf : fetched.find? (fun it => decide (it.id = ch.itemId)) = some prev)
    (hpg : prev.groupId = some gg) : gg ∈ cgStep fetched ac ch := by
  rw [cgStep_char, hf, Option.some_bind, hpg]
  exact mem_optInsert_of_mem _ _ (mem_optInsert_self ac gg)

theorem cgFold_mono (fetched : List Item) :
    ∀ (changes : List ItemChange) (ac : List Nat) (y : Nat),
      y ∈ ac → y ∈ changes.foldl (cgStep fetched) ac
  | [], _, _, hy => hy
  | ch :: rest, ac, y, hy => by
    rw [List.foldl_cons]
    exact cgFold_mono fetched rest _ y (cgStep_mono fetched ac ch y hy)

theorem cgFold_nodup (fetched : List Item) :
    ∀ (changes : List ItemChange) (ac : List Nat), ac.Nodup →
      (changes.foldl (cgStep fetched) ac).Nodup
  | [], _, h => h
  | ch :: rest, ac, h => by
    rw [List.foldl_cons]
    exact cgFold_nodup fetched rest _ (cgStep_nodup fetched ac ch h)

theorem cgFold_mem_of_change (fetched : List Item) :
    ∀ (changes : List ItemChange) (ac : List Nat) (ch : ItemChange), ch ∈ changes →
      ∀ gg : Nat,
      (ch.newGroupId = some gg
       ∨ ∃ prev : Item, fetched.find? (fun it => decide (it.id = ch.itemId)) = some prev
           ∧ prev.groupId = some gg) →
      gg ∈ changes.foldl (cgStep fetched) ac
  | [], _, ch, hch, _, _ => absurd hch (List.not_mem_nil ch)
  | ch0 :: rest, ac, ch, hch, gg, hcase => by
    rw [List.foldl_cons]
    rcases List.mem_cons.mp hch with he | hch2
    · subst he
      refine cgFold_mono fetched rest _ gg ?_
      rcases hcase with h1 | ⟨prev, hf, hpg⟩
      · exact cgStep_new fetched ac ch gg h1
      · exact cgStep_prev fetched ac ch prev gg hf hpg
    · exact cgFold_mem_of_change fetched rest _ ch hch2 gg hcase

theorem mem_changedGroupIds (fetched : List Item) (changes : List ItemChange)
    (ch : ItemChange) (hch : ch ∈ changes) (gg : Nat)
    (hcase : ch.newGroupId = some gg
      ∨ ∃ prev : Item, fetched.find? (fun it => decide (it.id = ch.itemId)) = some prev
          ∧ prev.groupId = some gg) :
    gg ∈ changedGroupIds fetched changes := by
  rw [changedGroupIds_eq_foldl]
  exact cgFold_mem_of_change fetched changes [] ch hch gg hcase

theorem changedGroupIds_nodup (fetched : List Item) (changes : List ItemChange) :
    (changedGroupIds fetched changes).Nodup := by
  rw [changedGroupIds_eq_foldl]
  exact cgFold_nodup fetched changes [] List.nodup_nil

theorem find?_item_id_unique {l : List Item} {it : Item} {iid : Nat}
    (hmem : it ∈ l) (hid : it.id = iid)
    (huniq : ∀ y ∈ l, y.id = iid → y = it) :
    l.find? (fun y => decide (y.id = iid)) = some it := by
  induction l with
  | nil => exact absurd hmem (List.not_mem_nil it)
  | cons x l ih =>
    rw [List.find?_cons]
    split
    · rename_i hx
      have hxid : x.id = iid := of_decide_eq_true hx
      rw [huniq x (List.mem_cons_self x l) hxid]
    · rename_i hx
      have hxne : ¬ x.id = iid := fun hcontra => by
        rw [hcontra] at hx
        simp at hx
      rcases List.mem_cons.mp hmem with rfl | hmem2
      · exact absurd hid hxne
      · exact ih hmem2 (fun y hy hyid => huniq y (List.mem_cons_of_mem x hy) hyid)

theorem mem_filter_of_count_item {l : List Item} {U : List Nat} {p : Item → Bool}
    {it : Item}
    (hIN : (l.map Item.id).Nodup)
    (hp : ∀ y, p y = true → y.id ∈ U)
    (hlen : (l.filter p).length = U.length)
    (hit : it ∈ l) (hitid : it.id ∈ U) :
    it ∈ l.filter p := by
  have hsub : l.filter p ⊆ l := (List.filter_sublist l).subset
  have hidsN : ((l.filter p).map Item.id).Nodup := filter_map_nodup _ _ _ hIN
  have hidsSub : (l.filter p).map Item.id ⊆ U := by
    intro x hx
    rw [List.mem_map] at hx
    obtain ⟨y, hy, hyid⟩ := hx
    rw [List.mem_filter] at hy
    exact hyid ▸ hp y hy.2
  have hlen2 : U.length ≤ ((l.filter p).map Item.id).length := by
    rw [List.length_map, hlen]
  have hperm : ((l.filter p).map Item.id).Perm U :=
    (hidsN.subperm hidsSub).perm_of_length_le hlen2
  have hitidmem : it.id ∈ (l.filter p).map Item.id := hperm.mem_iff.mpr hitid
  rw [List.mem_map] at hitidmem
  obtain ⟨it2, hit2, hit2id⟩ := hitidmem
  have hie : it2 = it := List.inj_on_of_nodup_map hIN (hsub hit2) hit hit2id
  exact hie ▸ hit2

theorem applyItemChange_items_eq (st : State) (ch : ItemChange) :
    ∃ fi : Item → Item, (applyItemChange st ch).items = st.items.map fi
      ∧ ∀ it : Item, (fi it).id = it.id
        ∧ (fi it = it ∨ ((fi it).columnId = ch.newColumnId
            ∧ (fi it).groupId = ch.newGroupId ∧ it.id = ch.itemId)) := by
  refine ⟨fun it => if it.id = ch.itemId
      then { it with columnId := ch.newColumnId, groupId := ch.newGroupId,
                     rowIndex := ch.newRowIndex } else it, rfl, ?_⟩
  intro it
  by_cases h : it.id = ch.itemId
  · simp only []
    rw [if_pos h]
    exact ⟨rfl, Or.inr ⟨rfl, rfl, h⟩⟩
  · simp only []
    rw [if_neg h]
    exact ⟨rfl, Or.inl rfl⟩

theorem applyItemChange_ids (st : State) (ch : ItemChange) :
    (applyItemChange st ch).items.map Item.id = st.items.map Item.id
    ∧ (applyItemChange st ch).groups = st.groups
    ∧ (applyItemChange st ch).columns = st.columns
    ∧ (applyItemChange st ch).nextItemId = st.nextItemId
    ∧ (applyItemChange st ch).nextGroupId = st.nextGroupId
    ∧ (applyItemChange st ch).nextColumnId = st.nextColumnId := by
  refine ⟨?_, rfl, rfl, rfl, rfl, rfl⟩
  obtain ⟨fi, hfi, hspec⟩ := applyItemChange_items_eq st ch
  rw [hfi, List.map_map]
  apply List.map_congr_left
  intro it h5
  simp only [Function.comp]
  exact (hspec it).1

theorem itemSyncFold_ids :
    ∀ (changes : List ItemChange) (st : State),
      (changes.foldl applyItemChange st).items.map Item.id = st.items.map Item.id
      ∧ (changes.foldl applyItemChange st).groups = st.groups
      ∧ (changes.foldl applyItemChange st).columns = st.columns
      ∧ (changes.foldl applyItemChange st).nextItemId = st.nextItemId
      ∧ (changes.foldl applyItemChange st).nextGroupId = st.nextGroupId
      ∧ (changes.foldl applyItemChange st).nextColumnId = st.nextColumnId
  | [], _ => ⟨rfl, rfl, rfl, rfl, rfl, rfl⟩
  | ch :: rest, st => by
    rw [List.foldl_cons]
    have ih := itemSyncFold_ids rest (applyItemChange st ch)
    have h1 := applyItemChange_ids st ch
    exact ⟨ih.1.trans h1.1, ih.2.1.trans h1.2.1, ih.2.2.1.trans h1.2.2.1,
      ih.2.2.2.1.trans h1.2.2.2.1, ih.2.2.2.2.1.trans h1.2.2.2.2.1,
      ih.2.2.2.2.2.trans h1.2.2.2.2.2⟩

theorem applyItemChange_frame_step (st : State) (ch : ItemChange)
    (T G : List Nat) (hnewc : ch.newColumnId ∈ T)
    (hnewg : ∀ gg : Nat, ch.newGroupId = some gg → gg ∈ G)
    (hcurc : ∀ it ∈ st.items, it.id = ch.itemId → it.columnId ∈ T)
    (hcurg : ∀ it ∈ st.items, it.id = ch.itemId →
      it.groupId = none ∨ ∃ gg ∈ G, it.groupId = some gg) :
    (∀ c', c' ∉ T →
      ungroupedItems (applyItemChange st ch) c' = ungroupedItems st c'
      ∧ columnGroups (applyItemChange st ch) c' = columnGroups st c')
    ∧ (∀ gid, gid ∉ G →
        groupItems (applyItemChange st ch) gid = groupItems st gid)
    ∧ (∀ iid, (∀ it ∈ st.items, it.id = iid → it.columnId ∈ T) →
        ∀ it ∈ (applyItemChange st ch).items, it.id = iid → it.columnId ∈ T)
    ∧ (∀ iid, (∀ it ∈ st.items, it.id = iid →
          it.groupId = none ∨ ∃ gg ∈ G, it.groupId = some gg) →
        ∀ it ∈ (applyItemChange st ch).items, it.id = iid →
          it.groupId = none ∨ ∃ gg ∈ G, it.groupId = some gg) := by
  obtain ⟨fi, hfi, hspec⟩ := applyItemChange_items_eq st ch
  refine ⟨?_, ?_, ?_, ?_⟩
  · intro c' hc'
    constructor
    · unfold ungroupedItems
      rw [hfi, List.filter_map]
      have hcong : st.items.filter (fun it =>
            decide ((fi it).columnId = c' ∧ (fi it).groupId = none))
          = st.items.filter (fun it => decide (it.columnId = c' ∧ it.groupId = none)) := by
        apply List.filter_congr
        intro it hitm
        rcases (hspec it).2 with h4 | h4
        · rw [h4]
        · refine decide_eq_decide.mpr ?_
          constructor
          · intro hx
            have h6 : ch.newColumnId = c' := h4.1.symm.trans hx.1
            have h5 : c' ∈ T := by
              rw [← h6]
              exact hnewc
            exact absurd h5 hc'
          · intro hx
            have h5 : c' ∈ T := by
              rw [← hx.1]
              exact hcurc it hitm h4.2.2
            exact absurd h5 hc'
      show ((st.items.filter (fun it =>
          decide ((fi it).columnId = c' ∧ (fi it).groupId = none))).map fi)
        = st.items.filter (fun it => decide (it.columnId = c' ∧ it.groupId = none))
      rw [hcong]
      apply map_id_on
      intro it hitm
      have hitm0 := (List.mem_filter.mp hitm).1
      have hcond := of_decide_eq_true (List.mem_filter.mp hitm).2
      rcases (hspec it).2 with h4 | h4
      · exact h4
      · have h5 : c' ∈ T := by
          rw [← hcond.1]
          exact hcurc it hitm0 h4.2.2
        exact absurd h5 hc'
    · rfl
  · intro gid hgid
    unfold groupItems
    rw [hfi, List.filter_map]
    have hcong : st.items.filter (fun it => decide ((fi it).groupId = some gid))
        = st.items.filter (fun it => decide (it.groupId = some gid)) := by
      apply List.filter_congr
      intro it hitm
      rcases (hspec it).2 with h4 | h4
      · rw [h4]
      · refine decide_eq_decide.mpr ?_
        constructor
        · intro hx
          exact absurd (hnewg gid (h4.2.1.symm.trans hx)) hgid
        · intro hx
          rcases hcurg it hitm h4.2.2 with h6 | ⟨gg, hggG, h6⟩
          · exact absurd (h6.symm.trans hx) (fun h7 => Option.noConfusion h7)
          · have h7 : gg = gid := Option.some.inj (h6.symm.trans hx)
            have h8 : gid ∈ G := by
              rw [← h7]
              exact hggG
            exact absurd h8 hgid
    show ((st.items.filter (fun it => decide ((fi it).groupId = some gid))).map fi)
      = st.items.filter (fun it => decide (it.groupId = some gid))
    rw [hcong]
    apply map_id_on
    intro it hitm
    have hitm0 := (List.mem_filter.mp hitm).1
    have hcond := of_decide_eq_true (List.mem_filter.mp hitm).2
    rcases (hspec it).2 with h4 | h4
    · exact h4
    · rcases hcurg it hitm0 h4.2.2 with h6 | ⟨gg, hggG, h6⟩
      · exact absurd (h6.symm.trans hcond) (fun h7 => Option.noConfusion h7)
      · have h7 : gg = gid := Option.some.inj (h6.symm.trans hcond)
        have h8 : gid ∈ G := by
          rw [← h7]
          exact hggG
        exact absurd h8 hgid
  · intro iid hyp it hitm hid
    rw [hfi, List.mem_map] at hitm
    obtain ⟨it0, hit0, hfe⟩ := hitm
    rcases (hspec it0).2 with h4 | h4
    · have he : it = it0 := hfe.symm.trans h4
      rw [he] at hid ⊢
      exact hyp it0 hit0 hid
    · have h5 : it.columnId = ch.newColumnId := by
        rw [← hfe]
        exact h4.1
      rw [h5]
      exact hnewc
  · intro iid hyp it hitm hid
    rw [hfi, List.mem_map] at hitm
    obtain ⟨it0, hit0, hfe⟩ := hitm
    rcases (hspec it0).2 with h4 | h4
    · have he : it = it0 := hfe.symm.trans h4
      rw [he] at hid ⊢
      exact hyp it0 hit0 hid
    · have h5 : it.groupId = ch.newGroupId := by
        rw [← hfe]
        exact h4.2.1
      cases hn : ch.newGroupId with
      | none => exact Or.inl (h5.trans hn)
      | some gg => exact Or.inr ⟨gg, hnewg gg hn, h5.trans hn⟩

theorem itemSyncFold_frame (T G : List Nat) :
    ∀ (changes : List ItemChange) (st : State),
      (∀ ch ∈ changes, ch.newColumnId ∈ T) →
      (∀ ch ∈ changes, ∀ gg : Nat, ch.newGroupId = some gg → gg ∈ G) →
      (∀ ch ∈ changes, ∀ it ∈ st.items, it.id = ch.itemId → it.columnId ∈ T) →
      (∀ ch ∈ changes, ∀ it ∈ st.items, it.id = ch.itemId →
        it.groupId = none ∨ ∃ gg ∈ G, it.groupId = some gg) →
      (∀ c', c' ∉ T →
        ungroupedItems (changes.foldl applyItemChange st) c' = ungroupedItems st c'
        ∧ columnGroups (changes.foldl applyItemChange st) c' = columnGroups st c')
      ∧ (∀ gid, gid ∉ G →
          groupItems (changes.foldl applyItemChange st) gid = groupItems st gid)
  | [], st, _, _, _, _ => ⟨fun c' h => ⟨rfl, rfl⟩, fun gid h => rfl⟩
  | ch :: rest, st, hT, hTG, hC, hCG => by
    rw [List.foldl_cons]
    have hstep := applyItemChange_frame_step st ch T G
      (hT ch (List.mem_cons_self ch rest))
      (fun gg hgg => hTG ch (List.mem_cons_self ch rest) gg hgg)
      (fun it hit hid => hC ch (List.mem_cons_self ch rest) it hit hid)
      (fun it hit hid => hCG ch (List.mem_cons_self ch rest) it hit hid)
    have hrec := itemSyncFold_frame T G rest (applyItemChange st ch)
      (fun ch2 hch2 => hT ch2 (List.mem_cons_of_mem ch hch2))
      (fun ch2 hch2 => hTG ch2 (List.mem_cons_of_mem ch hch2))
      (fun ch2 hch2 => hstep.2.2.1 ch2.itemId
        (fun it hit hid => hC ch2 (List.mem_cons_of_mem ch hch2) it hit hid))
      (fun ch2 hch2 => hstep.2.2.2 ch2.itemId
        (fun it hit hid => hCG ch2 (List.mem_cons_of_mem ch hch2) it hit hid))
    refine ⟨?_, ?_⟩
    · intro c' hc'
      exact ⟨((hrec.1 c' hc').1).trans (hstep.1 c' hc').1,
        ((hrec.1 c' hc').2).trans (hstep.1 c' hc').2⟩
    · intro gid hgid
      exact (hrec.2 gid hgid).trans (hstep.2.1 gid hgid)

theorem normGroupFold_props :
    ∀ (gids : List Nat) (s0 : State), WF s0 → gids.Nodup →
      WF (gids.foldl normalizeGroupItemsOrder s0)
      ∧ (∀ gid ∈ gids, groupGapFree (gids.foldl normalizeGroupItemsOrder s0) gid)
      ∧ (∀ gid, gid ∉ gids →
          groupItems (gids.foldl normalizeGroupItemsOrder s0) gid = groupItems s0 gid)
      ∧ (∀ c', ungroupedItems (gids.foldl normalizeGroupItemsOrder s0) c'
            = ungroupedItems s0 c'
          ∧ columnGroups (gids.foldl normalizeGroupItemsOrder s0) c' = columnGroups s0 c')
      ∧ (gids.foldl normalizeGroupItemsOrder s0).columns = s0.columns
      ∧ ((gids.foldl normalizeGroupItemsOrder s0).groups).map Group.id
          = s0.groups.map Group.id
  | [], s0, hwf, _ => ⟨hwf, by simp, fun _ _ => rfl, fun c' => ⟨rfl, rfl⟩, rfl, rfl⟩
  | g :: gids, s0, hwf, hnd => by
    have hgnotin := (List.nodup_cons.mp hnd).1
    have hnd2 := (List.nodup_cons.mp hnd).2
    have hwf1 : WF (normalizeGroupItemsOrder s0 g) := normalizeGroup_WF s0 g hwf
    have ih := normGroupFold_props gids (normalizeGroupItemsOrder s0 g) hwf1 hnd2
    have hframe := normalizeGroup_frame s0 g hwf.1
    rw [List.foldl_cons]
    refine ⟨ih.1, ?_, ?_, ?_, ?_, ?_⟩
    · intro gid hgid
      rcases List.mem_cons.mp hgid with rfl | hgid2
      · have hest := groupGapFree_normalizeGroup s0 gid hwf.1
        have hfr := ih.2.2.1 gid hgnotin
        unfold groupGapFree at hest ⊢
        rw [hfr]
        exact hest
      · exact ih.2.1 gid hgid2
    · intro gid hgid
      have hne : gid ≠ g := fun hcontra => hgid (hcontra ▸ List.mem_cons_self g gids)
      have hnotin : gid ∉ gids := fun hcontra => hgid (List.mem_cons_of_mem g hcontra)
      exact (ih.2.2.1 gid hnotin).trans (hframe.2.1 gid hne)
    · intro c'
      exact ⟨(ih.2.2.2.1 c').1.trans (hframe.1 c'),
        (ih.2.2.2.1 c').2.trans (hframe.2.2 c')⟩
    · rw [ih.2.2.2.2.1, normalizeGroup_eq s0 g hwf.1]
    · rw [ih.2.2.2.2.2, normalizeGroup_eq s0 g hwf.1]

theorem syncItems_inv (s : State) (boardId userId : Nat) (changes : List ItemChange)
    (r : SyncResult) (s1 : State)
    (hwf : WF s) (hinv : LayoutInv s)
    (hok : syncItemPositions s boardId userId changes = .ok (r, s1)) : LayoutInv s1 := by
  by_cases hne : changes = []
  · rw [hne] at hok
    unfold syncItemPositions at hok
    rw [if_pos rfl] at hok
    injection hok with h1
    injection h1 with hr hs1
    rw [← hs1]
    exact hinv
  unfold syncItemPositions at hok
  rw [if_neg hne] at hok
  split at hok
  · exact Except.noConfusion hok
  simp only [] at hok
  split at hok
  · exact Except.noConfusion hok
  split at hok
  · exact Except.noConfusion hok
  split at hok
  · exact Except.noConfusion hok
  split at hok
  · exact Except.noConfusion hok
  split at hok
  · exact Except.noConfusion hok
  rename_i hlenne
  injection hok with hpair
  injection hpair with hr hs3
  subst hs3
  set U := dedupFirst (changes.map (·.itemId)) with hU2
  set fetchedI := s.items.filter (fun it =>
    decide (it.id ∈ U)
      && (boardColumns s boardId).any (fun c => decide (c.id = it.columnId))) with hFI
  set ccols := (fetchedI.map (·.columnId) ++ changes.map (·.newColumnId)).foldl
    insertUnique [] with hC2
  set gids := changedGroupIds fetchedI changes with hG2
  have hlen : fetchedI.length = U.length := not_ne_iff.mp hlenne
  have hmemF : ∀ ch ∈ changes, ∀ it ∈ s.items, it.id = ch.itemId → it ∈ fetchedI := by
    have hlen2 := hlen
    rw [hFI] at hlen2
    intro ch hch it hit hid
    have hitU : it.id ∈ U := by
      rw [hU2, mem_dedupFirst, hid]
      exact List.mem_map_of_mem _ hch
    rw [hFI]
    refine mem_filter_of_count_item hwf.1 ?_ hlen2 hit hitU
    intro y hy
    simp only [Bool.and_eq_true] at hy
    exact of_decide_eq_true hy.1
  have hT : ∀ ch ∈ changes, ch.newColumnId ∈ ccols := by
    intro ch hch
    rw [hC2, foldl_insertUnique_mem]
    right
    rw [List.mem_append]
    right
    exact List.mem_map_of_mem _ hch
  have hC : ∀ ch ∈ changes, ∀ it ∈ s.items, it.id = ch.itemId →
      it.columnId ∈ ccols := by
    intro ch hch it hit hid
    rw [hC2, foldl_insertUnique_mem]
    right
    rw [List.mem_append]
    left
    exact List.mem_map_of_mem _ (hmemF ch hch it hit hid)
  have hFIN : (fetchedI.map Item.id).Nodup := by
    rw [hFI]
    exact filter_map_nodup _ _ _ hwf.1
  have hFIsub : fetchedI ⊆ s.items := by
    rw [hFI]
    exact (List.filter_sublist s.items).subset
  have hTG : ∀ ch ∈ changes, ∀ gg : Nat, ch.newGroupId = some gg → gg ∈ gids := by
    intro ch hch gg hgg
    rw [hG2]
    exact mem_changedGroupIds fetchedI changes ch hch gg (Or.inl hgg)
  have hCG : ∀ ch ∈ changes, ∀ it ∈ s.items, it.id = ch.itemId →
      it.groupId = none ∨ ∃ gg ∈ gids, it.groupId = some gg := by
    intro ch hch it hit hid
    cases hgi : it.groupId with
    | none => exact Or.inl rfl
    | some gg =>
      refine Or.inr ⟨gg, ?_, rfl⟩
      have hitF := hmemF ch hch it hit hid
      have hfind : fetchedI.find? (fun y => decide (y.id = ch.itemId)) = some it := by
        refine find?_item_id_unique hitF hid ?_
        intro y hy hyid
        exact List.inj_on_of_nodup_map hwf.1 (hFIsub hy) hit (by rw [hyid, hid])
      rw [hG2]
      exact mem_changedGroupIds fetchedI changes ch hch gg
        (Or.inr ⟨it, hfind, hgi⟩)
  have hids := itemSyncFold_ids changes s
  have hwf1 : WF (changes.foldl applyItemChange s) :=
    WF_of_ids_eq hids.1 (congrArg (List.map Group.id) hids.2.1) hids.2.2.1
      hids.2.2.2.1 hids.2.2.2.2.1 hids.2.2.2.2.2 hwf
  have hgidsN : gids.Nodup := by
    rw [hG2]
    exact changedGroupIds_nodup fetchedI changes
  have hgprops := normGroupFold_props gids (changes.foldl applyItemChange s) hwf1 hgidsN
  have hccolsN : ccols.Nodup := by
    rw [hC2]
    exact foldl_insertUnique_nodup _ [] List.nodup_nil
  have hprops := normalize_foldl_props
    (fun c => colPrefGet (buildItemPrefs fetchedI changes) c) ccols
    (gids.foldl normalizeGroupItemsOrder (changes.foldl applyItemChange s))
    hgprops.1 hccolsN
  have hframe := itemSyncFold_frame ccols gids changes s hT hTG hC hCG
  constructor
  · intro c hc
    rw [hprops.2.2.2.2.1, hgprops.2.2.2.2.1, hids.2.2.1] at hc
    by_cases hcin : c.id ∈ ccols
    · exact hprops.2.1 c.id hcin
    · unfold rootGapFree rootIndexList
      rw [(hprops.2.2.1 c.id hcin).1, (hprops.2.2.1 c.id hcin).2,
        (hgprops.2.2.2.1 c.id).1, (hgprops.2.2.2.1 c.id).2,
        (hframe.1 c.id hcin).1, (hframe.1 c.id hcin).2]
      exact hinv.1 c hc
  · intro g hg
    by_cases hgin : g.id ∈ gids
    · have h9 := hgprops.2.1 g.id hgin
      unfold groupGapFree at h9 ⊢
      rw [hprops.2.2.2.1 g.id]
      exact h9
    · have hgid0 : g.id ∈ s.groups.map Group.id := by
        rw [← congrArg (List.map Group.id) hids.2.1, ← hgprops.2.2.2.2.2,
          ← hprops.2.2.2.2.2]
        exact List.mem_map_of_mem _ hg
      obtain ⟨g0, hg0, hg0id⟩ := List.mem_map.mp hgid0
      have h9 := hinv.2 g0 hg0
      unfold groupGapFree at h9 ⊢
      rw [hprops.2.2.2.1 g.id, hgprops.2.2.1 g.id hgin, hframe.2 g.id hgin, ← hg0id]
      exact h9

theorem map_snd_ok {α : Type} {e : Except ErrKind (α × State)} {s1 : State}
    (h : e.map (·.2) = .ok s1) : ∃ x : α, e = .ok (x, s1) := by
  cases e with
  | error err => exact Except.noConfusion h
  | ok p =>
    refine ⟨p.1, ?_⟩
    have h2 : p.2 = s1 := by
      injection h
    rw [← h2]

/-- C1 (amended): the gap-free layout invariant — every column's root
entries renumbered `0..N-1`, every group's item rows `0..m-1` — is
preserved by every successful mutating operation of the service EXCEPT
`deleteItem`, which deletes the row without renumbering and can leave a
gap (see the counterexample). Preservation holds for any store satisfying
the schema well-formedness `WF` and the referential integrity
`Consistent`. -/
theorem layout_invariant_preserved_theorem (s : State) (op : MutOp) (s1 : State)
    (hwf : WF s) (hcons : Consistent s) (hinv : LayoutInv s)
    (hnotdel : op.isDeleteItem = false)
    (hok : applyOp s op = .ok s1) : LayoutInv s1 := by
  cases op with
  | createColumn b u =>
    obtain ⟨cid, h⟩ := map_snd_ok hok
    exact createColumn_inv s b u cid s1 hwf hcons hinv h
  | createGroup c u =>
    obtain ⟨gid, h⟩ := map_snd_ok hok
    exact createGroup_inv s c u gid s1 hwf hcons hinv h
  | addItem c u g =>
    obtain ⟨iid, h⟩ := map_snd_ok hok
    exact addItem_inv s c u g iid s1 hwf hcons hinv h
  | reorderColumns b u o n =>
    exact reorderColumns_inv s b u o n s1 hinv hok
  | syncItems b u ch =>
    obtain ⟨r, h⟩ := map_snd_ok hok
    exact syncItems_inv s b u ch r s1 hwf hinv h
  | syncGroups b u ch =>
    obtain ⟨r, h⟩ := map_snd_ok hok
    exact syncGroups_inv s b u ch r s1 hwf hinv h
  | deleteColumn c u =>
    obtain ⟨x, h⟩ := map_snd_ok hok
    exact deleteColumn_inv s c u s1 hwf hcons hinv h
  | deleteGroup g u =>
    obtain ⟨x, h⟩ := map_snd_ok hok
    exact deleteGroup_inv s g u s1 hwf hcons hinv h
  | deleteItem i u => exact Bool.noConfusion hnotdel

/-- Witness for C1: `sampleState` is well-formed, consistent and satisfies
the invariant; deleting group 50 succeeds and the resulting concrete store
again satisfies the invariant. -/
theorem layout_invariant_preserved_witness :
    (WF sampleState ∧ Consistent sampleState ∧ LayoutInv sampleState
      ∧ (MutOp.deleteGroup 50 7).isDeleteItem = false
      ∧ applyOp sampleState (MutOp.deleteGroup 50 7) = .ok sampleGroupDeleted)
      ∧ LayoutInv sampleGroupDeleted :=
  ⟨⟨by decide, by decide, by decide, rfl, rfl⟩,
    layout_invariant_preserved_theorem sampleState (MutOp.deleteGroup 50 7)
      sampleGroupDeleted (by decide) (by decide) (by decide) rfl rfl⟩

end Retro
